import Mathlib

/-!
# JBoy orchestration layer (`app/src/main/cpp/emulator_core.cpp`)

A shallow embedding of `class JboyCore`: the audio ring buffer, the lifecycle
operations and the save-state protocol, followed by theorems about them.

Conventions of the embedding

* C++ `int` values are `Int`; an arithmetic result that can leave the 32-bit
  range is passed through `wrapInt32` (two's-complement wrap-around).
* `x % y` on `int` is C++ truncated remainder, `Int.tmod`.
* `x & 1` is bit 0 of the two's-complement representation, i.e. `x % 2`
  (Euclidean remainder) for every sign of `x`.
* the emulation engine (mGBA's `struct mCore`) is external: its state is a
  type parameter `σ` and its entry points are the fields of `MCoreApi σ`.
-/

namespace Jboy

/-- The constant `AUDIO_BUFFER_CAPACITY` of `class JboyCore`. -/
def AUDIO_BUFFER_CAPACITY : Int := 16384

/-- Two's-complement wrap-around of an integer into the range of a 32-bit `int`. -/
def wrapInt32 (x : Int) : Int := (x + 2147483648) % 4294967296 - 2147483648

/-- The data members of `class JboyCore` (emulator_core.cpp, lines 89-111).
`m_core` holds the state of the engine instance, `none` standing for `nullptr`. -/
structure JboyCore (σ : Type) where
  m_core : Option σ
  m_buttons : Int
  m_paused : Bool
  m_romLoaded : Bool
  m_coreReady : Bool
  m_targetSampleRate : Nat
  m_targetAudioBufferSize : Nat
  m_frameSkipEnabled : Bool
  m_frameSkipThrottlePercent : Int
  m_frameSkipInterval : Int
  m_interframeBlending : Bool
  m_idleLoopMode : Int
  m_gbControllerRumble : Bool
  m_romTitle : String
  m_romPath : String
  m_coreVideoBuffer : Nat → Nat
  m_videoBuffer : Nat → Nat
  m_audioBuffer : Int → Int
  m_audioReadIndex : Int
  m_audioWriteIndex : Int
  m_audioCount : Int

namespace JboyCore

variable {σ : Type}

/-- The state built by the constructor `JboyCore::JboyCore()`: the default member
initialisers of the class and the four `memset(.., 0, ..)` calls. -/
def construct : JboyCore σ :=
  { m_core := none
    m_buttons := 0
    m_paused := false
    m_romLoaded := false
    m_coreReady := false
    m_targetSampleRate := 44100
    m_targetAudioBufferSize := 8192
    m_frameSkipEnabled := false
    m_frameSkipThrottlePercent := 33
    m_frameSkipInterval := 0
    m_interframeBlending := false
    m_idleLoopMode := 0
    m_gbControllerRumble := false
    m_romTitle := ""
    m_romPath := ""
    m_coreVideoBuffer := fun _ => 0
    m_videoBuffer := fun _ => 0
    m_audioBuffer := fun _ => 0
    m_audioReadIndex := 0
    m_audioWriteIndex := 0
    m_audioCount := 0 }

/-- One iteration of the `for` loop of `appendAudioSamples` (lines 174-180),
storing the sample `x`. -/
def appendAudioSamplesStep (s : JboyCore σ) (x : Int) : JboyCore σ :=
  let s1 : JboyCore σ :=
    { s with
      m_audioBuffer := Function.update s.m_audioBuffer s.m_audioWriteIndex x
      m_audioWriteIndex := (wrapInt32 (s.m_audioWriteIndex + 1)).tmod AUDIO_BUFFER_CAPACITY }
  if s1.m_audioCount < AUDIO_BUFFER_CAPACITY then
    { s1 with m_audioCount := s1.m_audioCount + 1 }
  else
    { s1 with
      m_audioReadIndex := (wrapInt32 (s1.m_audioReadIndex + 1)).tmod AUDIO_BUFFER_CAPACITY }

/-- The `for (int i = 0; i < sampleCount; ++i)` loop of `appendAudioSamples`:
`remaining` iterations are left and the next one reads `samples[i]`. -/
def appendAudioSamplesLoop (samples : List Int) : Nat → Nat → JboyCore σ → JboyCore σ
  | 0, _, s => s
  | remaining + 1, i, s =>
    appendAudioSamplesLoop samples remaining (i + 1)
      (appendAudioSamplesStep s (samples.getD i 0))

/-- `JboyCore::appendAudioSamples(samples, sampleCount)` (lines 169-182);
`samples = none` is the null pointer. -/
def appendAudioSamples (s : JboyCore σ) (samples : Option (List Int)) (sampleCount : Int) :
    JboyCore σ :=
  match samples with
  | none => s
  | some buf =>
    if sampleCount ≤ 0 then s
    else appendAudioSamplesLoop buf sampleCount.toNat 0 s

/-- `JboyCore::appendAudioFrame(left, right)` (lines 184-187). -/
def appendAudioFrame (s : JboyCore σ) (left right : Int) : JboyCore σ :=
  appendAudioSamples s (some [left, right]) 2

/-- The clamped preferred backlog of `consumeAudioSamples` (lines 261-271): the
final value of the local `preferredBacklog`. -/
def preferredBacklog (targetSampleRate : Nat) (maxSamples : Int) : Int :=
  let preferredBacklog : Int := wrapInt32 ((targetSampleRate * 2 * 65 / 1000 : Nat) : Int)
  let minBacklog : Int := wrapInt32 (maxSamples * 2)
  let maxBacklog : Int := AUDIO_BUFFER_CAPACITY - maxSamples
  let maxBacklog : Int := if maxBacklog < minBacklog then minBacklog else maxBacklog
  if preferredBacklog < minBacklog then minBacklog
  else if preferredBacklog > maxBacklog then maxBacklog
  else preferredBacklog

/-- The number of samples that the trimming block of `consumeAudioSamples`
(lines 272-281) removes from the read end: the local `drop` when the block
applies it, and 0 when nothing is dropped. -/
def trimDrop (s : JboyCore σ) (maxSamples : Int) : Int :=
  let preferredBacklog := preferredBacklog s.m_targetSampleRate maxSamples
  if s.m_audioCount > preferredBacklog then
    let drop : Int := wrapInt32 (s.m_audioCount - preferredBacklog)
    let drop : Int := if drop % 2 ≠ 0 then drop - 1 else drop
    if drop > 0 then drop else 0
  else 0

/-- The trimming block of `consumeAudioSamples` (lines 272-281). -/
def trimBacklog (s : JboyCore σ) (maxSamples : Int) : JboyCore σ :=
  let preferredBacklog := preferredBacklog s.m_targetSampleRate maxSamples
  if s.m_audioCount > preferredBacklog then
    let drop : Int := wrapInt32 (s.m_audioCount - preferredBacklog)
    let drop : Int := if drop % 2 ≠ 0 then drop - 1 else drop
    if drop > 0 then
      { s with
        m_audioReadIndex := (wrapInt32 (s.m_audioReadIndex + drop)).tmod AUDIO_BUFFER_CAPACITY
        m_audioCount := wrapInt32 (s.m_audioCount - drop) }
    else s
  else s

/-- The copy loop of `consumeAudioSamples` (lines 290-293) with `remaining`
iterations left: the samples stored to `out`, in order, and the state reached. -/
def consumeCopyLoop : Nat → JboyCore σ → List Int × JboyCore σ
  | 0, s => ([], s)
  | remaining + 1, s =>
    let x := s.m_audioBuffer s.m_audioReadIndex
    let r := consumeCopyLoop remaining
      { s with
        m_audioReadIndex := (wrapInt32 (s.m_audioReadIndex + 1)).tmod AUDIO_BUFFER_CAPACITY }
    (x :: r.1, r.2)

/-- The number of samples `consumeAudioSamples` serves from the trimmed state
`s` (lines 283-286): the local `count` before the `count <= 0` test. -/
def serveCount (s : JboyCore σ) (maxSamples : Int) : Int :=
  let count : Int := if s.m_audioCount < maxSamples then s.m_audioCount else maxSamples
  if count % 2 ≠ 0 then count - 1 else count

/-- What a call of `consumeAudioSamples` yields: the returned value, the samples
written to `out[0], out[1], ...` in order, and the object afterwards. -/
structure Consumed (σ : Type) where
  ret : Int
  out : List Int
  core : JboyCore σ

/-- `JboyCore::consumeAudioSamples(out, maxSamples)` (lines 255-296);
`outNonNull = false` is a null `out`. -/
def consumeAudioSamples (s : JboyCore σ) (outNonNull : Bool) (maxSamples : Int) : Consumed σ :=
  if outNonNull = false ∨ maxSamples ≤ 0 then
    { ret := 0, out := [], core := s }
  else
    let s1 := trimBacklog s maxSamples
    let count := serveCount s1 maxSamples
    if count ≤ 0 then
      { ret := 0, out := [], core := s1 }
    else
      let r := consumeCopyLoop count.toNat s1
      { ret := count
        out := r.1
        core := { r.2 with m_audioCount := r.2.m_audioCount - count } }

/-- The `n` samples found in the circular buffer `buf` from index `r` onward. -/
def window (buf : Int → Int) (r : Int) (n : Nat) : List Int :=
  (List.range n).map (fun (i : Nat) => buf ((r + (i : Int)) % AUDIO_BUFFER_CAPACITY))

/-- The logical contents of the ring buffer: the `m_audioCount` samples read
from `m_audioReadIndex` onward, oldest first. -/
def contents (s : JboyCore σ) : List Int :=
  window s.m_audioBuffer s.m_audioReadIndex s.m_audioCount.toNat

/-- The last `k` elements of a list (the whole list when it is shorter). -/
def lastN {α : Type} (k : Nat) (l : List α) : List α := l.drop (l.length - k)

/-- The number `x` rounded down to an even number. -/
def roundDownEven (x : Int) : Int := x - x % 2

/-- The ring-buffer invariant of the data model. -/
def RingInv (s : JboyCore σ) : Prop :=
  0 ≤ s.m_audioCount ∧ s.m_audioCount ≤ AUDIO_BUFFER_CAPACITY ∧
  0 ≤ s.m_audioReadIndex ∧ s.m_audioReadIndex < AUDIO_BUFFER_CAPACITY ∧
  0 ≤ s.m_audioWriteIndex ∧ s.m_audioWriteIndex < AUDIO_BUFFER_CAPACITY ∧
  s.m_audioWriteIndex = (s.m_audioReadIndex + s.m_audioCount) % AUDIO_BUFFER_CAPACITY

instance (s : JboyCore σ) : Decidable (RingInv s) := by
  unfold RingInv; infer_instance

end JboyCore

/-! ## External collaborators -/

/-- The constant `GBA_SCREEN_WIDTH`. -/
def GBA_SCREEN_WIDTH : Nat := 240

/-- The constant `GBA_SCREEN_HEIGHT`. -/
def GBA_SCREEN_HEIGHT : Nat := 160

/-- The calls that leave the orchestration layer (engine entry points, mGBA
helper functions and C library file calls), recorded in the order performed. -/
inductive ExternalCall where
  | deinit
  | mCoreCreate
  | createSetup
  | VFileOpen (path : String)
  | loadROM
  | vfClose
  | mCoreLoadSaveFile (path : String)
  | getGameInfo
  | unloadROM
  | resetSetup
  | reset
  | runFrame
  | getAudioBuffer
  | mAudioBufferAvailable
  | mAudioBufferRead (frames : Nat)
  | stateSize
  | saveState
  | loadState
  | mCoreSaveState (slot : Int)
  | mCoreLoadState (slot : Int)
  | mCoreGetState (slot : Int)
  | fopen (path : String) (mode : String)
  | fwrite (path : String) (requested : Nat)
  | fread (path : String) (requested : Nat)
  | fclose (path : String)
  | setKeys (keys : Nat)
  | applyAudioConfig
  | applyGameOptions
  | cheatDevice
  | mCheatSetsGetPointer (index : Nat)
  | createSet (name : String)
  | mCheatAddSet
  | mCheatAddLine (line : String) (accepted : Bool)
  | enableSet
  | cheatRefresh
  | mCheatRefresh
  | mCheatDeviceClear
  deriving DecidableEq

/-- The configuration values that `createCoreLocked` and `performCoreResetLocked`
push into `m_core->opts` and `m_core->config`. -/
structure PushedOptions where
  sampleRate : Nat
  audioBuffers : Nat
  frameskip : Int
  interframeBlending : Bool
  idleOptimization : String
  frameskipThrottlePercent : Int
  gbControllerRumble : Bool

/-- The engine (mGBA's `struct mCore` and the `mCore*`/`mAudioBuffer*` helpers),
which is not part of this repository: `σ` is the state of an engine instance, a
field of type `Option _` is a function pointer that the code tests for null. -/
structure MCoreApi (σ : Type) where
  /-- the compile-time test `sizeof(mColor) == 2` -/
  color16 : Bool
  /-- `init`, `mCoreInitConfig`, `mCoreLoadConfig`, the option stores,
  `reloadConfigOption`, `setAVStream`, `setVideoBuffer` and `setAudioBufferSize`
  of `createCoreLocked` (lines 382-432) -/
  createSetup : PushedOptions → σ → σ
  /-- the option stores, `reloadConfigOption`, `setVideoBuffer`,
  `setAudioBufferSize` and `setAVStream` of `performCoreResetLocked` (lines 454-484) -/
  resetSetup : PushedOptions → σ → σ
  reset : Option (σ → σ)
  /-- `m_core->loadROM(m_core, vf)` on the bytes of the opened ROM file -/
  loadROM : σ → List Nat → Bool × σ
  unloadROM : Option (σ → σ)
  mCoreLoadSaveFile : σ → String → Bool × σ
  /-- `getGameInfo`: the reported `info.title` -/
  getGameInfo : σ → String
  /-- `m_core->runFrame(m_core)`: the engine state and the contents of the video
  surface registered with `setVideoBuffer` afterwards -/
  runFrame : Option (σ → (Nat → Nat) → σ × (Nat → Nat))
  /-- `m_core->getAudioBuffer(m_core)`; `false` is a null buffer -/
  getAudioBuffer : Option (σ → Bool)
  mAudioBufferAvailable : σ → Nat
  /-- `mAudioBufferRead(audioBuffer, temp, framesToRead)`: the stereo frames stored
  to `temp` -/
  mAudioBufferRead : σ → Nat → List (Int × Int) × σ
  stateSize : Option (σ → Nat)
  /-- `m_core->saveState(m_core, buffer)`: the result and the bytes stored to the buffer -/
  saveState : Option (σ → (Bool × List Nat) × σ)
  /-- `m_core->loadState(m_core, buffer)` -/
  loadState : Option (σ → List Nat → Bool × σ)
  mCoreSaveState : σ → Int → Bool × σ
  mCoreLoadState : σ → Int → Bool × σ
  /-- `mCoreGetState(m_core, slot, false)`; `true` is a non-null `VFile` -/
  mCoreGetState : σ → Int → Bool
  /-- `m_core->setKeys(m_core, keys)` -/
  setKeys : σ → Nat → σ
  /-- the stores to `opts`, `setAudioBufferSize` and `reloadConfigOption` of
  `setAudioConfig` (lines 197-202) -/
  applyAudioConfig : Nat → Nat → σ → σ
  /-- the stores to `opts` and `config` and `reloadConfigOption` of `setGameOptions`
  (lines 218-236) -/
  applyGameOptions : PushedOptions → σ → σ

/-- The object together with the part of the outside world it acts on: the files
on durable storage (`none` for a file that does not exist) and the record of
the external calls made so far. -/
structure System (σ : Type) where
  core : JboyCore σ
  files : String → Option (List Nat)
  trace : List ExternalCall

namespace System

variable {σ : Type}

/-- Record an external call. -/
def call (y : System σ) (c : ExternalCall) : System σ :=
  { y with trace := y.trace ++ [c] }

end System

/-! ## Paths -/

/-- The decimal digits of `n`, most significant first (`fuel` bounds the number
of digits). -/
def decimalDigits : Nat → Nat → List Char
  | 0, _ => []
  | fuel + 1, n =>
    if n < 10 then [Nat.digitChar n]
    else decimalDigits fuel (n / 10) ++ [Nat.digitChar (n % 10)]

/-- The C++ library function `std::to_string(int)`. -/
def to_string (n : Int) : String :=
  if n < 0 then String.mk ('-' :: decimalDigits (n.natAbs + 1) n.natAbs)
  else String.mk (decimalDigits (n.toNat + 1) n.toNat)

/-- The C++ library function `std::string::find_last_of(char)`: the index of the last
occurrence of `c`, `none` for `npos`. -/
def find_last_of (s : List Char) (c : Char) : Option Nat :=
  if c ∈ s then some (s.length - 1 - s.reverse.indexOf c) else none

/-- The C++ library function `std::string::rfind(pattern)`: the largest index below
`bound` at which `pattern` starts in `s`, `none` for `npos`. -/
def rfind (s pattern : List Char) : Nat → Option Nat
  | 0 => none
  | bound + 1 =>
    if pattern.isPrefixOf (s.drop bound) then some bound else rfind s pattern bound

namespace JboyCore

variable {σ : Type}

/-- `JboyCore::getStatePath(slot)` (lines 137-139). -/
def getStatePath (s : JboyCore σ) (slot : Int) : String :=
  s.m_romPath ++ ".slot" ++ to_string slot ++ ".ss"

/-- `JboyCore::getSavePath()` (lines 141-152). -/
def getSavePath (s : JboyCore σ) : String :=
  if s.m_romPath.data = [] then ""
  else
    let savePath := s.m_romPath.data
    let savePath :=
      match find_last_of savePath '.' with
      | some dot => savePath.take dot
      | none => savePath
    String.mk savePath ++ ".sav"

/-- The options that both `createCoreLocked` and `performCoreResetLocked` derive
from the data members before pushing them to the engine. -/
def pushedOptions (s : JboyCore σ) : PushedOptions :=
  { sampleRate := s.m_targetSampleRate
    audioBuffers := s.m_targetAudioBufferSize
    frameskip := if s.m_frameSkipEnabled && decide (s.m_frameSkipInterval > 0)
      then s.m_frameSkipInterval else 0
    interframeBlending := s.m_interframeBlending
    idleOptimization :=
      if s.m_idleLoopMode = 1 then "detect"
      else if s.m_idleLoopMode = 2 then "ignore" else "remove"
    frameskipThrottlePercent := s.m_frameSkipThrottlePercent
    gbControllerRumble := s.m_gbControllerRumble }

end JboyCore

/-! ## Lifecycle -/

namespace JboyCore

variable {σ : Type}

/-- The ring-buffer reset `m_audioReadIndex = 0; m_audioWriteIndex = 0;
m_audioCount = 0;` shared by the lifecycle operations. -/
def clearAudio (s : JboyCore σ) : JboyCore σ :=
  { s with m_audioReadIndex := 0, m_audioWriteIndex := 0, m_audioCount := 0 }

/-- `JboyCore::createCoreLocked()` (lines 370-441); `created` is what
`mCoreCreate(mPLATFORM_GBA)` returns, `none` for a null pointer. -/
def createCoreLocked (api : MCoreApi σ) (created : Option σ) (y : System σ) :
    Bool × System σ :=
  let y1 : System σ :=
    match y.core.m_core with
    | some _ => { y.call .deinit with core := { y.core with m_core := none } }
    | none => y
  let y2 := y1.call .mCoreCreate
  match created with
  | none => (false, { y2 with core := { y2.core with m_core := none } })
  | some c =>
    let y3 := y2.call .createSetup
    (true,
      { y3 with
        core := clearAudio
          { y3.core with
            m_core := some (api.createSetup y3.core.pushedOptions c)
            m_romLoaded := false
            m_coreReady := false
            m_paused := false } })

/-- `JboyCore::performCoreResetLocked()` (lines 443-493). -/
def performCoreResetLocked (api : MCoreApi σ) (y : System σ) : Bool × System σ :=
  match y.core.m_core with
  | none => (false, { y with core := { y.core with m_coreReady := false } })
  | some c =>
    if y.core.m_romLoaded = false then
      (false, { y with core := { y.core with m_coreReady := false } })
    else
      match api.reset with
      | none => (false, { y with core := { y.core with m_coreReady := false } })
      | some reset =>
        let y1 := (y.call .resetSetup).call .reset
        (true,
          { y1 with
            core :=
              { clearAudio y1.core with
                m_core := some (reset (api.resetSetup y1.core.pushedOptions c))
                m_coreReady := true
                m_paused := false } })

/-- `JboyCore::init()` (lines 499-507). -/
def init (api : MCoreApi σ) (created : Option σ) (y : System σ) : Bool × System σ :=
  createCoreLocked api created y

/-- `JboyCore::cleanup()` (lines 509-524). -/
def cleanup (api : MCoreApi σ) (y : System σ) : System σ :=
  let y1 : System σ :=
    match y.core.m_core with
    | some c =>
      let y2 : System σ :=
        match api.unloadROM with
        | some unloadROM =>
          if y.core.m_romLoaded then
            { y.call .unloadROM with core := { y.core with m_core := some (unloadROM c) } }
          else y
        | none => y
      { y2.call .deinit with core := { y2.core with m_core := none } }
    | none => y
  { y1 with core := clearAudio { y1.core with m_romLoaded := false, m_coreReady := false } }

/-- The title that `loadRom` stores (lines 561-576): the engine-reported title
`infoTitle` when it is not empty, else the file name of `romPath`, cut at the
last occurrence of ".gba". -/
def deriveRomTitle (infoTitle romPath : String) : String :=
  let title : List Char :=
    if infoTitle.data ≠ [] then infoTitle.data
    else
      match find_last_of romPath.data '/' with
      | some i => romPath.data.drop (i + 1)
      | none =>
        match find_last_of romPath.data (Char.ofNat 92) with
        | some i => romPath.data.drop (i + 1)
        | none => romPath.data
  match rfind title ".gba".data (title.length + 1) with
  | some extPos => String.mk (title.take extPos)
  | none => String.mk title

/-- The part of `loadRom` between the engine accepting the ROM and the mandatory
reset (lines 552-578): the save file is attached, the title derived and
`m_romLoaded` set; `y` is the system and `c` the engine state at that point. -/
def loadRomAttach (api : MCoreApi σ) (romPath : String) (c : σ) (y : System σ) : System σ :=
  let savePath := y.core.getSavePath
  let attached : σ × System σ :=
    if savePath.data ≠ [] then
      ((api.mCoreLoadSaveFile c savePath).2, y.call (.mCoreLoadSaveFile savePath))
    else (c, y)
  { attached.2.call .getGameInfo with
    core := { attached.2.core with
      m_core := some attached.1
      m_romTitle := deriveRomTitle (api.getGameInfo attached.1) romPath
      m_romLoaded := true } }

/-- The part of `loadRom` after the engine has accepted the ROM (lines 552-586).
The result is `none` when the call dereferences a null pointer
(`m_core->unloadROM` at line 581 is not tested). -/
def loadRomFinish (api : MCoreApi σ) (romPath : String) (c : σ) (y : System σ) :
    Option (Bool × System σ) :=
  let rr := performCoreResetLocked api (loadRomAttach api romPath c y)
  if rr.1 = false then
    match api.unloadROM, rr.2.core.m_core with
    | some unloadROM, some c1 =>
      some (false,
        { rr.2.call .unloadROM with
          core := { rr.2.core with m_core := some (unloadROM c1), m_romLoaded := false } })
    | _, _ => none
  else some (true, rr.2)

/-- The part of `loadRom` after the engine instance is in place (lines 535-586). -/
def loadRomOpen (api : MCoreApi σ) (romPath : String) (y : System σ) :
    Option (Bool × System σ) :=
  let y1 : System σ :=
    { y with core := { y.core with m_coreReady := false, m_romPath := romPath } }
  let y2 := y1.call (.VFileOpen romPath)
  match y2.files romPath with
  | none => some (false, y2)
  | some vf =>
    match y2.core.m_core with
    | none => none
    | some c =>
      let loaded := api.loadROM c vf
      let y3 : System σ :=
        { y2.call .loadROM with core := { y2.core with m_core := some loaded.2 } }
      if loaded.1 = false then some (false, y3.call .vfClose)
      else loadRomFinish api romPath loaded.2 y3

/-- `JboyCore::loadRom(romPath)` (lines 526-586); `created` is what `mCoreCreate`
returns if the engine is (re)created. The result is `none` when the call
dereferences a null pointer. -/
def loadRom (api : MCoreApi σ) (romPath : String) (created : Option σ) (y : System σ) :
    Option (Bool × System σ) :=
  let r : Bool × System σ :=
    if y.core.m_core.isNone ∨ y.core.m_romLoaded = true then createCoreLocked api created y
    else (true, y)
  if r.1 = false then some (false, r.2)
  else loadRomOpen api romPath r.2

/-- `JboyCore::unloadRom()` (lines 588-599). -/
def unloadRom (api : MCoreApi σ) (y : System σ) : System σ :=
  let y1 : System σ :=
    match y.core.m_core, api.unloadROM with
    | some c, some unloadROM =>
      if y.core.m_romLoaded then
        { y.call .unloadROM with core := { y.core with m_core := some (unloadROM c) } }
      else y
    | _, _ => y
  { y1 with
    core := { clearAudio { y1.core with m_romLoaded := false, m_coreReady := false } with
      m_romTitle := "" } }

/-- `JboyCore::pause()` (lines 794-798). -/
def pause (y : System σ) : System σ :=
  { y with core := { y.core with m_paused := true } }

/-- `JboyCore::resume()` (lines 800-804). -/
def resume (y : System σ) : System σ :=
  { y with core := { y.core with m_paused := false } }

/-- `JboyCore::reset()` (lines 806-818); `none` as for `loadRom`. -/
def reset (api : MCoreApi σ) (created : Option σ) (y : System σ) : Option (System σ) :=
  if y.core.m_romPath.data = [] then some y
  else (loadRom api y.core.m_romPath created y).map (fun r => r.2)


/-! ## Frame stepping -/

/-- The 5-6-5 repacking of one native 32-bit pixel in `runFrame` (lines 617-623):
the value of the local `rgb565`. -/
def rgb565 (pixel : Nat) : Nat :=
  let c := pixel % 4294967296
  let r := (c &&& 0xFF) % 256
  let g := ((c >>> 8) &&& 0xFF) % 256
  let b := ((c >>> 16) &&& 0xFF) % 256
  (((r &&& 0xF8) <<< 8) ||| ((g &&& 0xFC) <<< 3) ||| (b >>> 3)) % 65536

/-- The contents of `m_videoBuffer` after the conversion of `runFrame`
(lines 612-627) from the surface `surface`: byte `j` of the output, for each of
the `pixelCount * 2` bytes (a 16-bit surface is copied, low byte first). -/
def normalizeVideo (color16 : Bool) (surface : Nat → Nat) (old : Nat → Nat) : Nat → Nat :=
  fun j =>
    if j < GBA_SCREEN_WIDTH * GBA_SCREEN_HEIGHT * 2 then
      let value := if color16 then surface (j / 2) % 65536 else rgb565 (surface (j / 2))
      if j % 2 = 0 then (value &&& 0xFF) % 256 else ((value >>> 8) &&& 0xFF) % 256
    else old j

/-- The interleaved samples `left0, right0, left1, right1, ...` of stereo frames. -/
def interleave : List (Int × Int) → List Int
  | [] => []
  | (l, r) :: rest => l :: r :: interleave rest

/-- The audio drain loop of `runFrame` (lines 633-647) with `remaining = 8 - loops`
iterations left, on the engine state `c`. -/
def drainAudioLoop (api : MCoreApi σ) : Nat → σ → System σ → σ × System σ
  | 0, c, y => (c, y)
  | remaining + 1, c, y =>
    let availableFrames := api.mAudioBufferAvailable c
    let y1 := y.call .mAudioBufferAvailable
    if availableFrames = 0 then (c, y1)
    else
      let framesToRead := if availableFrames < 1024 then availableFrames else 1024
      let rd := api.mAudioBufferRead c framesToRead
      let frames := rd.1.take framesToRead
      let y2 := y1.call (.mAudioBufferRead framesToRead)
      if frames.length = 0 then (rd.2, y2)
      else
        drainAudioLoop api remaining rd.2
          { y2 with
            core := appendAudioSamples y2.core (some (interleave frames))
              ((frames.length * 2 : Nat) : Int) }

/-- The audio part of `runFrame` (lines 629-649) on the engine state `c`: the
engine state and the system after the drain. -/
def runFrameAudio (api : MCoreApi σ) (c : σ) (y : System σ) : σ × System σ :=
  match api.getAudioBuffer with
  | none => (c, y)
  | some getAudioBuffer =>
    if getAudioBuffer c then drainAudioLoop api 8 c (y.call .getAudioBuffer)
    else (c, y.call .getAudioBuffer)

/-- `JboyCore::runFrame()` (lines 601-650). -/
def runFrame (api : MCoreApi σ) (y : System σ) : System σ :=
  match y.core.m_core with
  | none => y
  | some c =>
    if y.core.m_romLoaded = false ∨ y.core.m_coreReady = false ∨ y.core.m_paused = true then y
    else
      match api.runFrame with
      | none => y
      | some step =>
        let stepped := step c y.core.m_coreVideoBuffer
        let y1 : System σ :=
          { y.call .runFrame with
            core := { y.core with
              m_coreVideoBuffer := stepped.2
              m_videoBuffer := normalizeVideo api.color16 stepped.2 y.core.m_videoBuffer } }
        let drained := runFrameAudio api stepped.1 y1
        { drained.2 with core := { drained.2.core with m_core := some drained.1 } }

/-! ## State persistence -/

/-- The fallback `mCoreSaveState(m_core, slot, 0)` of `saveState` on the engine
state `c`, and its result. -/
def saveStateFallback (api : MCoreApi σ) (slot : Int) (c : σ) (y : System σ) :
    Bool × System σ :=
  let fb := api.mCoreSaveState c slot
  (fb.1, { y.call (.mCoreSaveState slot) with core := { y.core with m_core := some fb.2 } })

/-- `JboyCore::saveState(slot)` (lines 670-713). `fopenOk` tells whether
`fopen(statePath, "wb")` succeeds; `written` bounds the value that `fwrite`
returns, the number of bytes that the stream has taken (line 704); `flushed`
bounds the number of those bytes that are in the file once `fclose` has
returned. The code compares the value of `fwrite` with `stateSize` (line 706)
and does not look at the result of `fclose` (line 705). -/
def saveState (api : MCoreApi σ) (slot : Int) (fopenOk : Bool) (written flushed : Nat)
    (y : System σ) : Bool × System σ :=
  match y.core.m_core with
  | none => (false, y)
  | some c =>
    if y.core.m_romLoaded = false ∨ slot < 0 then (false, y)
    else
      match api.stateSize, api.saveState with
      | some stateSizeFn, some saveStateFn =>
        let stateSize := stateSizeFn c
        let y1 := y.call .stateSize
        if stateSize = 0 then (false, y1)
        else
          let sv := saveStateFn c
          let stateData := (sv.1.2 ++ List.replicate stateSize 0).take stateSize
          let y2 : System σ :=
            { y1.call .saveState with core := { y1.core with m_core := some sv.2 } }
          if sv.1.1 = false then saveStateFallback api slot sv.2 y2
          else
            let statePath := y2.core.getStatePath slot
            let y3 := y2.call (.fopen statePath "wb")
            if fopenOk = false then saveStateFallback api slot sv.2 y3
            else
              let count := min written stateSize
              let y4 : System σ :=
                { (y3.call (.fwrite statePath stateSize)).call (.fclose statePath) with
                  files := Function.update y3.files statePath
                    (some (stateData.take (min flushed count))) }
              if count = stateSize then (true, y4)
              else saveStateFallback api slot sv.2 y4
      | _, _ => (false, y)

/-- The fallback `mCoreLoadState(m_core, slot, 0)` of `loadState` on the engine
state `c`, followed by `if (fallbackOk) m_coreReady = true;`. -/
def loadStateFallback (api : MCoreApi σ) (slot : Int) (c : σ) (y : System σ) :
    Bool × System σ :=
  let fb := api.mCoreLoadState c slot
  (fb.1,
    { y.call (.mCoreLoadState slot) with
      core := { y.core with
        m_core := some fb.2
        m_coreReady := if fb.1 then true else y.core.m_coreReady } })

/-- `JboyCore::loadState(slot)` (lines 715-773). `fopen(statePath, "rb")` succeeds
when the file exists, and `fread` delivers its first `stateSize` bytes. -/
def loadState (api : MCoreApi σ) (slot : Int) (y : System σ) : Bool × System σ :=
  match y.core.m_core with
  | none => (false, y)
  | some c =>
    if y.core.m_romLoaded = false ∨ slot < 0 then (false, y)
    else
      match api.stateSize, api.loadState with
      | some stateSizeFn, some loadStateFn =>
        let stateSize := stateSizeFn c
        let y1 := y.call .stateSize
        if stateSize = 0 then loadStateFallback api slot c y1
        else
          let statePath := y1.core.getStatePath slot
          let y2 := y1.call (.fopen statePath "rb")
          match y2.files statePath with
          | none => loadStateFallback api slot c y2
          | some bytes =>
            let stateData := bytes.take stateSize
            let y3 := (y2.call (.fread statePath stateSize)).call (.fclose statePath)
            if stateData.length ≠ stateSize then loadStateFallback api slot c y3
            else
              let ld := loadStateFn c stateData
              let y4 : System σ :=
                { y3.call .loadState with core := { y3.core with m_core := some ld.2 } }
              if ld.1 = false then loadStateFallback api slot ld.2 y4
              else (true, { y4 with core := { y4.core with m_coreReady := true } })
      | _, _ => loadStateFallback api slot c y

/-- `JboyCore::hasSaveState(slot)` (lines 775-792). -/
def hasSaveState (api : MCoreApi σ) (slot : Int) (y : System σ) : Bool × System σ :=
  match y.core.m_core with
  | none => (false, y)
  | some c =>
    if slot < 0 then (false, y)
    else
      let statePath := y.core.getStatePath slot
      let y1 := y.call (.fopen statePath "rb")
      match y1.files statePath with
      | some _ => (true, y1.call (.fclose statePath))
      | none =>
        let y2 := y1.call (.mCoreGetState slot)
        if api.mCoreGetState c slot then (true, y2.call .vfClose) else (false, y2)


/-! ## Configuration and input -/

/-- `JboyCore::setAudioConfig(sampleRate, bufferSize)` (lines 189-205). -/
def setAudioConfig (api : MCoreApi σ) (sampleRate bufferSize : Int) (y : System σ) :
    System σ :=
  let clampedRate : Int :=
    if sampleRate < 8000 then 8000 else (if sampleRate > 96000 then 96000 else sampleRate)
  let clampedBuffer : Int :=
    if bufferSize < 1024 then 1024 else (if bufferSize > 65536 then 65536 else bufferSize)
  let y1 : System σ :=
    { y with core := { y.core with
        m_targetSampleRate := clampedRate.toNat
        m_targetAudioBufferSize := clampedBuffer.toNat } }
  match y1.core.m_core with
  | none => y1
  | some c =>
    { y1.call .applyAudioConfig with
      core := { y1.core with
        m_core := some (api.applyAudioConfig y1.core.m_targetSampleRate
          y1.core.m_targetAudioBufferSize c) } }

/-- `JboyCore::setGameOptions(..)` (lines 207-246). -/
def setGameOptions (api : MCoreApi σ) (frameSkipEnabled : Bool)
    (frameSkipThrottlePercent frameSkipInterval : Int) (interframeBlending : Bool)
    (idleLoopMode : Int) (gbControllerRumble : Bool) (y : System σ) : System σ :=
  let y1 : System σ :=
    { y with core := { y.core with
        m_frameSkipEnabled := frameSkipEnabled
        m_frameSkipThrottlePercent :=
          if frameSkipThrottlePercent < 0 then 0
          else (if frameSkipThrottlePercent > 100 then 100 else frameSkipThrottlePercent)
        m_frameSkipInterval :=
          if frameSkipInterval < 0 then 0
          else (if frameSkipInterval > 12 then 12 else frameSkipInterval)
        m_interframeBlending := interframeBlending
        m_idleLoopMode := idleLoopMode
        m_gbControllerRumble := gbControllerRumble } }
  match y1.core.m_core with
  | none => y1
  | some c =>
    { y1.call .applyGameOptions with
      core := { y1.core with m_core := some (api.applyGameOptions y1.core.pushedOptions c) } }

/-- `JboyCore::setInput(buttons)` (lines 652-668), the `GBAButton` masks written out. -/
def setInput (api : MCoreApi σ) (buttons : Int) (y : System σ) : System σ :=
  let y1 : System σ := { y with core := { y.core with m_buttons := buttons } }
  match y1.core.m_core with
  | none => y1
  | some c =>
    let keys : Nat := 0
    let keys := if Int.land buttons 0x001 ≠ 0 then keys ||| (1 <<< 0) else keys
    let keys := if Int.land buttons 0x002 ≠ 0 then keys ||| (1 <<< 1) else keys
    let keys := if Int.land buttons 0x004 ≠ 0 then keys ||| (1 <<< 2) else keys
    let keys := if Int.land buttons 0x008 ≠ 0 then keys ||| (1 <<< 3) else keys
    let keys := if Int.land buttons 0x010 ≠ 0 then keys ||| (1 <<< 4) else keys
    let keys := if Int.land buttons 0x020 ≠ 0 then keys ||| (1 <<< 5) else keys
    let keys := if Int.land buttons 0x040 ≠ 0 then keys ||| (1 <<< 6) else keys
    let keys := if Int.land buttons 0x080 ≠ 0 then keys ||| (1 <<< 7) else keys
    let keys := if Int.land buttons 0x100 ≠ 0 then keys ||| (1 <<< 8) else keys
    let keys := if Int.land buttons 0x200 ≠ 0 then keys ||| (1 <<< 9) else keys
    { y1.call (.setKeys keys) with core := { y1.core with m_core := some (api.setKeys c keys) } }

end JboyCore

/-! ## Sequences of calls -/

/-- A call of a member function of `JboyCore` with its arguments, together with
the answers of the environment that the call depends on (`created`: the result
of `mCoreCreate`; `fopenOk`, `written`, `flushed`: the results of
`fopen(.., "wb")` and `fwrite`, and the bytes in the file after `fclose`). -/
inductive Op (σ : Type) where
  | init (created : Option σ)
  | cleanup
  | loadRom (romPath : String) (created : Option σ)
  | unloadRom
  | runFrame
  | setInput (buttons : Int)
  | saveState (slot : Int) (fopenOk : Bool) (written flushed : Nat)
  | loadState (slot : Int)
  | hasSaveState (slot : Int)
  | pause
  | resume
  | reset (created : Option σ)
  | setAudioConfig (sampleRate bufferSize : Int)
  | setGameOptions (frameSkipEnabled : Bool) (frameSkipThrottlePercent frameSkipInterval : Int)
      (interframeBlending : Bool) (idleLoopMode : Int) (gbControllerRumble : Bool)
  | consumeAudioSamples (outNonNull : Bool) (maxSamples : Int)
  | appendAudioFrame (left right : Int)
  | appendAudioSamples (samples : Option (List Int)) (sampleCount : Int)
  | createCoreLocked (created : Option σ)
  | performCoreResetLocked

/-- The system after the call `op`; `none` when the call dereferences a null pointer. -/
def Op.exec {σ : Type} (api : MCoreApi σ) (op : Op σ) (y : System σ) : Option (System σ) :=
  match op with
  | .init created => some (JboyCore.init api created y).2
  | .cleanup => some (JboyCore.cleanup api y)
  | .loadRom romPath created => (JboyCore.loadRom api romPath created y).map (fun r => r.2)
  | .unloadRom => some (JboyCore.unloadRom api y)
  | .runFrame => some (JboyCore.runFrame api y)
  | .setInput buttons => some (JboyCore.setInput api buttons y)
  | .saveState slot fopenOk written flushed => some (JboyCore.saveState api slot fopenOk written flushed y).2
  | .loadState slot => some (JboyCore.loadState api slot y).2
  | .hasSaveState slot => some (JboyCore.hasSaveState api slot y).2
  | .pause => some (JboyCore.pause y)
  | .resume => some (JboyCore.resume y)
  | .reset created => JboyCore.reset api created y
  | .setAudioConfig sampleRate bufferSize =>
    some (JboyCore.setAudioConfig api sampleRate bufferSize y)
  | .setGameOptions a b c d e f => some (JboyCore.setGameOptions api a b c d e f y)
  | .consumeAudioSamples outNonNull maxSamples =>
    some { y with core := (JboyCore.consumeAudioSamples y.core outNonNull maxSamples).core }
  | .appendAudioFrame left right =>
    some { y with core := JboyCore.appendAudioFrame y.core left right }
  | .appendAudioSamples samples sampleCount =>
    some { y with core := JboyCore.appendAudioSamples y.core samples sampleCount }
  | .createCoreLocked created => some (JboyCore.createCoreLocked api created y).2
  | .performCoreResetLocked => some (JboyCore.performCoreResetLocked api y).2

/-- The system after the calls `ops`, made one after the other from `y`. -/
def runOps {σ : Type} (api : MCoreApi σ) : List (Op σ) → System σ → Option (System σ)
  | [], y => some y
  | op :: rest, y =>
    match op.exec api y with
    | none => none
    | some y1 => runOps api rest y1

/-- A freshly constructed object in a world with the files `files`. -/
def System.initial {σ : Type} (files : String → Option (List Nat)) : System σ :=
  { core := JboyCore.construct, files := files, trace := [] }

/-! ## Notions used to state the properties -/

/-- The ring-buffer members of the object: sample store, read index, write
index and count. -/
def ringOf {σ : Type} (s : JboyCore σ) : (Int → Int) × Int × Int × Int :=
  (s.m_audioBuffer, s.m_audioReadIndex, s.m_audioWriteIndex, s.m_audioCount)

/-- The ring buffer of `t` is that of `s`, or that of `s` emptied. -/
def KeepOrClear {σ : Type} (s t : JboyCore σ) : Prop :=
  ringOf t = ringOf s ∨ ringOf t = (s.m_audioBuffer, 0, 0, 0)

/-- The buffered count is an even 32-bit value not above the capacity. -/
def EvenBacklog {σ : Type} (s : JboyCore σ) : Prop :=
  s.m_audioCount % 2 = 0 ∧ s.m_audioCount ≤ 16384 ∧ -2147483648 ≤ s.m_audioCount

/-- A restriction on the arguments of the two ring-buffer calls: `E` on the
`sampleCount` of `appendAudioSamples` and `C` on the `maxSamples` of
`consumeAudioSamples`; every other call is admitted. -/
def Op.Admits {σ : Type} (E C : Int → Prop) : Op σ → Prop
  | .appendAudioSamples _ sampleCount => E sampleCount
  | .consumeAudioSamples _ maxSamples => C maxSamples
  | _ => True

/-- Every call of `consumeAudioSamples` passes a `maxSamples` below `bound`. -/
def Op.consumeBelow {σ : Type} (bound : Int) (op : Op σ) : Prop :=
  op.Admits (fun _ => True) (fun maxSamples => maxSamples < bound)

/-- Every append delivers whole stereo frames (an even number of samples), and
`maxSamples` is a 32-bit `int`. -/
def Op.wholeFrames {σ : Type} (op : Op σ) : Prop :=
  op.Admits (fun sampleCount => sampleCount % 2 = 0) (fun maxSamples => maxSamples < 2147483648)

/-- The external calls made between the system `y` and the later system `y1`. -/
def newCalls {σ : Type} (y y1 : System σ) : List ExternalCall :=
  y1.trace.drop y.trace.length

/-! ## A small engine for concrete runs -/

/-- The state of the demonstration engine: a frame counter, the audio frames not
yet fetched, and the snapshots of the built-in slot mechanism. -/
structure DemoEngine where
  frame : Nat
  pending : Nat
  slots : List (Int × Nat)

/-- A deterministic engine whose snapshot is the one-byte list `[frame]`, whose
deserialize undoes serialize, and whose built-in slot load undoes its built-in
slot save. -/
def demoApi : MCoreApi DemoEngine :=
  { color16 := false
    createSetup := fun _ c => c
    resetSetup := fun _ c => c
    reset := some (fun c => { c with frame := 0, pending := 0 })
    loadROM := fun c rom => (!rom.isEmpty, c)
    unloadROM := some (fun c => c)
    mCoreLoadSaveFile := fun c _ => (true, c)
    getGameInfo := fun _ => "DEMO"
    runFrame := some (fun c _ =>
      ({ c with frame := c.frame + 1, pending := c.pending + 1 }, fun _ => (c.frame + 1) * 8))
    getAudioBuffer := some (fun _ => true)
    mAudioBufferAvailable := fun c => c.pending
    mAudioBufferRead := fun c n =>
      (List.replicate (min n c.pending) ((c.frame : Int), (c.frame : Int)),
        { c with pending := c.pending - min n c.pending })
    stateSize := some (fun _ => 1)
    saveState := some (fun c => ((true, [c.frame]), c))
    loadState := some (fun c bytes =>
      match bytes with
      | [f] => (true, { c with frame := f })
      | _ => (false, c))
    mCoreSaveState := fun c slot => (true, { c with slots := (slot, c.frame) :: c.slots })
    mCoreLoadState := fun c slot =>
      match c.slots.lookup slot with
      | some f => (true, { c with frame := f })
      | none => (false, c)
    mCoreGetState := fun c slot => (c.slots.lookup slot).isSome
    setKeys := fun c _ => c
    applyAudioConfig := fun _ _ c => c
    applyGameOptions := fun _ c => c }

/-- The demonstration engine without the direct serialize entry point. -/
def demoApiNoSerialize : MCoreApi DemoEngine :=
  { demoApi with saveState := none }

/-- The demonstration engine reporting a snapshot size of zero. -/
def demoApiZeroSize : MCoreApi DemoEngine :=
  { demoApi with stateSize := some (fun _ => 0) }

/-- A storage holding the one-byte ROM image "rom.gba" and nothing else. -/
def demoFiles : String → Option (List Nat) :=
  fun path => if path = "rom.gba" then some [1] else none

/-- A new instance of the demonstration engine. -/
def demoFresh : DemoEngine := { frame := 0, pending := 0, slots := [] }

/-- The system after `init()` and `loadRom("rom.gba")` on `demoFiles`, built with
the engine `api`. -/
def demoLoaded (api : MCoreApi DemoEngine) : System DemoEngine :=
  ((runOps api [.init (some demoFresh), .loadRom "rom.gba" (some demoFresh)]
    (System.initial demoFiles)).getD (System.initial demoFiles))

/-- The frame counter of the engine instance, 0 without an instance. -/
def frameOf (y : System DemoEngine) : Nat :=
  match y.core.m_core with
  | some c => c.frame
  | none => 0

/-- The demonstration system one frame after a first `saveState(0)` that wrote
the slot file: the state in which the round trip is tried. -/
def demoBeforeSave : System DemoEngine :=
  JboyCore.runFrame demoApi (JboyCore.saveState demoApi 0 true 1 1 (demoLoaded demoApi)).2

/-- The call `saveState(0)` in `demoBeforeSave` when the slot file cannot be
opened for writing. -/
def demoSecondSave : Bool × System DemoEngine :=
  JboyCore.saveState demoApi 0 false 0 0 demoBeforeSave

/-- The call `loadState(0)` immediately after `demoSecondSave`. -/
def demoLoadAfterSave : Bool × System DemoEngine :=
  JboyCore.loadState demoApi 0 demoSecondSave.2

/-- A ring buffer holding 8000 samples at the default sample rate of 44100. -/
def backlog8000 : JboyCore Unit :=
  { (JboyCore.construct : JboyCore Unit) with m_audioWriteIndex := 8000, m_audioCount := 8000 }

/-- The ring buffer after six samples were appended to a fresh object. -/
def sixSamples : JboyCore Unit :=
  JboyCore.appendAudioSamples JboyCore.construct (some [1, 2, 3, 4, 5, 6]) 6

/-- A short session on the demonstration engine: create, load, step one frame,
fetch audio, unload. -/
def demoOps : List (Op DemoEngine) :=
  [.init (some demoFresh), .loadRom "rom.gba" (some demoFresh), .runFrame,
    .consumeAudioSamples true 2048, .appendAudioFrame 3 4, .unloadRom]

/-- The system after `demoOps`. -/
def demoAfterOps : System DemoEngine :=
  (runOps demoApi demoOps (System.initial demoFiles)).getD (System.initial demoFiles)

/-- The lifecycle flags of the object: loaded, ready, paused. -/
def lifecycleFlags {σ : Type} (s : JboyCore σ) : Bool × Bool × Bool :=
  (s.m_romLoaded, s.m_coreReady, s.m_paused)

/-- The call with outcome `r`, made in the system `y`, invoked the engine's
built-in slot load for `slot` on the engine state `c` and returned its result. -/
def FellBack {σ : Type} (api : MCoreApi σ) (slot : Int) (c : σ) (y : System σ)
    (r : Bool × System σ) : Prop :=
  r.1 = (api.mCoreLoadState c slot).1 ∧ ExternalCall.mCoreLoadState slot ∈ newCalls y r.2

/-- A storage holding the ROM image "rom.gba" and a slot-0 file of two bytes,
one byte longer than the snapshot of the demonstration engine. -/
def demoFilesLongSlot : String → Option (List Nat) :=
  fun path =>
    if path = "rom.gba" then some [1]
    else if path = "rom.gba.slot0.ss" then some [7, 9] else none

/-- The demonstration system after `init()` and `loadRom("rom.gba")` on
`demoFilesLongSlot`. -/
def demoLoadedLongSlot : System DemoEngine :=
  ((runOps demoApi [.init (some demoFresh), .loadRom "rom.gba" (some demoFresh)]
    (System.initial demoFilesLongSlot)).getD (System.initial demoFilesLongSlot))

/-- The four clamped fields of the configuration: target sample rate, target
audio buffer frames, frame-skip throttle percent and frame-skip interval. -/
def configOf {σ : Type} (s : JboyCore σ) : Nat × Nat × Int × Int :=
  (s.m_targetSampleRate, s.m_targetAudioBufferSize, s.m_frameSkipThrottlePercent,
    s.m_frameSkipInterval)

/-- The four clamped fields of the configuration lie inside their ranges. -/
def ConfigInRange {σ : Type} (s : JboyCore σ) : Prop :=
  (8000 ≤ s.m_targetSampleRate ∧ s.m_targetSampleRate ≤ 96000) ∧
  (1024 ≤ s.m_targetAudioBufferSize ∧ s.m_targetAudioBufferSize ≤ 65536) ∧
  (0 ≤ s.m_frameSkipThrottlePercent ∧ s.m_frameSkipThrottlePercent ≤ 100) ∧
  (0 ≤ s.m_frameSkipInterval ∧ s.m_frameSkipInterval ≤ 12)

/-- The red component of a native pixel: `c & 0xFF`. -/
def redOf (c : Nat) : Nat := c &&& 0xFF

/-- The green component of a native pixel: `(c >> 8) & 0xFF`. -/
def greenOf (c : Nat) : Nat := (c >>> 8) &&& 0xFF

/-- The blue component of a native pixel: `(c >> 16) & 0xFF`. -/
def blueOf (c : Nat) : Nat := (c >>> 16) &&& 0xFF

/-- The 5-6-5 word `(R >> 3) << 11 | (G >> 2) << 5 | (B >> 3)` of a native pixel. -/
def pack565 (c : Nat) : Nat :=
  ((redOf c >>> 3) <<< 11) ||| ((greenOf c >>> 2) <<< 5) ||| (blueOf c >>> 3)

/-- `JboyCore::getInput()` (line 55). -/
def JboyCore.getInput {σ : Type} (s : JboyCore σ) : Int := s.m_buttons

/-- The key word that `setInput` builds (lines 656-666): the final value of the
local `keys`. -/
def JboyCore.setInputKeys (buttons : Int) : Nat :=
  let keys : Nat := 0
  let keys := if Int.land buttons 0x001 ≠ 0 then keys ||| (1 <<< 0) else keys
  let keys := if Int.land buttons 0x002 ≠ 0 then keys ||| (1 <<< 1) else keys
  let keys := if Int.land buttons 0x004 ≠ 0 then keys ||| (1 <<< 2) else keys
  let keys := if Int.land buttons 0x008 ≠ 0 then keys ||| (1 <<< 3) else keys
  let keys := if Int.land buttons 0x010 ≠ 0 then keys ||| (1 <<< 4) else keys
  let keys := if Int.land buttons 0x020 ≠ 0 then keys ||| (1 <<< 5) else keys
  let keys := if Int.land buttons 0x040 ≠ 0 then keys ||| (1 <<< 6) else keys
  let keys := if Int.land buttons 0x080 ≠ 0 then keys ||| (1 <<< 7) else keys
  let keys := if Int.land buttons 0x100 ≠ 0 then keys ||| (1 <<< 8) else keys
  let keys := if Int.land buttons 0x200 ≠ 0 then keys ||| (1 <<< 9) else keys
  keys

/-- The cheat subsystem of the engine (`mgba/core/cheats.h`), which is not part
of this repository, as `addCheatCode` and `clearCheats` use it on the engine
state `σ`; a field of type `Option _` is a function pointer that the code tests
for null. -/
structure MCheatApi (σ : Type) where
  /-- `m_core->cheatDevice(m_core)`; `false` is a null device -/
  cheatDevice : Option (σ → Bool)
  /-- `mCheatSetsSize(&device->cheats)` -/
  mCheatSetsSize : σ → Nat
  /-- `device->createSet(device, name)`; `false` is a null set -/
  createSet : σ → String → Bool × σ
  /-- `mCheatAddSet(device, cheatSet)` -/
  mCheatAddSet : σ → σ
  /-- `mCheatAddLine(cheatSet, line, 0)` on the set that `addCheatCode` works with -/
  mCheatAddLine : σ → List Char → Bool × σ
  /-- the store `cheatSet->enabled = true` -/
  enableSet : σ → σ
  /-- `cheatSet->refresh(cheatSet, device)` -/
  refresh : Option (σ → σ)
  /-- `mCheatRefresh(device, cheatSet)` -/
  mCheatRefresh : σ → σ
  /-- `mCheatDeviceClear(device)` -/
  mCheatDeviceClear : σ → σ

/-- The C library function `isspace` in the "C" locale: space, `\t`, `\n`, `\v`,
`\f` and `\r`. -/
def isspace (c : Char) : Bool :=
  c = Char.ofNat 32 || c = Char.ofNat 9 || c = Char.ofNat 10 || c = Char.ofNat 11 ||
    c = Char.ofNat 12 || c = Char.ofNat 13

/-- The first loop of `trimCheatLine` (lines 156-158): the final value of
`start`, with `fuel` iterations allowed. -/
def trimStartLoop (input : List Char) : Nat → Nat → Nat
  | 0, start => start
  | fuel + 1, start =>
    if start < input.length ∧ isspace (input.getD start (Char.ofNat 0)) = true then
      trimStartLoop input fuel (start + 1)
    else start

/-- The second loop of `trimCheatLine` (lines 163-165): the final value of
`end`, with `fuel` iterations allowed. -/
def trimEndLoop (input : List Char) (start : Nat) : Nat → Nat → Nat
  | 0, stop => stop
  | fuel + 1, stop =>
    if stop > start ∧ isspace (input.getD (stop - 1) (Char.ofNat 0)) = true then
      trimEndLoop input start fuel (stop - 1)
    else stop

/-- The C++ library function `std::string::substr(pos, count)` for `pos <= size`. -/
def substr (s : List Char) (pos count : Nat) : List Char := (s.drop pos).take count

/-- The C++ library function `std::string::find(char, pos)`: the index of the first
occurrence of `c` at or after `pos`, `none` for `npos`. -/
def find (s : List Char) (c : Char) (pos : Nat) : Option Nat :=
  if c ∈ s.drop pos then some (pos + (s.drop pos).indexOf c) else none

/-- `trimCheatLine(input)` (lines 154-167). -/
def trimCheatLine (input : List Char) : List Char :=
  let start := trimStartLoop input input.length 0
  if start ≥ input.length then []
  else
    let stop := trimEndLoop input start input.length input.length
    substr input start (stop - start)

/-- The separator replacement of `addCheatCode` (lines 335-339). -/
def replaceSeparators (codeText : List Char) : List Char :=
  codeText.map (fun c => if c = ';' ∨ c = '+' then Char.ofNat 10 else c)

namespace JboyCore

variable {σ : Type}

/-- `JboyCore::clearCheats()` (lines 298-309). -/
def clearCheats (capi : MCheatApi σ) (y : System σ) : Bool × System σ :=
  match y.core.m_core, capi.cheatDevice with
  | none, _ => (false, y)
  | some _, none => (false, y)
  | some c, some cheatDevice =>
    if y.core.m_romLoaded = false then (false, y)
    else
      let y1 := y.call .cheatDevice
      if cheatDevice c = false then (false, y1)
      else
        (true, { y1.call .mCheatDeviceClear with
          core := { y1.core with m_core := some (capi.mCheatDeviceClear c) } })

/-- The line loop of `addCheatCode` (lines 341-355) on the local `added`, the
engine state and the system, at `cursor`, with `fuel` iterations allowed. -/
def addCheatLoop (capi : MCheatApi σ) (codeText : List Char) :
    Nat → Nat → Bool × σ × System σ → Bool × σ × System σ
  | 0, _, st => st
  | fuel + 1, cursor, st =>
    if cursor ≤ codeText.length then
      let lineEnd := find codeText (Char.ofNat 10) cursor
      let endPos := match lineEnd with
        | none => codeText.length
        | some e => e
      let line := trimCheatLine (substr codeText cursor (endPos - cursor))
      let st1 : Bool × σ × System σ :=
        if line ≠ [] then
          let r := capi.mCheatAddLine st.2.1 line
          (if r.1 = true then true else st.1, r.2,
            st.2.2.call (.mCheatAddLine (String.mk line) r.1))
        else st
      match lineEnd with
      | none => st1
      | some e => addCheatLoop capi codeText fuel (e + 1) st1
    else st

/-- The part of `addCheatCode` after the set has been found or created (lines
333-367), on the engine state `c`. -/
def addCheatLines (capi : MCheatApi σ) (code : List Char) (c : σ) (y : System σ) :
    Bool × System σ :=
  let codeText := replaceSeparators code
  let r := addCheatLoop capi codeText (codeText.length + 1) 0 (false, c, y)
  if r.1 = false then
    (false, { r.2.2 with core := { r.2.2.core with m_core := some r.2.1 } })
  else
    let c1 := capi.enableSet r.2.1
    let y1 := r.2.2.call .enableSet
    match capi.refresh with
    | some refresh =>
      (true, { y1.call .cheatRefresh with core := { y1.core with m_core := some (refresh c1) } })
    | none =>
      (true, { y1.call .mCheatRefresh with
        core := { y1.core with m_core := some (capi.mCheatRefresh c1) } })

/-- `JboyCore::addCheatCode(code)` (lines 311-368); `code = none` is the null
pointer, otherwise the characters of the C string. -/
def addCheatCode (capi : MCheatApi σ) (code : Option (List Char)) (y : System σ) :
    Bool × System σ :=
  match y.core.m_core, capi.cheatDevice, code with
  | none, _, _ => (false, y)
  | some _, none, _ => (false, y)
  | some _, some _, none => (false, y)
  | some c, some cheatDevice, some code =>
    if y.core.m_romLoaded = false then (false, y)
    else
      let y1 := y.call .cheatDevice
      if cheatDevice c = false then (false, y1)
      else if capi.mCheatSetsSize c ≠ 0 then
        addCheatLines capi code c (y1.call (.mCheatSetsGetPointer 0))
      else
        let created := capi.createSet c "JBOY"
        let y2 : System σ :=
          { y1.call (.createSet "JBOY") with core := { y1.core with m_core := some created.2 } }
        if created.1 = false then (false, y2)
        else addCheatLines capi code (capi.mCheatAddSet created.2) (y2.call .mCheatAddSet)

end JboyCore

/-- A call of one of the two cheat operations. -/
inductive CheatOp where
  | addCheatCode (code : Option (List Char))
  | clearCheats

/-- The system after the cheat call `op`. -/
def CheatOp.exec {σ : Type} (capi : MCheatApi σ) (op : CheatOp) (y : System σ) : System σ :=
  match op with
  | .addCheatCode code => (JboyCore.addCheatCode capi code y).2
  | .clearCheats => (JboyCore.clearCheats capi y).2

/-- The system after the cheat calls `ops`, made one after the other from `y`. -/
def runCheatOps {σ : Type} (capi : MCheatApi σ) : List CheatOp → System σ → System σ
  | [], y => y
  | op :: rest, y => runCheatOps capi rest (op.exec capi y)

/-- The text `piece` without the whitespace at its two ends. -/
def trimWhitespace (piece : List Char) : List Char :=
  ((piece.dropWhile isspace).reverse.dropWhile isspace).reverse

/-- The lines that a cheat text stands for, in the words of the specification:
the text is split at every `;`, `+` and newline, whitespace is trimmed from both
ends of each piece, and the pieces that are then empty are discarded. -/
def cheatLinesOfText (text : List Char) : List (List Char) :=
  ((text.splitOnP (fun c => c = ';' || c = '+' || c = Char.ofNat 10)).map trimWhitespace).filter
    (fun line => line ≠ [])

/-- The lines `lines` offered to `mCheatAddLine` one after the other, on the
local `added`, the engine state and the system. -/
def offerLines {σ : Type} (capi : MCheatApi σ) :
    List (List Char) → Bool × σ × System σ → Bool × σ × System σ
  | [], st => st
  | line :: rest, st =>
    offerLines capi rest
      (if (capi.mCheatAddLine st.2.1 line).1 = true then true else st.1,
        (capi.mCheatAddLine st.2.1 line).2,
        st.2.2.call (.mCheatAddLine (String.mk line) (capi.mCheatAddLine st.2.1 line).1))

/-- The calls of `mCheatAddLine` for the lines `lines`, offered one after the
other from the engine state `c`, each with its answer. -/
def lineCalls {σ : Type} (capi : MCheatApi σ) : List (List Char) → σ → List ExternalCall
  | [], _ => []
  | line :: rest, c =>
    .mCheatAddLine (String.mk line) (capi.mCheatAddLine c line).1 ::
      lineCalls capi rest (capi.mCheatAddLine c line).2

/-- The number of cheat sets in the device of the engine instance, 0 without an
instance. -/
def setsOf {σ : Type} (capi : MCheatApi σ) (y : System σ) : Nat :=
  match y.core.m_core with
  | some c => capi.mCheatSetsSize c
  | none => 0

/-- The lines offered to `mCheatAddLine` among the external calls `calls`, in order. -/
def offeredLines : List ExternalCall → List String
  | [] => []
  | .mCheatAddLine line _ :: rest => line :: offeredLines rest
  | _ :: rest => offeredLines rest

/-- The state of the demonstration cheat device: the lines and the enabled flag
of each set, and the number of refreshes. -/
structure DemoCheats where
  sets : List (List (List Char) × Bool)
  refreshes : Nat

/-- A cheat device that accepts the lines of eight characters, stores them in
its first set, adds an empty set with `mCheatAddSet` and removes every set with
`mCheatDeviceClear`. -/
def demoCheatApi : MCheatApi DemoCheats :=
  { cheatDevice := some (fun _ => true)
    mCheatSetsSize := fun c => c.sets.length
    createSet := fun c _ => (true, c)
    mCheatAddSet := fun c => { c with sets := c.sets ++ [([], false)] }
    mCheatAddLine := fun c line =>
      if line.length = 8 then
        (true, { c with sets := c.sets.modifyHead (fun set => (set.1 ++ [line], set.2)) })
      else (false, c)
    enableSet := fun c => { c with sets := c.sets.modifyHead (fun set => (set.1, true)) }
    refresh := none
    mCheatRefresh := fun c => { c with refreshes := c.refreshes + 1 }
    mCheatDeviceClear := fun c => { c with sets := [] } }

/-- A system with a loaded ROM whose cheat device holds no set. -/
def demoCheatLoaded : System DemoCheats :=
  { core := { (JboyCore.construct : JboyCore DemoCheats) with
      m_core := some { sets := [], refreshes := 0 }
      m_romLoaded := true
      m_coreReady := true
      m_romPath := "rom.gba" }
    files := demoFiles
    trace := [] }

/-- The same system with no ROM loaded. -/
def demoCheatNoRom : System DemoCheats :=
  { demoCheatLoaded with core := { demoCheatLoaded.core with m_romLoaded := false } }

/-- The refresh call that `addCheatCode` makes (lines 362-366): the set's own
`refresh` when it has one, `mCheatRefresh` otherwise. -/
def refreshCall {σ : Type} (capi : MCheatApi σ) : ExternalCall :=
  match capi.refresh with
  | some _ => .cheatRefresh
  | none => .mCheatRefresh

/-- The demonstration cheat engine without the `cheatDevice` entry point. -/
def demoCheatApiNoDevice : MCheatApi DemoCheats :=
  { demoCheatApi with cheatDevice := none }

/-- The calls that `addCheatCode` makes before the first line on the engine
state `c` (lines 317-331): the device query and then either the access to the first set
of the device or, when the device holds no set, the creation and the
registration of the set "JBOY". -/
def cheatPrelude {σ : Type} (capi : MCheatApi σ) (c : σ) : List ExternalCall :=
  if capi.mCheatSetsSize c ≠ 0 then [.cheatDevice, .mCheatSetsGetPointer 0]
  else [.cheatDevice, .createSet "JBOY", .mCheatAddSet]

/-- The engine state in which `addCheatCode` offers the first line: `c` itself
when the device holds a set, otherwise `c` after the creation and the
registration of the set "JBOY". -/
def cheatSetState {σ : Type} (capi : MCheatApi σ) (c : σ) : σ :=
  if capi.mCheatSetsSize c ≠ 0 then c else capi.mCheatAddSet (capi.createSet c "JBOY").2

/-- What the code relies on from the cheat subsystem about the number of sets in
the device: `mCheatAddSet` adds one set, `mCheatDeviceClear` adds none, and the
other entry points leave the number as it is. -/
def CheatContract {σ : Type} (capi : MCheatApi σ) : Prop :=
  (∀ c name, capi.mCheatSetsSize (capi.createSet c name).2 = capi.mCheatSetsSize c) ∧
  (∀ c, capi.mCheatSetsSize (capi.mCheatAddSet c) = capi.mCheatSetsSize c + 1) ∧
  (∀ c l, capi.mCheatSetsSize (capi.mCheatAddLine c l).2 = capi.mCheatSetsSize c) ∧
  (∀ c, capi.mCheatSetsSize (capi.enableSet c) = capi.mCheatSetsSize c) ∧
  (∀ f c, capi.refresh = some f → capi.mCheatSetsSize (f c) = capi.mCheatSetsSize c) ∧
  (∀ c, capi.mCheatSetsSize (capi.mCheatRefresh c) = capi.mCheatSetsSize c) ∧
  (∀ c, capi.mCheatSetsSize (capi.mCheatDeviceClear c) ≤ capi.mCheatSetsSize c)

/-- The calls of a session on the demonstration cheat device: a code is added,
the cheats are cleared, and a code is added again. -/
def demoCheatOps : List CheatOp :=
  [.addCheatCode (some "0123ABCD".data), .clearCheats, .addCheatCode (some "4567EF01".data)]

/-- The demonstration cheat engine whose `cheatDevice` entry point returns a
null device. -/
def demoCheatApiNullDevice : MCheatApi DemoCheats :=
  { demoCheatApi with cheatDevice := some (fun _ => false) }

/-- The demonstration cheat engine whose device cannot create a set. -/
def demoCheatApiNoSet : MCheatApi DemoCheats :=
  { demoCheatApi with createSet := fun c _ => (false, c) }

/-- The engine state after the lines `lines` have been offered to
`mCheatAddLine` one after the other from the engine state `c`. -/
def lineState {σ : Type} (capi : MCheatApi σ) : List (List Char) → σ → σ
  | [], c => c
  | line :: rest, c => lineState capi rest (capi.mCheatAddLine c line).2

/-- The refresh that `addCheatCode` applies to the engine state (lines 362-366):
the set's own `refresh` when it has one, `mCheatRefresh` otherwise. -/
def applyRefresh {σ : Type} (capi : MCheatApi σ) (c : σ) : σ :=
  match capi.refresh with
  | some refresh => refresh c
  | none => capi.mCheatRefresh c

/-- The number that a list of decimal digits stands for, most significant digit
first. -/
def decimalValue (digits : List Char) : Nat :=
  digits.foldl (fun acc c => 10 * acc + (c.toNat - 48)) 0

/-- The ready flag holds exactly when the loaded flag holds. -/
def FlagsAgree {σ : Type} (s : JboyCore σ) : Prop :=
  s.m_coreReady = s.m_romLoaded

/-- The state that a completed reset leaves: an empty ring buffer, a loaded ROM,
Ready, and not paused. -/
def ReadyState {σ : Type} (s : JboyCore σ) : Prop :=
  s.m_audioCount = 0 ∧ s.m_audioReadIndex = 0 ∧ s.m_audioWriteIndex = 0 ∧
  s.m_romLoaded = true ∧ s.m_coreReady = true ∧ s.m_paused = false

/-- The call is one of the public member functions (the two private helpers
`createCoreLocked` and `performCoreResetLocked` are not called from outside). -/
def Op.Public {σ : Type} : Op σ → Prop
  | .createCoreLocked _ => False
  | .performCoreResetLocked => False
  | _ => True

/-- The demonstration engine without the `reset` entry point. -/
def demoApiNoReset : MCoreApi DemoEngine :=
  { demoApi with reset := none }

/-- The demonstration engine without the `reset` and `unloadROM` entry points. -/
def demoApiNoResetNoUnload : MCoreApi DemoEngine :=
  { demoApi with reset := none, unloadROM := none }

end Jboy

/-! # Theorems -/

namespace Jboy
open JboyCore

variable {σ : Type}

/-! ## Arithmetic of the 32-bit model -/

theorem wrapInt32_eq_self {x : Int} (h1 : -2147483648 ≤ x) (h2 : x < 2147483648) :
    wrapInt32 x = x := by
  unfold wrapInt32; omega

theorem preferredBacklog_spec (rate : Nat) (m : Int) (hr : rate < 4294967296)
    (h0 : 0 < m) (h1 : m < 1073741824) :
    preferredBacklog rate m
        = max (2 * m) (min ((rate * 2 * 65 / 1000 : Nat) : Int) (16384 - m)) := by
  unfold preferredBacklog AUDIO_BUFFER_CAPACITY
  rw [wrapInt32_eq_self (x := m * 2) (by omega) (by omega),
    wrapInt32_eq_self (x := ((rate * 2 * 65 / 1000 : Nat) : Int)) (by omega) (by omega)]
  simp only [max_def, min_def]
  split_ifs <;> omega

/-- Whatever positive `maxSamples` is passed, the clamped preferred backlog is
at least `16384 - maxSamples` or at least 0, and it is a 32-bit value. -/
theorem preferredBacklog_range (rate : Nat) (m : Int) (hr : rate < 4294967296)
    (h0 : 0 < m) (h1 : m < 2147483648) :
    (16384 - m ≤ preferredBacklog rate m ∨ 0 ≤ preferredBacklog rate m) ∧
      preferredBacklog rate m < 2147483648 := by
  unfold preferredBacklog AUDIO_BUFFER_CAPACITY
  rw [wrapInt32_eq_self (x := ((rate * 2 * 65 / 1000 : Nat) : Int)) (by omega) (by omega)]
  unfold wrapInt32
  simp only []
  split_ifs <;> omega

theorem trimDrop_nonneg (s : JboyCore σ) (m : Int) : 0 ≤ trimDrop s m := by
  unfold trimDrop
  simp only []
  split_ifs <;> omega

theorem trimDrop_even (s : JboyCore σ) (m : Int) : trimDrop s m % 2 = 0 := by
  unfold trimDrop
  simp only []
  split_ifs <;> omega

/-- The trimming block written with `trimDrop`. -/
theorem trimBacklog_eq (s : JboyCore σ) (m : Int) :
    trimBacklog s m =
      if trimDrop s m > 0 then
        { s with
          m_audioReadIndex :=
            (wrapInt32 (s.m_audioReadIndex + trimDrop s m)).tmod AUDIO_BUFFER_CAPACITY
          m_audioCount := wrapInt32 (s.m_audioCount - trimDrop s m) }
      else s := by
  unfold trimBacklog trimDrop
  simp only []
  split_ifs <;> first | rfl | omega


/-! ## The copy loop of `consumeAudioSamples` -/

theorem wrap_tmod_capacity {x : Int} (h0 : 0 ≤ x) (h1 : x < 2147483648) :
    (wrapInt32 x).tmod AUDIO_BUFFER_CAPACITY = x % 16384 := by
  rw [wrapInt32_eq_self (by omega) h1]
  exact Int.tmod_eq_emod h0 (by decide)

theorem wrap_tmod_16384 {x : Int} (h0 : 0 ≤ x) (h1 : x < 2147483648) :
    (wrapInt32 x).tmod 16384 = x % 16384 :=
  wrap_tmod_capacity h0 h1

/-- The copy loop changes nothing but the read index. -/
theorem consumeCopyLoop_frame (n : Nat) (s : JboyCore σ) :
    (consumeCopyLoop n s).2 =
      { s with m_audioReadIndex := (consumeCopyLoop n s).2.m_audioReadIndex } := by
  induction n generalizing s with
  | zero => rfl
  | succ n ih =>
    simp only [consumeCopyLoop]
    rw [ih]

theorem consumeCopyLoop_count (n : Nat) (s : JboyCore σ) :
    (consumeCopyLoop n s).2.m_audioCount = s.m_audioCount := by
  rw [consumeCopyLoop_frame]

theorem consumeCopyLoop_length (n : Nat) (s : JboyCore σ) :
    (consumeCopyLoop n s).1.length = n := by
  induction n generalizing s with
  | zero => rfl
  | succ n ih => simp [consumeCopyLoop, ih]

/-- From a read index inside the buffer, `n` iterations of the copy loop leave
the read index at `(r + n) mod 16384`. -/
theorem consumeCopyLoop_readIndex (n : Nat) (s : JboyCore σ)
    (h0 : 0 ≤ s.m_audioReadIndex) (h1 : s.m_audioReadIndex < 16384) :
    (consumeCopyLoop n s).2.m_audioReadIndex = (s.m_audioReadIndex + (n : Int)) % 16384 := by
  induction n generalizing s with
  | zero =>
    simp only [consumeCopyLoop]
    omega
  | succ n ih =>
    simp only [consumeCopyLoop]
    rw [ih _ (by
        show 0 ≤ (wrapInt32 (s.m_audioReadIndex + 1)).tmod AUDIO_BUFFER_CAPACITY
        rw [wrap_tmod_capacity (by omega) (by omega)]; omega) (by
        show (wrapInt32 (s.m_audioReadIndex + 1)).tmod AUDIO_BUFFER_CAPACITY < 16384
        rw [wrap_tmod_capacity (by omega) (by omega)]; omega)]
    show ((wrapInt32 (s.m_audioReadIndex + 1)).tmod AUDIO_BUFFER_CAPACITY + (n : Int)) % 16384 = _
    rw [wrap_tmod_capacity (by omega) (by omega)]
    push_cast
    omega

/-- From a read index inside the buffer, the copy loop stores the `n` samples
found from the read index onward, in order. -/
theorem consumeCopyLoop_out (n : Nat) (s : JboyCore σ)
    (h0 : 0 ≤ s.m_audioReadIndex) (h1 : s.m_audioReadIndex < 16384) :
    (consumeCopyLoop n s).1 = window s.m_audioBuffer s.m_audioReadIndex n := by
  induction n generalizing s with
  | zero => rfl
  | succ n ih =>
    simp only [consumeCopyLoop]
    rw [ih _ (by
        show 0 ≤ (wrapInt32 (s.m_audioReadIndex + 1)).tmod AUDIO_BUFFER_CAPACITY
        rw [wrap_tmod_capacity (by omega) (by omega)]; omega) (by
        show (wrapInt32 (s.m_audioReadIndex + 1)).tmod AUDIO_BUFFER_CAPACITY < 16384
        rw [wrap_tmod_capacity (by omega) (by omega)]; omega)]
    unfold window
    rw [List.range_succ_eq_map, List.map_cons, List.map_map]
    congr 1
    · congr 1
      simp only [AUDIO_BUFFER_CAPACITY]
      omega
    · apply List.map_congr_left
      intro i _
      show s.m_audioBuffer (((wrapInt32 (s.m_audioReadIndex + 1)).tmod AUDIO_BUFFER_CAPACITY
        + (i : Int)) % AUDIO_BUFFER_CAPACITY) = _
      rw [wrap_tmod_capacity (by omega) (by omega)]
      simp only [Function.comp, AUDIO_BUFFER_CAPACITY]
      congr 1
      push_cast
      omega


/-! ## Trimming and serving -/

/-- When `m_audioCount - preferredBacklog` does not overflow, the trimmed amount
is that excess rounded down to even (0 when there is no excess). -/
theorem trimDrop_eq (s : JboyCore σ) (m : Int)
    (hhi : s.m_audioCount - preferredBacklog s.m_targetSampleRate m < 2147483648) :
    trimDrop s m =
      if s.m_audioCount > preferredBacklog s.m_targetSampleRate m then
        roundDownEven (s.m_audioCount - preferredBacklog s.m_targetSampleRate m)
      else 0 := by
  unfold trimDrop roundDownEven
  simp only []
  by_cases h : s.m_audioCount > preferredBacklog s.m_targetSampleRate m
  · rw [if_pos h, if_pos h, wrapInt32_eq_self (by omega) hhi]
    split_ifs <;> omega
  · rw [if_neg h, if_neg h]

/-- When neither subtraction of the trimming block overflows, the backlog left
after trimming is the backlog before it minus the trimmed amount. -/
theorem trimBacklog_count (s : JboyCore σ) (m : Int)
    (hc0 : -2147483648 ≤ s.m_audioCount) (hc1 : s.m_audioCount < 2147483648)
    (hp : -2147483648 ≤ preferredBacklog s.m_targetSampleRate m)
    (hhi : s.m_audioCount - preferredBacklog s.m_targetSampleRate m < 2147483648) :
    (trimBacklog s m).m_audioCount = s.m_audioCount - trimDrop s m := by
  have hd := trimDrop_eq s m hhi
  rw [trimBacklog_eq]
  split_ifs with h
  · show wrapInt32 (s.m_audioCount - trimDrop s m) = _
    apply wrapInt32_eq_self
    · rw [hd]; unfold roundDownEven; split_ifs <;> omega
    · rw [hd]; unfold roundDownEven; split_ifs <;> omega
  · have := trimDrop_nonneg s m
    omega

/-- Without overflow, the clamped preferred backlog is at least `2 * maxSamples`. -/
theorem preferredBacklog_ge (rate : Nat) (m : Int) (h0 : 0 < m) (h1 : m < 1073741824) :
    2 * m ≤ preferredBacklog rate m ∧ preferredBacklog rate m < 2147483648 := by
  unfold preferredBacklog AUDIO_BUFFER_CAPACITY
  rw [wrapInt32_eq_self (x := m * 2) (by omega) (by omega)]
  unfold wrapInt32
  simp only []
  split_ifs <;> omega

theorem consumeAudioSamples_ret (s : JboyCore σ) (m : Int) (h0 : 0 < m) :
    (consumeAudioSamples s true m).ret =
      if serveCount (trimBacklog s m) m ≤ 0 then 0 else serveCount (trimBacklog s m) m := by
  unfold consumeAudioSamples
  simp only []
  rw [if_neg (by simp; omega)]
  split_ifs <;> rfl

theorem consumeAudioSamples_count (s : JboyCore σ) (m : Int) (h0 : 0 < m) :
    (consumeAudioSamples s true m).core.m_audioCount =
      (trimBacklog s m).m_audioCount - (consumeAudioSamples s true m).ret := by
  unfold consumeAudioSamples
  simp only []
  rw [if_neg (by simp; omega)]
  split_ifs
  · simp
  · simp only [consumeCopyLoop_count]


/-! ## C2, C3, C7: what `consumeAudioSamples` returns and how much it trims -/

/-- C2 (as amended): for every ring-buffer state with a non-negative buffered
count and every `maxSamples` with `0 < maxSamples < 2^30` (non-null output),
`consumeAudioSamples` returns `min(available, maxSamples)` rounded down to an
even number, where `available` is the backlog left after trimming (the backlog
before it minus the trimmed amount); the result is even, not negative, at most
`maxSamples`, and 0 when fewer than two samples are available; the buffered
count decreases by the trimmed amount plus the returned amount. -/
theorem consumeAudioSamples_returns (s : JboyCore σ) (maxSamples : Int)
    (hc0 : 0 ≤ s.m_audioCount) (hc1 : s.m_audioCount < 2147483648)
    (h0 : 0 < maxSamples) (h1 : maxSamples < 1073741824) :
    (trimBacklog s maxSamples).m_audioCount = s.m_audioCount - trimDrop s maxSamples ∧
    (consumeAudioSamples s true maxSamples).ret =
      roundDownEven (min (trimBacklog s maxSamples).m_audioCount maxSamples) ∧
    (consumeAudioSamples s true maxSamples).ret % 2 = 0 ∧
    0 ≤ (consumeAudioSamples s true maxSamples).ret ∧
    (consumeAudioSamples s true maxSamples).ret ≤ maxSamples ∧
    ((trimBacklog s maxSamples).m_audioCount < 2 →
      (consumeAudioSamples s true maxSamples).ret = 0) ∧
    (consumeAudioSamples s true maxSamples).core.m_audioCount =
      s.m_audioCount - (trimDrop s maxSamples + (consumeAudioSamples s true maxSamples).ret) := by
  have hp := preferredBacklog_ge s.m_targetSampleRate maxSamples h0 h1
  have hhi : s.m_audioCount - preferredBacklog s.m_targetSampleRate maxSamples < 2147483648 := by
    omega
  have hcount := trimBacklog_count s maxSamples (by omega) hc1 (by omega) hhi
  have hd := trimDrop_eq s maxSamples hhi
  have hcnt := consumeAudioSamples_count s maxSamples h0
  have hret := consumeAudioSamples_ret s maxSamples h0
  unfold serveCount at hret
  have havail : 0 ≤ (trimBacklog s maxSamples).m_audioCount := by
    rw [hcount, hd]; unfold roundDownEven; split_ifs <;> omega
  generalize (consumeAudioSamples s true maxSamples).ret = ret at *
  generalize (consumeAudioSamples s true maxSamples).core.m_audioCount = after at *
  generalize (trimBacklog s maxSamples).m_audioCount = available at *
  have hret2 : ret = roundDownEven (min available maxSamples) := by
    rw [hret]
    unfold roundDownEven
    simp only [min_def]
    split_ifs <;> omega
  refine ⟨hcount, hret2, ?_, ?_, ?_, ?_, ?_⟩
  · rw [hret2]; unfold roundDownEven; omega
  · rw [hret2]; unfold roundDownEven; simp only [min_def]; split_ifs <;> omega
  · rw [hret2]; unfold roundDownEven; simp only [min_def]; split_ifs <;> omega
  · intro h; rw [hret2]; unfold roundDownEven; simp only [min_def]; split_ifs <;> omega
  · omega

/-- Witness of `consumeAudioSamples_returns`: the freshly constructed object and
`maxSamples = 2048`. -/
theorem consumeAudioSamples_returns_witness :
    (trimBacklog (construct : JboyCore Unit) 2048).m_audioCount =
      (construct : JboyCore Unit).m_audioCount - trimDrop (construct : JboyCore Unit) 2048 ∧
    (consumeAudioSamples (construct : JboyCore Unit) true 2048).ret =
      roundDownEven (min (trimBacklog (construct : JboyCore Unit) 2048).m_audioCount 2048) ∧
    (consumeAudioSamples (construct : JboyCore Unit) true 2048).ret % 2 = 0 ∧
    0 ≤ (consumeAudioSamples (construct : JboyCore Unit) true 2048).ret ∧
    (consumeAudioSamples (construct : JboyCore Unit) true 2048).ret ≤ 2048 ∧
    ((trimBacklog (construct : JboyCore Unit) 2048).m_audioCount < 2 →
      (consumeAudioSamples (construct : JboyCore Unit) true 2048).ret = 0) ∧
    (consumeAudioSamples (construct : JboyCore Unit) true 2048).core.m_audioCount =
      (construct : JboyCore Unit).m_audioCount -
        (trimDrop (construct : JboyCore Unit) 2048 +
          (consumeAudioSamples (construct : JboyCore Unit) true 2048).ret) :=
  consumeAudioSamples_returns construct 2048 (by decide) (by decide) (by decide) (by decide)

/-- C2 fails as stated: on the freshly constructed (empty) ring buffer with
`maxSamples = 2^30` the product `maxSamples * 2` leaves the `int` range, the
trimming block drives the backlog to `16384 - 2^30`, and the call returns 0,
which is not `min(available, maxSamples)` rounded down to even. -/
theorem consumeAudioSamples_returns_counterexample :
    (0 : Int) < 1073741824 ∧
    (trimBacklog (construct : JboyCore Unit) 1073741824).m_audioCount = -1073725440 ∧
    (consumeAudioSamples (construct : JboyCore Unit) true 1073741824).ret = 0 ∧
    (consumeAudioSamples (construct : JboyCore Unit) true 1073741824).ret ≠
      roundDownEven
        (min (trimBacklog (construct : JboyCore Unit) 1073741824).m_audioCount 1073741824) := by
  decide

/-- C3 (as amended): for every ring-buffer state satisfying the invariant, every
32-bit target sample rate and every `maxSamples > 0`, the backlog that
`consumeAudioSamples` has left after trimming exceeds
`max(2*maxSamples, min(targetSampleRate*2*65/1000, 16384 - maxSamples))` by at
most one sample, and does not exceed it when the backlog before trimming
differs from that bound by an even amount. -/
theorem trimBacklog_bound (s : JboyCore σ) (maxSamples : Int) (hinv : RingInv s)
    (hr : s.m_targetSampleRate < 4294967296)
    (h0 : 0 < maxSamples) (h1 : maxSamples < 2147483648) :
    (trimBacklog s maxSamples).m_audioCount ≤
      max (2 * maxSamples)
        (min ((s.m_targetSampleRate * 2 * 65 / 1000 : Nat) : Int) (16384 - maxSamples)) + 1 ∧
    ((s.m_audioCount - max (2 * maxSamples)
        (min ((s.m_targetSampleRate * 2 * 65 / 1000 : Nat) : Int) (16384 - maxSamples))) % 2 = 0 →
      (trimBacklog s maxSamples).m_audioCount ≤
        max (2 * maxSamples)
          (min ((s.m_targetSampleRate * 2 * 65 / 1000 : Nat) : Int) (16384 - maxSamples))) := by
  obtain ⟨hc0, hc1, -⟩ := hinv
  simp only [AUDIO_BUFFER_CAPACITY] at hc1
  have hrange := preferredBacklog_range s.m_targetSampleRate maxSamples hr h0 h1
  have hhi : s.m_audioCount - preferredBacklog s.m_targetSampleRate maxSamples < 2147483648 := by
    omega
  have hcount := trimBacklog_count s maxSamples (by omega) (by omega) (by omega) hhi
  have hd := trimDrop_eq s maxSamples hhi
  have hdn := trimDrop_nonneg s maxSamples
  by_cases hbig : maxSamples < 1073741824
  · rw [← preferredBacklog_spec s.m_targetSampleRate maxSamples hr h0 hbig, hcount, hd]
    unfold roundDownEven
    constructor
    · split_ifs <;> omega
    · intro h; split_ifs <;> omega
  · have hle : (trimBacklog s maxSamples).m_audioCount ≤ 2 * maxSamples := by omega
    have hb := le_max_left (2 * maxSamples)
      (min ((s.m_targetSampleRate * 2 * 65 / 1000 : Nat) : Int) (16384 - maxSamples))
    constructor
    · omega
    · intro _; omega

/-- Witness of `trimBacklog_bound`: 8000 buffered samples at 44100 Hz and
`maxSamples = 2048`. -/
theorem trimBacklog_bound_witness :
    (trimBacklog backlog8000 2048).m_audioCount ≤
      max (2 * 2048)
        (min ((backlog8000.m_targetSampleRate * 2 * 65 / 1000 : Nat) : Int) (16384 - 2048)) + 1 ∧
    ((backlog8000.m_audioCount - max (2 * 2048)
        (min ((backlog8000.m_targetSampleRate * 2 * 65 / 1000 : Nat) : Int) (16384 - 2048))) % 2 = 0 →
      (trimBacklog backlog8000 2048).m_audioCount ≤
        max (2 * 2048)
          (min ((backlog8000.m_targetSampleRate * 2 * 65 / 1000 : Nat) : Int) (16384 - 2048))) :=
  trimBacklog_bound backlog8000 2048 (by decide) (by decide) (by decide) (by decide)

/-- C3 fails as stated: with 8000 buffered samples (a state satisfying the
invariant), the default sample rate 44100 and `maxSamples = 2048`, the bound
`max(2*maxSamples, min(preferredBacklog, 16384 - maxSamples))` is 5733, the
excess 2267 is rounded down to the even 2266, and the backlog left after
trimming is 5734. -/
theorem trimBacklog_bound_counterexample :
    RingInv backlog8000 ∧ (0 : Int) < 2048 ∧
    max (2 * 2048)
        (min ((backlog8000.m_targetSampleRate * 2 * 65 / 1000 : Nat) : Int) (16384 - 2048)) = 5733 ∧
    trimDrop backlog8000 2048 = 2266 ∧
    (trimBacklog backlog8000 2048).m_audioCount = 5734 ∧
    ¬ ((trimBacklog backlog8000 2048).m_audioCount ≤
      max (2 * 2048)
        (min ((backlog8000.m_targetSampleRate * 2 * 65 / 1000 : Nat) : Int) (16384 - 2048))) := by
  decide

/-- C7: for every 32-bit target sample rate and every `maxSamples` with
`0 < maxSamples < 2^30`, the preferred backlog that `consumeAudioSamples`
computes is `targetSampleRate*2*65/1000` clamped to at least `2*maxSamples` and
at most `16384 - maxSamples`, i.e.
`max(2*maxSamples, min(targetSampleRate*130/1000, 16384 - maxSamples))`; it is
at least `2*maxSamples`, and at most `16384 - maxSamples` whenever
`2*maxSamples <= 16384 - maxSamples`. -/
theorem preferredBacklog_clamped (targetSampleRate : Nat) (maxSamples : Int)
    (hr : targetSampleRate < 4294967296) (h0 : 0 < maxSamples) (h1 : maxSamples < 1073741824) :
    preferredBacklog targetSampleRate maxSamples =
      max (2 * maxSamples)
        (min ((targetSampleRate * 2 * 65 / 1000 : Nat) : Int) (16384 - maxSamples)) ∧
    preferredBacklog targetSampleRate maxSamples =
      max (2 * maxSamples)
        (min ((targetSampleRate * 130 / 1000 : Nat) : Int) (16384 - maxSamples)) ∧
    2 * maxSamples ≤ preferredBacklog targetSampleRate maxSamples ∧
    (2 * maxSamples ≤ 16384 - maxSamples →
      preferredBacklog targetSampleRate maxSamples ≤ 16384 - maxSamples) := by
  have h130 : targetSampleRate * 2 * 65 = targetSampleRate * 130 := by ring
  rw [preferredBacklog_spec targetSampleRate maxSamples hr h0 h1]
  refine ⟨rfl, by rw [h130], le_max_left _ _, fun h => max_le h (min_le_right _ _)⟩

/-- Witness of `preferredBacklog_clamped`: the default rate 44100 and
`maxSamples = 2048`, where the preferred backlog is 5733. -/
theorem preferredBacklog_clamped_witness :
    preferredBacklog 44100 2048 =
      max (2 * 2048) (min ((44100 * 2 * 65 / 1000 : Nat) : Int) (16384 - 2048)) ∧
    preferredBacklog 44100 2048 =
      max (2 * 2048) (min ((44100 * 130 / 1000 : Nat) : Int) (16384 - 2048)) ∧
    2 * 2048 ≤ preferredBacklog 44100 2048 ∧
    ((2 : Int) * 2048 ≤ 16384 - 2048 → preferredBacklog 44100 2048 ≤ 16384 - 2048) :=
  preferredBacklog_clamped 44100 2048 (by decide) (by decide) (by decide)


/-! ## Windows of the circular buffer -/

theorem window_length (buf : Int → Int) (r : Int) (n : Nat) : (window buf r n).length = n := by
  simp [window]

theorem window_add (buf : Int → Int) (r : Int) (a b : Nat) :
    window buf r (a + b) = window buf r a ++ window buf ((r + (a : Int)) % 16384) b := by
  unfold window
  rw [List.range_add, List.map_append, List.map_map]
  congr 1
  apply List.map_congr_left
  intro i _
  simp only [Function.comp, AUDIO_BUFFER_CAPACITY]
  congr 1
  push_cast
  omega

theorem window_one (buf : Int → Int) (r : Int) : window buf r 1 = [buf (r % 16384)] := by
  simp [window, AUDIO_BUFFER_CAPACITY, List.range_succ]

/-- Storing at the cell just past a window of fewer than 16384 cells leaves the
window as it was. -/
theorem window_update_next (buf : Int → Int) (r : Int) (n : Nat) (x : Int) (hn : n < 16384) :
    window (Function.update buf ((r + (n : Int)) % 16384) x) r n = window buf r n := by
  unfold window
  apply List.map_congr_left
  intro i hi
  have hi2 : i < n := List.mem_range.mp hi
  apply Function.update_noteq
  simp only [AUDIO_BUFFER_CAPACITY]
  omega

theorem lastN_of_length_le {α : Type} (k : Nat) (l : List α) (h : l.length ≤ k) :
    lastN k l = l := by
  unfold lastN
  rw [Nat.sub_eq_zero_of_le h]
  rfl

/-- Keeping the last `k` elements twice, with elements appended in between, is
keeping the last `k` elements of the whole. -/
theorem lastN_append_lastN {α : Type} (k : Nat) (a b : List α) :
    lastN k (lastN k a ++ b) = lastN k (a ++ b) := by
  unfold lastN
  rw [List.length_append, List.length_drop, List.length_append]
  by_cases h : a.length ≤ k
  · rw [Nat.sub_eq_zero_of_le h]
    simp
  · have hd : List.drop (a.length - k) (a ++ b) = List.drop (a.length - k) a ++ b :=
      List.drop_append_of_le_length (by omega)
    rw [← hd, List.drop_drop]
    congr 1
    omega


/-! ## `appendAudioSamples` -/

theorem appendAudioSamplesStep_of_lt (s : JboyCore σ) (x : Int) (h : s.m_audioCount < 16384) :
    appendAudioSamplesStep s x =
      { s with
        m_audioBuffer := Function.update s.m_audioBuffer s.m_audioWriteIndex x
        m_audioWriteIndex := (wrapInt32 (s.m_audioWriteIndex + 1)).tmod AUDIO_BUFFER_CAPACITY
        m_audioCount := s.m_audioCount + 1 } := by
  unfold appendAudioSamplesStep
  simp only []
  rw [if_pos (by simpa [AUDIO_BUFFER_CAPACITY] using h)]

theorem appendAudioSamplesStep_of_ge (s : JboyCore σ) (x : Int) (h : 16384 ≤ s.m_audioCount) :
    appendAudioSamplesStep s x =
      { s with
        m_audioBuffer := Function.update s.m_audioBuffer s.m_audioWriteIndex x
        m_audioWriteIndex := (wrapInt32 (s.m_audioWriteIndex + 1)).tmod AUDIO_BUFFER_CAPACITY
        m_audioReadIndex := (wrapInt32 (s.m_audioReadIndex + 1)).tmod AUDIO_BUFFER_CAPACITY } := by
  unfold appendAudioSamplesStep
  simp only []
  rw [if_neg (by simp only [AUDIO_BUFFER_CAPACITY]; omega)]

/-- One stored sample raises the count by one until the buffer is full. -/
theorem appendAudioSamplesStep_count (s : JboyCore σ) (x : Int) :
    (appendAudioSamplesStep s x).m_audioCount =
      if s.m_audioCount < 16384 then s.m_audioCount + 1 else s.m_audioCount := by
  split_ifs with h
  · rw [appendAudioSamplesStep_of_lt s x h]
  · rw [appendAudioSamplesStep_of_ge s x (by omega)]

theorem appendAudioSamplesStep_inv (s : JboyCore σ) (x : Int) (h : RingInv s) :
    RingInv (appendAudioSamplesStep s x) := by
  obtain ⟨hc0, hc1, hr0, hr1, hw0, hw1, hw⟩ := h
  simp only [AUDIO_BUFFER_CAPACITY] at hc1 hr1 hw1 hw
  by_cases hlt : s.m_audioCount < 16384
  · rw [appendAudioSamplesStep_of_lt s x hlt]
    unfold RingInv
    simp only [AUDIO_BUFFER_CAPACITY]
    rw [wrap_tmod_16384 (x := s.m_audioWriteIndex + 1) (by omega) (by omega)]
    omega
  · rw [appendAudioSamplesStep_of_ge s x (by omega)]
    unfold RingInv
    simp only [AUDIO_BUFFER_CAPACITY]
    rw [wrap_tmod_16384 (x := s.m_audioWriteIndex + 1) (by omega) (by omega),
      wrap_tmod_16384 (x := s.m_audioReadIndex + 1) (by omega) (by omega)]
    omega

/-- One stored sample is added at the end of the logical contents, and the
oldest sample leaves when the buffer was full. -/
theorem appendAudioSamplesStep_contents (s : JboyCore σ) (x : Int) (h : RingInv s) :
    contents (appendAudioSamplesStep s x) = lastN 16384 (contents s ++ [x]) := by
  obtain ⟨hc0, hc1, hr0, hr1, hw0, hw1, hw⟩ := h
  simp only [AUDIO_BUFFER_CAPACITY] at hc1 hr1 hw1 hw
  obtain ⟨n, hn⟩ := Int.eq_ofNat_of_zero_le hc0
  by_cases hlt : s.m_audioCount < 16384
  · rw [appendAudioSamplesStep_of_lt s x hlt, lastN_of_length_le]
    · unfold contents
      simp only []
      rw [hn, hw, hn]
      have h1 : ((n : Int) + 1).toNat = n + 1 := by omega
      rw [h1, Int.toNat_ofNat, window_add, window_update_next _ _ _ _ (by omega), window_one]
      have e0 : (s.m_audioReadIndex + (n : Int)) % 16384 % 16384
          = (s.m_audioReadIndex + (n : Int)) % 16384 := by omega
      rw [e0, Function.update_same]
    · unfold contents
      rw [List.length_append, window_length]
      simp only [List.length_singleton]
      omega
  · have h16 : s.m_audioCount = 16384 := by omega
    rw [appendAudioSamplesStep_of_ge s x (by omega)]
    unfold contents lastN
    simp only []
    rw [List.length_append, window_length, h16, hw, h16,
      wrap_tmod_capacity (x := s.m_audioReadIndex + 1) (by omega) (by omega)]
    have e1 : (16384 : Int).toNat = 16383 + 1 := by decide
    have e2 : (16384 : Int).toNat = 1 + 16383 := by decide
    have e3 : (s.m_audioReadIndex + 16384) % 16384
        = ((s.m_audioReadIndex + 1) % 16384 + ((16383 : Nat) : Int)) % 16384 := by
      push_cast; omega
    rw [e1, window_add, e3, window_update_next _ _ _ _ (by omega), window_one]
    rw [show (16383 + 1 : Nat) = 1 + 16383 from rfl, window_add, window_one]
    simp only [List.length_singleton, List.length_cons, List.length_nil]
    have e4 : (s.m_audioReadIndex + ((1 : Nat) : Int)) % 16384 = (s.m_audioReadIndex + 1) % 16384 := by
      push_cast; rfl
    rw [e4]
    have e5 : ((s.m_audioReadIndex + 1) % 16384 + ((16383 : Nat) : Int)) % 16384 % 16384
        = ((s.m_audioReadIndex + 1) % 16384 + ((16383 : Nat) : Int)) % 16384 := by
      omega
    rw [e5, Function.update_same]
    simp


theorem appendAudioSamplesLoop_inv (samples : List Int) (n i : Nat) (s : JboyCore σ)
    (h : RingInv s) : RingInv (appendAudioSamplesLoop samples n i s) := by
  induction n generalizing i s with
  | zero => exact h
  | succ n ih =>
    simp only [appendAudioSamplesLoop]
    exact ih _ _ (appendAudioSamplesStep_inv s _ h)

/-- The loop saturates the count at the capacity. -/
theorem appendAudioSamplesLoop_count (samples : List Int) (n i : Nat) (s : JboyCore σ)
    (h : s.m_audioCount ≤ 16384) :
    (appendAudioSamplesLoop samples n i s).m_audioCount = min (s.m_audioCount + (n : Int)) 16384 := by
  induction n generalizing i s with
  | zero =>
    simp only [appendAudioSamplesLoop]
    simp only [min_def]
    split_ifs <;> omega
  | succ n ih =>
    simp only [appendAudioSamplesLoop]
    have hc := appendAudioSamplesStep_count s (samples.getD i 0)
    rw [ih _ _ (by rw [hc]; split_ifs <;> omega), hc]
    simp only [min_def]
    push_cast
    split_ifs <;> omega

/-- The loop appends the samples it reads, in order, keeping the newest 16384. -/
theorem appendAudioSamplesLoop_contents (samples : List Int) (n i : Nat) (s : JboyCore σ)
    (h : RingInv s) (hlen : i + n ≤ samples.length) :
    contents (appendAudioSamplesLoop samples n i s) =
      lastN 16384 (contents s ++ (samples.drop i).take n) := by
  induction n generalizing i s with
  | zero =>
    simp only [appendAudioSamplesLoop, List.take_zero, List.append_nil]
    rw [lastN_of_length_le]
    unfold contents
    rw [window_length]
    have := h.2.1
    simp only [AUDIO_BUFFER_CAPACITY] at this
    omega
  | succ n ih =>
    simp only [appendAudioSamplesLoop]
    have hi : i < samples.length := by omega
    rw [ih _ _ (appendAudioSamplesStep_inv s _ h) (by omega),
      appendAudioSamplesStep_contents s _ h, lastN_append_lastN,
      List.drop_eq_getElem_cons hi, List.take_succ_cons, List.getD_eq_getElem _ _ hi]
    simp

/-- The loop advances the read index by the number of samples that did not fit. -/
theorem appendAudioSamplesLoop_readIndex (samples : List Int) (n i : Nat) (s : JboyCore σ)
    (h : RingInv s) :
    (appendAudioSamplesLoop samples n i s).m_audioReadIndex =
      (s.m_audioReadIndex +
        (s.m_audioCount + (n : Int) - min (s.m_audioCount + (n : Int)) 16384)) % 16384 := by
  induction n generalizing i s with
  | zero =>
    obtain ⟨hc0, hc1, hr0, hr1, -⟩ := h
    simp only [AUDIO_BUFFER_CAPACITY] at hc1 hr1
    simp only [appendAudioSamplesLoop, min_def]
    split_ifs <;> omega
  | succ n ih =>
    simp only [appendAudioSamplesLoop]
    rw [ih _ _ (appendAudioSamplesStep_inv s _ h)]
    obtain ⟨hc0, hc1, hr0, hr1, -⟩ := h
    simp only [AUDIO_BUFFER_CAPACITY] at hc1 hr1
    by_cases hlt : s.m_audioCount < 16384
    · rw [appendAudioSamplesStep_of_lt s _ hlt]
      simp only [min_def]
      push_cast
      split_ifs <;> omega
    · rw [appendAudioSamplesStep_of_ge s _ (by omega)]
      simp only []
      rw [wrap_tmod_capacity (by omega) (by omega)]
      simp only [min_def]
      push_cast
      split_ifs <;> omega

/-- C4: for every ring-buffer state satisfying the invariant, with logical
contents `L`, and every sample sequence `S` of length `n > 0`, after
`appendAudioSamples(S, n)` the logical contents are the last
`min(16384, |L| + n)` elements of `L ++ S`: nothing is lost while there is
room, and otherwise the read index has advanced past the `|L| + n - 16384`
oldest samples. The invariant still holds. -/
theorem appendAudioSamples_contents (s : JboyCore σ) (S : List Int)
    (hinv : RingInv s) (hn : 0 < S.length) :
    contents (appendAudioSamples s (some S) (S.length : Int)) =
      lastN (min 16384 ((contents s).length + S.length)) (contents s ++ S) ∧
    ((contents s).length + S.length ≤ 16384 →
      contents (appendAudioSamples s (some S) (S.length : Int)) = contents s ++ S) ∧
    (appendAudioSamples s (some S) (S.length : Int)).m_audioReadIndex =
      (s.m_audioReadIndex + (((contents s).length + S.length - 16384 : Nat) : Int)) % 16384 ∧
    RingInv (appendAudioSamples s (some S) (S.length : Int)) := by
  have hpos : ¬ ((S.length : Int) ≤ 0) := by omega
  have hmain : contents (appendAudioSamples s (some S) (S.length : Int)) =
      lastN (min 16384 ((contents s).length + S.length)) (contents s ++ S) := by
    unfold appendAudioSamples
    simp only [hpos, if_false, Int.toNat_ofNat]
    rw [appendAudioSamplesLoop_contents S S.length 0 s hinv (by omega)]
    simp only [List.drop_zero, List.take_length]
    unfold lastN
    have e : (contents s ++ S).length - 16384 =
        (contents s ++ S).length - min 16384 ((contents s).length + S.length) := by
      rw [List.length_append]
      omega
    rw [e]
  refine ⟨hmain, ?_, ?_, ?_⟩
  · intro hroom
    rw [hmain, lastN_of_length_le]
    rw [List.length_append]
    omega
  · have hc0 := hinv.1
    have hlen : (contents s).length = s.m_audioCount.toNat := by
      unfold contents; rw [window_length]
    unfold appendAudioSamples
    simp only [hpos, if_false, Int.toNat_ofNat]
    rw [appendAudioSamplesLoop_readIndex S S.length 0 s hinv, hlen]
    congr 1
    simp only [min_def]
    split_ifs <;> omega
  · unfold appendAudioSamples
    simp only [hpos, if_false]
    exact appendAudioSamplesLoop_inv _ _ _ _ hinv

/-- Witness of `appendAudioSamples_contents`: four samples appended to the
freshly constructed object. -/
theorem appendAudioSamples_contents_witness :
    contents (appendAudioSamples (construct : JboyCore Unit) (some [1, 2, 3, 4])
        (([1, 2, 3, 4] : List Int).length : Int)) =
      lastN (min 16384 ((contents (construct : JboyCore Unit)).length
        + ([1, 2, 3, 4] : List Int).length)) (contents (construct : JboyCore Unit) ++ [1, 2, 3, 4]) ∧
    ((contents (construct : JboyCore Unit)).length + ([1, 2, 3, 4] : List Int).length ≤ 16384 →
      contents (appendAudioSamples (construct : JboyCore Unit) (some [1, 2, 3, 4])
        (([1, 2, 3, 4] : List Int).length : Int)) = contents (construct : JboyCore Unit) ++ [1, 2, 3, 4]) ∧
    (appendAudioSamples (construct : JboyCore Unit) (some [1, 2, 3, 4])
        (([1, 2, 3, 4] : List Int).length : Int)).m_audioReadIndex =
      ((construct : JboyCore Unit).m_audioReadIndex +
        (((contents (construct : JboyCore Unit)).length + ([1, 2, 3, 4] : List Int).length - 16384 : Nat)
          : Int)) % 16384 ∧
    RingInv (appendAudioSamples (construct : JboyCore Unit) (some [1, 2, 3, 4])
        (([1, 2, 3, 4] : List Int).length : Int)) :=
  appendAudioSamples_contents construct [1, 2, 3, 4] (by decide) (by decide)


/-! ## `consumeAudioSamples` reads from the read end -/

theorem window_drop (buf : Int → Int) (r : Int) (n a : Nat) (h : a ≤ n) :
    (window buf r n).drop a = window buf ((r + (a : Int)) % 16384) (n - a) := by
  have e : n = a + (n - a) := by omega
  conv_lhs => rw [e, window_add]
  rw [List.drop_left' (window_length _ _ _)]

theorem window_take (buf : Int → Int) (r : Int) (n a : Nat) (h : a ≤ n) :
    (window buf r n).take a = window buf r a := by
  have e : n = a + (n - a) := by omega
  conv_lhs => rw [e, window_add]
  rw [List.take_left' (window_length _ _ _)]

theorem window_mod (buf : Int → Int) (r : Int) (n : Nat) :
    window buf (r % 16384) n = window buf r n := by
  unfold window
  apply List.map_congr_left
  intro i _
  simp only [AUDIO_BUFFER_CAPACITY]
  congr 1
  omega

theorem trimBacklog_buffer (s : JboyCore σ) (m : Int) :
    (trimBacklog s m).m_audioBuffer = s.m_audioBuffer := by
  rw [trimBacklog_eq]
  split_ifs <;> rfl

/-- With the invariant, a 32-bit sample rate and `0 < maxSamples < 2^31`, the
trimming block leaves `m_audioCount - trimDrop` samples and, when it drops no
more than is buffered, moves the read index forward by the dropped amount. -/
theorem trimBacklog_facts (s : JboyCore σ) (m : Int) (hinv : RingInv s)
    (hr : s.m_targetSampleRate < 4294967296) (h0 : 0 < m) (h1 : m < 2147483648) :
    (trimBacklog s m).m_audioCount = s.m_audioCount - trimDrop s m ∧
    (trimDrop s m ≤ s.m_audioCount →
      (trimBacklog s m).m_audioReadIndex = (s.m_audioReadIndex + trimDrop s m) % 16384) := by
  obtain ⟨hc0, hc1, hr0, hr1, -⟩ := hinv
  simp only [AUDIO_BUFFER_CAPACITY] at hc1 hr1
  have hrange := preferredBacklog_range s.m_targetSampleRate m hr h0 h1
  have hhi : s.m_audioCount - preferredBacklog s.m_targetSampleRate m < 2147483648 := by
    omega
  refine ⟨trimBacklog_count s m (by omega) (by omega) (by omega) hhi, fun hle => ?_⟩
  have hdn := trimDrop_nonneg s m
  rw [trimBacklog_eq]
  split_ifs with h
  · show (wrapInt32 (s.m_audioReadIndex + trimDrop s m)).tmod AUDIO_BUFFER_CAPACITY = _
    exact wrap_tmod_capacity (by omega) (by omega)
  · have : trimDrop s m = 0 := by omega
    rw [this]
    omega

theorem trimBacklog_contents (s : JboyCore σ) (m : Int) (hinv : RingInv s)
    (hr : s.m_targetSampleRate < 4294967296) (h0 : 0 < m) (h1 : m < 2147483648) :
    contents (trimBacklog s m) = (contents s).drop (trimDrop s m).toNat := by
  obtain ⟨hcount, hidx⟩ := trimBacklog_facts s m hinv hr h0 h1
  have hdn := trimDrop_nonneg s m
  have hc0 := hinv.1
  unfold contents
  rw [trimBacklog_buffer, hcount]
  by_cases hle : trimDrop s m ≤ s.m_audioCount
  · have e1 : (((trimDrop s m).toNat : Nat) : Int) = trimDrop s m := Int.toNat_of_nonneg hdn
    have e2 : s.m_audioCount.toNat - (trimDrop s m).toNat
        = (s.m_audioCount - trimDrop s m).toNat := by omega
    rw [hidx hle, window_drop _ _ _ _ (by omega), e1, e2]
  · rw [List.drop_eq_nil_of_le (by rw [window_length]; omega)]
    have : (s.m_audioCount - trimDrop s m).toNat = 0 := by omega
    rw [this]
    rfl

/-- C5: for every ring-buffer state satisfying the invariant, with logical
contents `L`, a call `consumeAudioSamples(out, maxSamples)` (non-null `out`,
`maxSamples > 0`) that trims `d` samples and returns `k` writes
`out[0..k) = L[d..d+k)` in order and leaves the logical contents `L[d+k..]`;
the trimming leaves `L[d..]`, i.e. removes the `d` oldest samples, and `d` is
even. -/
theorem consumeAudioSamples_fifo (s : JboyCore σ) (maxSamples : Int) (hinv : RingInv s)
    (hr : s.m_targetSampleRate < 4294967296) (h0 : 0 < maxSamples)
    (h1 : maxSamples < 2147483648) :
    (consumeAudioSamples s true maxSamples).out =
      ((contents s).drop (trimDrop s maxSamples).toNat).take
        (consumeAudioSamples s true maxSamples).ret.toNat ∧
    contents (consumeAudioSamples s true maxSamples).core =
      (contents s).drop ((trimDrop s maxSamples).toNat +
        (consumeAudioSamples s true maxSamples).ret.toNat) ∧
    contents (trimBacklog s maxSamples) = (contents s).drop (trimDrop s maxSamples).toNat ∧
    trimDrop s maxSamples % 2 = 0 := by
  have htrim := trimBacklog_contents s maxSamples hinv hr h0 h1
  obtain ⟨hcount, hidx⟩ := trimBacklog_facts s maxSamples hinv hr h0 h1
  have hdn := trimDrop_nonneg s maxSamples
  obtain ⟨hc0, hc1, hr0, hr1, -⟩ := hinv
  simp only [AUDIO_BUFFER_CAPACITY] at hc1 hr1
  refine ⟨?_, ?_, htrim, trimDrop_even s maxSamples⟩
  · rw [← htrim]
    unfold consumeAudioSamples
    simp only []
    rw [if_neg (by simp; omega)]
    split_ifs with hk
    · simp
    · simp only []
      have hk2 : serveCount (trimBacklog s maxSamples) maxSamples
          ≤ (trimBacklog s maxSamples).m_audioCount := by
        unfold serveCount; simp only []; split_ifs <;> omega
      have hle : trimDrop s maxSamples ≤ s.m_audioCount := by omega
      have hidx2 := hidx hle
      rw [consumeCopyLoop_out _ _ (by rw [hidx2]; omega) (by rw [hidx2]; omega)]
      unfold contents
      rw [window_take _ _ _ _ (by omega)]
  · unfold consumeAudioSamples
    simp only []
    rw [if_neg (by simp; omega)]
    split_ifs with hk
    · simp only [Int.toNat_zero, Nat.add_zero]
      exact htrim
    · simp only []
      have hk2 : serveCount (trimBacklog s maxSamples) maxSamples
          ≤ (trimBacklog s maxSamples).m_audioCount := by
        unfold serveCount; simp only []; split_ifs <;> omega
      have hle : trimDrop s maxSamples ≤ s.m_audioCount := by omega
      have hidx2 := hidx hle
      rw [← List.drop_drop, ← htrim]
      unfold contents
      simp only []
      rw [consumeCopyLoop_frame]
      simp only []
      have e1 : (((serveCount (trimBacklog s maxSamples) maxSamples).toNat : Nat) : Int)
          = serveCount (trimBacklog s maxSamples) maxSamples := Int.toNat_of_nonneg (by omega)
      have e2 : (trimBacklog s maxSamples).m_audioCount.toNat
            - (serveCount (trimBacklog s maxSamples) maxSamples).toNat
          = ((trimBacklog s maxSamples).m_audioCount
            - serveCount (trimBacklog s maxSamples) maxSamples).toNat := by omega
      rw [consumeCopyLoop_readIndex _ _ (by rw [hidx2]; omega) (by rw [hidx2]; omega),
        window_drop _ _ _ _ (by omega), e1, e2]

/-- Witness of `consumeAudioSamples_fifo`: six buffered samples and
`maxSamples = 2`. -/
theorem consumeAudioSamples_fifo_witness :
    (consumeAudioSamples sixSamples true 2).out =
      ((contents sixSamples).drop (trimDrop sixSamples 2).toNat).take
        (consumeAudioSamples sixSamples true 2).ret.toNat ∧
    contents (consumeAudioSamples sixSamples true 2).core =
      (contents sixSamples).drop ((trimDrop sixSamples 2).toNat +
        (consumeAudioSamples sixSamples true 2).ret.toNat) ∧
    contents (trimBacklog sixSamples 2) = (contents sixSamples).drop (trimDrop sixSamples 2).toNat ∧
    trimDrop sixSamples 2 % 2 = 0 :=
  consumeAudioSamples_fifo sixSamples 2 (by decide) (by decide) (by decide) (by decide)


/-! ## The lifecycle operations keep or empty the ring buffer -/

theorem KeepOrClear.refl (s : JboyCore σ) : KeepOrClear s s := Or.inl rfl

theorem KeepOrClear.trans {s t u : JboyCore σ} (h1 : KeepOrClear s t) (h2 : KeepOrClear t u) :
    KeepOrClear s u := by
  unfold KeepOrClear ringOf at *
  rcases h1 with h1 | h1 <;> rcases h2 with h2 | h2 <;> simp_all

theorem createCoreLocked_keepOrClear (api : MCoreApi σ) (created : Option σ) (y : System σ) :
    KeepOrClear y.core (createCoreLocked api created y).2.core := by
  unfold createCoreLocked KeepOrClear ringOf
  cases y.core.m_core <;> cases created <;> simp [System.call, clearAudio]

theorem performCoreResetLocked_keepOrClear (api : MCoreApi σ) (y : System σ) :
    KeepOrClear y.core (performCoreResetLocked api y).2.core := by
  unfold performCoreResetLocked KeepOrClear ringOf
  cases y.core.m_core <;> cases api.reset <;> cases y.core.m_romLoaded <;>
    simp [System.call, clearAudio]

theorem cleanup_keepOrClear (api : MCoreApi σ) (y : System σ) :
    KeepOrClear y.core (cleanup api y).core := by
  unfold cleanup KeepOrClear ringOf
  cases y.core.m_core <;> cases api.unloadROM <;> cases y.core.m_romLoaded <;>
    simp [System.call, clearAudio]

theorem unloadRom_keepOrClear (api : MCoreApi σ) (y : System σ) :
    KeepOrClear y.core (unloadRom api y).core := by
  unfold unloadRom KeepOrClear ringOf
  cases y.core.m_core <;> cases api.unloadROM <;> cases y.core.m_romLoaded <;>
    simp [System.call, clearAudio]


theorem keepOrClear_of_ringOf_eq {s t u : JboyCore σ} (h : KeepOrClear s t)
    (e : ringOf u = ringOf t) : KeepOrClear s u := by
  unfold KeepOrClear at *
  rw [e]; exact h

theorem keepOrClear_of_eq_ringOf {s t u : JboyCore σ} (e : ringOf t = ringOf s)
    (h : KeepOrClear t u) : KeepOrClear s u := by
  unfold KeepOrClear ringOf at *
  simp only [Prod.mk.injEq] at e h ⊢
  obtain ⟨a1, a2, a3, a4⟩ := e
  rw [← a1, ← a2, ← a3, ← a4]
  exact h

theorem loadRomAttach_ringOf (api : MCoreApi σ) (romPath : String) (c : σ) (y : System σ) :
    ringOf (loadRomAttach api romPath c y).core = ringOf y.core := by
  unfold loadRomAttach
  simp only []
  split_ifs <;> rfl

theorem loadRomFinish_keepOrClear (api : MCoreApi σ) (romPath : String) (c : σ)
    (y : System σ) (r : Bool × System σ) (h : loadRomFinish api romPath c y = some r) :
    KeepOrClear y.core r.2.core := by
  unfold loadRomFinish at h
  simp only [] at h
  have h1 : KeepOrClear y.core
      (performCoreResetLocked api (loadRomAttach api romPath c y)).2.core :=
    keepOrClear_of_eq_ringOf (loadRomAttach_ringOf api romPath c y)
      (performCoreResetLocked_keepOrClear api _)
  generalize performCoreResetLocked api (loadRomAttach api romPath c y) = rr at h h1
  split_ifs at h
  · split at h
    · cases h; exact keepOrClear_of_ringOf_eq h1 rfl
    · cases h
  · cases h; exact h1

theorem loadRomOpen_keepOrClear (api : MCoreApi σ) (romPath : String)
    (y : System σ) (r : Bool × System σ) (h : loadRomOpen api romPath y = some r) :
    KeepOrClear y.core r.2.core := by
  unfold loadRomOpen at h
  simp only [] at h
  split at h
  · cases h; exact Or.inl rfl
  · split at h
    · cases h
    · split_ifs at h
      · cases h; exact Or.inl rfl
      · have h2 := loadRomFinish_keepOrClear _ _ _ _ _ h
        exact keepOrClear_of_eq_ringOf rfl h2

theorem loadRom_keepOrClear (api : MCoreApi σ) (romPath : String) (created : Option σ)
    (y : System σ) (r : Bool × System σ) (h : loadRom api romPath created y = some r) :
    KeepOrClear y.core r.2.core := by
  have hc := createCoreLocked_keepOrClear api created y
  unfold loadRom at h
  simp only [] at h
  generalize hr0 : (if y.core.m_core.isNone = true ∨ y.core.m_romLoaded = true
    then createCoreLocked api created y else (true, y)) = r0 at h
  have h0 : KeepOrClear y.core r0.2.core := by
    rw [← hr0]; split_ifs
    · exact hc
    · exact KeepOrClear.refl _
  split_ifs at h
  · cases h; exact h0
  · exact h0.trans (loadRomOpen_keepOrClear _ _ _ _ h)

theorem reset_keepOrClear (api : MCoreApi σ) (created : Option σ)
    (y y1 : System σ) (h : JboyCore.reset api created y = some y1) :
    KeepOrClear y.core y1.core := by
  unfold JboyCore.reset at h
  split_ifs at h
  · cases h; exact KeepOrClear.refl _
  · cases hl : loadRom api y.core.m_romPath created y with
    | none => rw [hl] at h; cases h
    | some r =>
      rw [hl] at h
      cases h
      exact loadRom_keepOrClear _ _ _ _ _ hl


theorem saveState_ringOf (api : MCoreApi σ) (slot : Int) (fopenOk : Bool) (written flushed : Nat)
    (y : System σ) : ringOf (saveState api slot fopenOk written flushed y).2.core = ringOf y.core := by
  unfold saveState saveStateFallback
  simp only []
  repeat' split
  all_goals rfl

theorem loadState_ringOf (api : MCoreApi σ) (slot : Int) (y : System σ) :
    ringOf (loadState api slot y).2.core = ringOf y.core := by
  unfold loadState loadStateFallback
  simp only []
  repeat' split
  all_goals rfl

theorem hasSaveState_ringOf (api : MCoreApi σ) (slot : Int) (y : System σ) :
    ringOf (hasSaveState api slot y).2.core = ringOf y.core := by
  unfold hasSaveState
  simp only []
  repeat' split
  all_goals rfl

theorem setInput_ringOf (api : MCoreApi σ) (buttons : Int) (y : System σ) :
    ringOf (setInput api buttons y).core = ringOf y.core := by
  unfold setInput
  simp only []
  split <;> rfl

theorem setAudioConfig_ringOf (api : MCoreApi σ) (sampleRate bufferSize : Int) (y : System σ) :
    ringOf (setAudioConfig api sampleRate bufferSize y).core = ringOf y.core := by
  unfold setAudioConfig
  simp only []
  split <;> rfl

theorem setGameOptions_ringOf (api : MCoreApi σ) (a : Bool) (b c : Int) (d : Bool) (e : Int)
    (f : Bool) (y : System σ) :
    ringOf (setGameOptions api a b c d e f y).core = ringOf y.core := by
  unfold setGameOptions
  simp only []
  split <;> rfl

/-- A property of the ring buffer that every append of whole stereo frames
preserves is preserved by the audio drain loop of `runFrame`. -/
theorem drainAudioLoop_preserves (api : MCoreApi σ) (P : JboyCore σ → Prop)
    (happend : ∀ (s : JboyCore σ) (buf : List Int) (k : Nat),
      P s → P (appendAudioSamples s (some buf) ((k * 2 : Nat) : Int)))
    (n : Nat) (c : σ) (y : System σ) (h : P y.core) : P (drainAudioLoop api n c y).2.core := by
  induction n generalizing c y with
  | zero => exact h
  | succ n ih =>
    simp only [drainAudioLoop]
    generalize (if api.mAudioBufferAvailable c < 1024 then api.mAudioBufferAvailable c
      else 1024) = framesToRead
    by_cases h1 : api.mAudioBufferAvailable c = 0
    · rw [if_pos h1]; exact h
    · rw [if_neg h1]
      by_cases h2 : (List.take framesToRead (api.mAudioBufferRead c framesToRead).1).length = 0
      · rw [if_pos h2]; exact h
      · rw [if_neg h2]
        exact ih _ _ (happend _ _ _ h)

theorem runFrameAudio_preserves (api : MCoreApi σ) (P : JboyCore σ → Prop)
    (happend : ∀ (s : JboyCore σ) (buf : List Int) (k : Nat),
      P s → P (appendAudioSamples s (some buf) ((k * 2 : Nat) : Int)))
    (c : σ) (y : System σ) (h : P y.core) : P (runFrameAudio api c y).2.core := by
  unfold runFrameAudio
  cases api.getAudioBuffer with
  | none => exact h
  | some getAudioBuffer =>
    simp only []
    split_ifs
    · exact drainAudioLoop_preserves api P happend _ _ _ h
    · exact h

theorem runFrame_preserves (api : MCoreApi σ) (P : JboyCore σ → Prop)
    (hP : ∀ s t : JboyCore σ, ringOf t = ringOf s → P s → P t)
    (happend : ∀ (s : JboyCore σ) (buf : List Int) (k : Nat),
      P s → P (appendAudioSamples s (some buf) ((k * 2 : Nat) : Int)))
    (y : System σ) (h : P y.core) : P (runFrame api y).core := by
  unfold runFrame
  cases hc : y.core.m_core with
  | none => exact h
  | some c =>
    simp only []
    split_ifs
    · exact h
    · cases hs : api.runFrame with
      | none => exact h
      | some step =>
        simp only []
        have h1 := runFrameAudio_preserves api P happend (step c y.core.m_coreVideoBuffer).1
          { y.call .runFrame with
            core := { y.core with
              m_coreVideoBuffer := (step c y.core.m_coreVideoBuffer).2
              m_videoBuffer := normalizeVideo api.color16 (step c y.core.m_coreVideoBuffer).2
                y.core.m_videoBuffer } } (hP y.core _ rfl h)
        refine hP _ _ ?_ h1
        rfl


/-! ## Properties of the ring buffer along sequences of calls -/

theorem keepOrClear_preserves (P : JboyCore σ → Prop)
    (hP : ∀ s t : JboyCore σ, ringOf t = ringOf s → P s → P t)
    (hclear : ∀ s : JboyCore σ,
      s.m_audioReadIndex = 0 → s.m_audioWriteIndex = 0 → s.m_audioCount = 0 → P s)
    {s t : JboyCore σ} (h : KeepOrClear s t) (hs : P s) : P t := by
  rcases h with h | h
  · exact hP s t h hs
  · unfold ringOf at h
    simp only [Prod.mk.injEq] at h
    exact hclear t h.2.1 h.2.2.1 h.2.2.2

/-- A property `P` of the ring-buffer members that holds for an empty buffer and
is preserved by the admitted appends and consumes is preserved by every
admitted call. -/
theorem exec_preserves (api : MCoreApi σ) (P : JboyCore σ → Prop) (E C : Int → Prop)
    (hP : ∀ s t : JboyCore σ, ringOf t = ringOf s → P s → P t)
    (hclear : ∀ s : JboyCore σ,
      s.m_audioReadIndex = 0 → s.m_audioWriteIndex = 0 → s.m_audioCount = 0 → P s)
    (hE : ∀ k : Nat, E ((k * 2 : Nat) : Int))
    (happend : ∀ (s : JboyCore σ) (samples : Option (List Int)) (n : Int),
      E n → P s → P (appendAudioSamples s samples n))
    (hconsume : ∀ (s : JboyCore σ) (b : Bool) (m : Int),
      C m → P s → P (consumeAudioSamples s b m).core)
    (op : Op σ) (hop : op.Admits E C) (y y1 : System σ) (h : op.exec api y = some y1)
    (hy : P y.core) : P y1.core := by
  have hk := fun {s t : JboyCore σ} (h : KeepOrClear s t) (hs : P s) =>
    keepOrClear_preserves P hP hclear h hs
  cases op with
  | init created =>
    cases h; exact hk (createCoreLocked_keepOrClear api created y) hy
  | cleanup => cases h; exact hk (cleanup_keepOrClear api y) hy
  | loadRom romPath created =>
    simp only [Op.exec] at h
    cases hl : loadRom api romPath created y with
    | none => rw [hl] at h; cases h
    | some r => rw [hl] at h; cases h; exact hk (loadRom_keepOrClear _ _ _ _ _ hl) hy
  | unloadRom => cases h; exact hk (unloadRom_keepOrClear api y) hy
  | runFrame =>
    cases h
    exact runFrame_preserves api P hP (fun s buf k hs => happend s (some buf) _ (hE k) hs) y hy
  | setInput buttons => cases h; exact hP _ _ (setInput_ringOf api buttons y) hy
  | saveState slot fopenOk written flushed =>
    cases h; exact hP _ _ (saveState_ringOf api slot fopenOk written flushed y) hy
  | loadState slot => cases h; exact hP _ _ (loadState_ringOf api slot y) hy
  | hasSaveState slot => cases h; exact hP _ _ (hasSaveState_ringOf api slot y) hy
  | pause => cases h; exact hP y.core _ rfl hy
  | resume => cases h; exact hP y.core _ rfl hy
  | reset created => exact hk (reset_keepOrClear api created y y1 h) hy
  | setAudioConfig sampleRate bufferSize =>
    cases h; exact hP _ _ (setAudioConfig_ringOf api sampleRate bufferSize y) hy
  | setGameOptions a b c d e f =>
    cases h; exact hP _ _ (setGameOptions_ringOf api a b c d e f y) hy
  | consumeAudioSamples outNonNull maxSamples =>
    cases h; exact hconsume _ _ _ hop hy
  | appendAudioFrame left right =>
    cases h
    have h2 : E 2 := hE 1
    exact happend y.core (some [left, right]) 2 h2 hy
  | appendAudioSamples samples sampleCount =>
    cases h; exact happend _ _ _ hop hy
  | createCoreLocked created =>
    cases h; exact hk (createCoreLocked_keepOrClear api created y) hy
  | performCoreResetLocked =>
    cases h; exact hk (performCoreResetLocked_keepOrClear api y) hy

theorem runOps_preserves (api : MCoreApi σ) (P : JboyCore σ → Prop) (E C : Int → Prop)
    (hP : ∀ s t : JboyCore σ, ringOf t = ringOf s → P s → P t)
    (hclear : ∀ s : JboyCore σ,
      s.m_audioReadIndex = 0 → s.m_audioWriteIndex = 0 → s.m_audioCount = 0 → P s)
    (hE : ∀ k : Nat, E ((k * 2 : Nat) : Int))
    (happend : ∀ (s : JboyCore σ) (samples : Option (List Int)) (n : Int),
      E n → P s → P (appendAudioSamples s samples n))
    (hconsume : ∀ (s : JboyCore σ) (b : Bool) (m : Int),
      C m → P s → P (consumeAudioSamples s b m).core)
    (ops : List (Op σ)) (hops : ∀ op ∈ ops, op.Admits E C) (y y1 : System σ)
    (h : runOps api ops y = some y1) (hy : P y.core) : P y1.core := by
  induction ops generalizing y with
  | nil => cases h; exact hy
  | cons op rest ih =>
    simp only [runOps] at h
    cases he : op.exec api y with
    | none => rw [he] at h; cases h
    | some y2 =>
      rw [he] at h
      exact ih (fun o ho => hops o (List.mem_cons_of_mem _ ho)) y2 h
        (exec_preserves api P E C hP hclear hE happend hconsume op
          (hops op (List.mem_cons_self _ _)) y y2 he hy)


theorem ringInv_of_ringOf_eq (s t : JboyCore σ) (e : ringOf t = ringOf s) (h : RingInv s) :
    RingInv t := by
  unfold ringOf at e
  simp only [Prod.mk.injEq] at e
  obtain ⟨-, e2, e3, e4⟩ := e
  unfold RingInv at *
  rw [e2, e3, e4]
  exact h

theorem ringInv_of_empty (s : JboyCore σ) (h1 : s.m_audioReadIndex = 0)
    (h2 : s.m_audioWriteIndex = 0) (h3 : s.m_audioCount = 0) : RingInv s := by
  unfold RingInv AUDIO_BUFFER_CAPACITY
  rw [h1, h2, h3]
  decide

theorem appendAudioSamples_inv (s : JboyCore σ) (samples : Option (List Int)) (n : Int)
    (h : RingInv s) : RingInv (appendAudioSamples s samples n) := by
  unfold appendAudioSamples
  cases samples with
  | none => exact h
  | some buf =>
    simp only []
    split_ifs
    · exact h
    · exact appendAudioSamplesLoop_inv _ _ _ _ h

/-- Below `2^30` the trimming block keeps the invariant. -/
theorem trimBacklog_inv (s : JboyCore σ) (m : Int) (h : RingInv s)
    (h0 : 0 < m) (h1 : m < 1073741824) : RingInv (trimBacklog s m) := by
  obtain ⟨hc0, hc1, hr0, hr1, hw0, hw1, hw⟩ := h
  simp only [AUDIO_BUFFER_CAPACITY] at hc1 hr1 hw1 hw
  have hp := preferredBacklog_ge s.m_targetSampleRate m h0 h1
  have hhi : s.m_audioCount - preferredBacklog s.m_targetSampleRate m < 2147483648 := by
    omega
  have hd := trimDrop_eq s m hhi
  have hdn := trimDrop_nonneg s m
  have hdle : trimDrop s m ≤ s.m_audioCount := by
    rw [hd]; unfold roundDownEven; split_ifs <;> omega
  rw [trimBacklog_eq]
  split_ifs with hpos
  · unfold RingInv
    simp only [AUDIO_BUFFER_CAPACITY]
    rw [wrap_tmod_16384 (by omega) (by omega), wrapInt32_eq_self (by omega) (by omega)]
    omega
  · unfold RingInv
    simp only [AUDIO_BUFFER_CAPACITY]
    omega

/-- With `maxSamples < 2^30`, `consumeAudioSamples` keeps the invariant. -/
theorem consumeAudioSamples_inv (s : JboyCore σ) (b : Bool) (m : Int) (h : RingInv s)
    (h1 : m < 1073741824) : RingInv (consumeAudioSamples s b m).core := by
  unfold consumeAudioSamples
  simp only []
  split_ifs with hg hk
  · exact h
  · exact trimBacklog_inv s m h (by simp at hg; omega) h1
  · have h0 : 0 < m := by simp at hg; omega
    have hinv := trimBacklog_inv s m h h0 h1
    obtain ⟨hc0, hc1, hr0, hr1, hw0, hw1, hw⟩ := hinv
    simp only [AUDIO_BUFFER_CAPACITY] at hc1 hr1 hw1 hw
    have hk2 : serveCount (trimBacklog s m) m ≤ (trimBacklog s m).m_audioCount := by
      unfold serveCount; simp only []; split_ifs <;> omega
    have hidx := consumeCopyLoop_readIndex (serveCount (trimBacklog s m) m).toNat
      (trimBacklog s m) hr0 hr1
    have hfr := consumeCopyLoop_frame (serveCount (trimBacklog s m) m).toNat (trimBacklog s m)
    unfold RingInv
    simp only [AUDIO_BUFFER_CAPACITY]
    rw [hfr]
    simp only []
    rw [hidx, Int.toNat_of_nonneg (by omega)]
    omega

/-- C1 (as amended): in every state reachable from construction through the
member functions of `JboyCore` (among them `appendAudioSamples`,
`appendAudioFrame`, `consumeAudioSamples`, engine creation, reset, `unloadRom`
and `cleanup`), with every `consumeAudioSamples` call passing
`maxSamples < 2^30`, `0 <= m_audioCount <= 16384`, both indices lie in
`[0, 16384)` and `m_audioWriteIndex == (m_audioReadIndex + m_audioCount) mod 16384`,
whatever the engine and the file system answer. -/
theorem ringInv_reachable (api : MCoreApi σ) (files : String → Option (List Nat))
    (ops : List (Op σ)) (y : System σ)
    (hops : ∀ op ∈ ops, op.consumeBelow 1073741824)
    (h : runOps api ops (System.initial files) = some y) : RingInv y.core :=
  runOps_preserves api RingInv (fun _ => True) (fun m => m < 1073741824)
    ringInv_of_ringOf_eq ringInv_of_empty (fun _ => trivial)
    (fun s samples n _ hs => appendAudioSamples_inv s samples n hs)
    (fun s b m hm hs => consumeAudioSamples_inv s b m hs hm)
    ops hops (System.initial files) y h (ringInv_of_empty _ rfl rfl rfl)

/-- Whatever the sample rate, the clamped preferred backlog is a 32-bit value. -/
theorem preferredBacklog_int32 (rate : Nat) (m : Int) (h0 : 0 < m) (h1 : m < 2147483648) :
    -2147483648 ≤ preferredBacklog rate m ∧ preferredBacklog rate m < 2147483648 := by
  unfold preferredBacklog wrapInt32 AUDIO_BUFFER_CAPACITY
  simp only []
  split_ifs <;> omega

theorem trimBacklog_evenBacklog (s : JboyCore σ) (m : Int) (h0 : 0 < m) (h1 : m < 2147483648)
    (h : EvenBacklog s) : EvenBacklog (trimBacklog s m) := by
  have hp := preferredBacklog_int32 s.m_targetSampleRate m h0 h1
  unfold EvenBacklog at *
  unfold trimBacklog
  simp only []
  generalize preferredBacklog s.m_targetSampleRate m = p at hp
  unfold wrapInt32
  split_ifs <;> (try simp only []) <;> omega

theorem consumeAudioSamples_evenBacklog (s : JboyCore σ) (b : Bool) (m : Int)
    (h1 : m < 2147483648) (h : EvenBacklog s) :
    EvenBacklog (consumeAudioSamples s b m).core := by
  unfold consumeAudioSamples
  simp only []
  split_ifs with hg hk
  · exact h
  · exact trimBacklog_evenBacklog s m (by simp at hg; omega) h1 h
  · have ht := trimBacklog_evenBacklog s m (by simp at hg; omega) h1 h
    unfold EvenBacklog at *
    simp only [consumeCopyLoop_count]
    unfold serveCount at hk ⊢
    simp only [] at hk ⊢
    split_ifs at hk ⊢ <;> omega

theorem appendAudioSamples_evenBacklog (s : JboyCore σ) (samples : Option (List Int)) (n : Int)
    (hn : n % 2 = 0) (h : EvenBacklog s) : EvenBacklog (appendAudioSamples s samples n) := by
  unfold appendAudioSamples
  cases samples with
  | none => exact h
  | some buf =>
    simp only []
    split_ifs with hle
    · exact h
    · unfold EvenBacklog at *
      rw [appendAudioSamplesLoop_count _ _ _ _ h.2.1, Int.toNat_of_nonneg (by omega)]
      simp only [min_def]
      split_ifs <;> omega

theorem evenBacklog_of_ringOf_eq (s t : JboyCore σ) (e : ringOf t = ringOf s)
    (h : EvenBacklog s) : EvenBacklog t := by
  unfold ringOf at e
  simp only [Prod.mk.injEq] at e
  unfold EvenBacklog at *
  rw [e.2.2.2]
  exact h

theorem evenBacklog_of_empty (s : JboyCore σ) (_h1 : s.m_audioReadIndex = 0)
    (_h2 : s.m_audioWriteIndex = 0) (h3 : s.m_audioCount = 0) : EvenBacklog s := by
  unfold EvenBacklog
  rw [h3]
  decide

/-- C6: starting from the empty ring buffer of a freshly constructed object, for
all sequences of calls of the member functions of `JboyCore` (appends, consumes
and every other operation) in which every append delivers whole stereo frames,
the buffered sample count `m_audioCount` is even after the calls, hence after
every call of the sequence. -/
theorem audioCount_even (api : MCoreApi σ) (files : String → Option (List Nat))
    (ops : List (Op σ)) (y : System σ) (hops : ∀ op ∈ ops, op.wholeFrames)
    (h : runOps api ops (System.initial files) = some y) : y.core.m_audioCount % 2 = 0 :=
  (runOps_preserves api EvenBacklog
    (fun n => n % 2 = 0) (fun m => m < 2147483648)
    evenBacklog_of_ringOf_eq evenBacklog_of_empty
    (fun k => by push_cast; omega)
    (fun s samples n hn hs => appendAudioSamples_evenBacklog s samples n hn hs)
    (fun s b m hm hs => consumeAudioSamples_evenBacklog s b m hm hs)
    ops hops (System.initial files) y h (evenBacklog_of_empty _ rfl rfl rfl)).1

theorem demoOps_run : runOps demoApi demoOps (System.initial demoFiles) = some demoAfterOps :=
  rfl

/-- Witness of `ringInv_reachable`: the session `demoOps` on the demonstration
engine. -/
theorem ringInv_reachable_witness :
    (∀ op ∈ demoOps, op.consumeBelow 1073741824) ∧
    runOps demoApi demoOps (System.initial demoFiles) = some demoAfterOps ∧
    RingInv demoAfterOps.core :=
  ⟨by simp [demoOps, Op.consumeBelow, Op.Admits], demoOps_run,
    ringInv_reachable demoApi demoFiles demoOps demoAfterOps
      (by simp [demoOps, Op.consumeBelow, Op.Admits]) demoOps_run⟩

/-- C1 fails as stated: `consumeAudioSamples(out, 2^30)` on the freshly
constructed object computes `maxSamples * 2` outside the `int` range, trims
the empty buffer by `2^30 - 16384` samples and leaves the state, reached from
construction through `consumeAudioSamples` alone, with
`m_audioCount = 16384 - 2^30 < 0`. -/
theorem ringInv_reachable_counterexample :
    (runOps demoApi [.consumeAudioSamples true 1073741824] (System.initial demoFiles)).map
        (fun y => y.core.m_audioCount) = some (-1073725440) ∧
    (runOps demoApi [.consumeAudioSamples true 1073741824] (System.initial demoFiles)).map
        (fun y => decide (RingInv y.core)) = some false := by
  decide

/-- Witness of `audioCount_even`: the session `demoOps` on the demonstration
engine. -/
theorem audioCount_even_witness :
    (∀ op ∈ demoOps, op.wholeFrames) ∧
    runOps demoApi demoOps (System.initial demoFiles) = some demoAfterOps ∧
    demoAfterOps.core.m_audioCount % 2 = 0 :=
  ⟨by simp [demoOps, Op.wholeFrames, Op.Admits], demoOps_run,
    audioCount_even demoApi demoFiles demoOps demoAfterOps
      (by simp [demoOps, Op.wholeFrames, Op.Admits]) demoOps_run⟩


/-! ## C8, C9, C10: `saveState` and the round trip through `loadState` -/

theorem newCalls_append (y y1 : System σ) (l : List ExternalCall)
    (h : y1.trace = y.trace ++ l) : newCalls y y1 = l := by
  unfold newCalls
  rw [h, List.drop_left]

/-- Without an engine, without a loaded ROM or with a negative slot, `saveState`
returns false and leaves the system as it is. -/
theorem saveState_guard (api : MCoreApi σ) (slot : Int) (fopenOk : Bool) (written flushed : Nat)
    (y : System σ)
    (h : y.core.m_core = none ∨ y.core.m_romLoaded = false ∨ slot < 0) :
    saveState api slot fopenOk written flushed y = (false, y) := by
  unfold saveState
  cases hc : y.core.m_core with
  | none => rfl
  | some c =>
    simp only []
    rw [hc] at h
    rw [if_pos (by simpa using h)]

/-- The path of `saveState` on which `fwrite` reports a complete write: with an
engine, a loaded ROM, `slot >= 0`, both entry points present, a non-zero size,
a successful serialize, a file that opens and a value of `fwrite` equal to
`stateSize`, the call returns true, the built-in slot save is not called, and
the slot file holds the first `flushed` bytes of the buffer. -/
theorem saveState_reported (api : MCoreApi σ) (slot : Int) (written flushed : Nat)
    (y : System σ) (c : σ) (sz : σ → Nat) (sv : σ → (Bool × List Nat) × σ)
    (hcore : y.core.m_core = some c) (hrom : y.core.m_romLoaded = true) (hslot : 0 ≤ slot)
    (hsz : api.stateSize = some sz) (hsv : api.saveState = some sv) (hne : sz c ≠ 0)
    (hok : (sv c).1.1 = true) (hwr : sz c ≤ written) :
    saveState api slot true written flushed y =
      (true,
        { core := { y.core with m_core := some (sv c).2 }
          files := Function.update y.files (y.core.getStatePath slot)
            (some ((((sv c).1.2 ++ List.replicate (sz c) 0).take (sz c)).take flushed))
          trace := y.trace ++ [.stateSize, .saveState, .fopen (y.core.getStatePath slot) "wb",
            .fwrite (y.core.getStatePath slot) (sz c), .fclose (y.core.getStatePath slot)] }) := by
  unfold saveState
  rw [hcore]
  simp only [hsz, hsv]
  rw [if_neg (by simp [hrom]; omega), if_neg hne, if_neg (by simp [hok])]
  simp only [Bool.true_eq_false, if_false]
  rw [if_pos (by omega)]
  have hmin : min flushed (min written (sz c)) = min flushed (sz c) := by
    rw [Nat.min_eq_right hwr]
  have htake : (((sv c).1.2 ++ List.replicate (sz c) 0).take (sz c)).take (min flushed (sz c)) =
      (((sv c).1.2 ++ List.replicate (sz c) 0).take (sz c)).take flushed := by
    rw [List.take_take, List.take_take]
    congr 1
    omega
  simp only [hmin, htake]
  simp [System.call, getStatePath]

/-- The direct path of `saveState`: with an engine, a loaded ROM, `slot >= 0`,
both entry points present, a non-zero size, a successful serialize, a file that
opens and a complete write that reaches the file, the call returns true, the
slot file holds the `stateSize` bytes of the buffer and the built-in slot save
is not called. -/
theorem saveState_direct (api : MCoreApi σ) (slot : Int) (written flushed : Nat) (y : System σ)
    (c : σ) (sz : σ → Nat) (sv : σ → (Bool × List Nat) × σ)
    (hcore : y.core.m_core = some c) (hrom : y.core.m_romLoaded = true) (hslot : 0 ≤ slot)
    (hsz : api.stateSize = some sz) (hsv : api.saveState = some sv) (hne : sz c ≠ 0)
    (hok : (sv c).1.1 = true) (hwr : sz c ≤ written) (hfl : sz c ≤ flushed) :
    saveState api slot true written flushed y =
      (true,
        { core := { y.core with m_core := some (sv c).2 }
          files := Function.update y.files (y.core.getStatePath slot)
            (some (((sv c).1.2 ++ List.replicate (sz c) 0).take (sz c)))
          trace := y.trace ++ [.stateSize, .saveState, .fopen (y.core.getStatePath slot) "wb",
            .fwrite (y.core.getStatePath slot) (sz c), .fclose (y.core.getStatePath slot)] }) := by
  rw [saveState_reported api slot written flushed y c sz sv hcore hrom hslot hsz hsv hne hok hwr,
    List.take_take, Nat.min_eq_right hfl]

/-- The fallback of `saveState` after a successful serialize: when the slot file
cannot be opened for writing or the write is short, the built-in slot save is
called (as the last external call) and its result is returned. -/
theorem saveState_fallback (api : MCoreApi σ) (slot : Int) (fopenOk : Bool) (written flushed : Nat)
    (y : System σ) (c : σ) (sz : σ → Nat) (sv : σ → (Bool × List Nat) × σ)
    (hcore : y.core.m_core = some c) (hrom : y.core.m_romLoaded = true) (hslot : 0 ≤ slot)
    (hsz : api.stateSize = some sz) (hsv : api.saveState = some sv) (hne : sz c ≠ 0)
    (hfail : (sv c).1.1 = false ∨ fopenOk = false ∨ written < sz c) :
    (saveState api slot fopenOk written flushed y).1 = (api.mCoreSaveState (sv c).2 slot).1 ∧
    ∃ before, newCalls y (saveState api slot fopenOk written flushed y).2 =
      before ++ [.mCoreSaveState slot] := by
  unfold saveState
  rw [hcore]
  simp only [hsz, hsv]
  rw [if_neg (by simp [hrom]; omega), if_neg hne]
  by_cases h1 : (sv c).1.1 = false
  · rw [if_pos h1]
    exact ⟨rfl, [.stateSize, .saveState], newCalls_append _ _ _ (by simp [saveStateFallback, System.call])⟩
  · rw [if_neg h1]
    by_cases h2 : fopenOk = false
    · rw [if_pos h2]
      exact ⟨rfl, [.stateSize, .saveState, .fopen (y.core.getStatePath slot) "wb"],
        newCalls_append _ _ _ (by simp [saveStateFallback, System.call, getStatePath])⟩
    · rw [if_neg h2]
      have h3 : written < sz c := by tauto
      rw [if_neg (by omega)]
      exact ⟨rfl, [.stateSize, .saveState, .fopen (y.core.getStatePath slot) "wb",
          .fwrite (y.core.getStatePath slot) (sz c), .fclose (y.core.getStatePath slot)],
        newCalls_append _ _ _ (by simp [saveStateFallback, System.call, getStatePath])⟩

/-- The engine state after the fallback of `saveState`: the state that the
built-in slot save leaves, called on the state after the serialize. -/
theorem saveState_fallback_core (api : MCoreApi σ) (slot : Int) (fopenOk : Bool)
    (written flushed : Nat)
    (y : System σ) (c : σ) (sz : σ → Nat) (sv : σ → (Bool × List Nat) × σ)
    (hcore : y.core.m_core = some c) (hrom : y.core.m_romLoaded = true) (hslot : 0 ≤ slot)
    (hsz : api.stateSize = some sz) (hsv : api.saveState = some sv) (hne : sz c ≠ 0)
    (hfail : (sv c).1.1 = false ∨ fopenOk = false ∨ written < sz c) :
    (saveState api slot fopenOk written flushed y).2.core =
      { y.core with m_core := some (api.mCoreSaveState (sv c).2 slot).2 } := by
  unfold saveState
  rw [hcore]
  simp only [hsz, hsv]
  rw [if_neg (by simp [hrom]; omega), if_neg hne]
  by_cases h1 : (sv c).1.1 = false
  · rw [if_pos h1]
    rfl
  · rw [if_neg h1]
    by_cases h2 : fopenOk = false
    · rw [if_pos h2]
      rfl
    · rw [if_neg h2]
      have h3 : written < sz c := by tauto
      rw [if_neg (by omega)]
      rfl

/-- C10 (as amended): with a ROM loaded, `slot >= 0`, the direct entry points
present and a non-zero snapshot size, `saveState` returns true without invoking
the built-in slot save exactly when the serialize succeeded, the slot file
opened for writing and `fwrite` reported `stateSize` bytes. The slot file then
holds the bytes of the serialized blob that have reached the file once `fclose`
has returned, a prefix of the blob: the whole blob of exactly `stateSize` bytes
when all of them have. When the serialize fails, the slot file cannot be opened
for writing or the byte count that `fwrite` reports differs from `stateSize`,
the call invokes the engine's built-in slot save, on the engine state that the
serialize left, keeps the engine state that this call leaves and returns its
result. With no engine, no ROM loaded or `slot < 0` it returns false without
touching the engine or any file. -/
theorem saveState_result (api : MCoreApi σ) (slot : Int) (fopenOk : Bool)
    (written flushed : Nat) (y : System σ) :
    (y.core.m_core = none ∨ y.core.m_romLoaded = false ∨ slot < 0 →
      saveState api slot fopenOk written flushed y = (false, y)) ∧
    (∀ (c : σ) (sz : σ → Nat) (sv : σ → (Bool × List Nat) × σ),
      y.core.m_core = some c → y.core.m_romLoaded = true → 0 ≤ slot →
      api.stateSize = some sz → api.saveState = some sv → sz c ≠ 0 →
      (((saveState api slot fopenOk written flushed y).1 = true ∧
          ExternalCall.mCoreSaveState slot ∉
            newCalls y (saveState api slot fopenOk written flushed y).2) ↔
        ((sv c).1.1 = true ∧ fopenOk = true ∧ sz c ≤ written)) ∧
      ((sv c).1.1 = true ∧ fopenOk = true ∧ sz c ≤ written →
        (saveState api slot fopenOk written flushed y).2.files (y.core.getStatePath slot) =
          some ((((sv c).1.2 ++ List.replicate (sz c) 0).take (sz c)).take flushed) ∧
        (((sv c).1.2 ++ List.replicate (sz c) 0).take (sz c)).length = sz c ∧
        (sz c ≤ flushed →
          (saveState api slot fopenOk written flushed y).2.files (y.core.getStatePath slot) =
            some (((sv c).1.2 ++ List.replicate (sz c) 0).take (sz c))) ∧
        (saveState api slot fopenOk written flushed y).2.core =
          { y.core with m_core := some (sv c).2 } ∧
        newCalls y (saveState api slot fopenOk written flushed y).2 =
          [.stateSize, .saveState, .fopen (y.core.getStatePath slot) "wb",
            .fwrite (y.core.getStatePath slot) (sz c), .fclose (y.core.getStatePath slot)]) ∧
      ((sv c).1.1 = false ∨ fopenOk = false ∨ written < sz c →
        (saveState api slot fopenOk written flushed y).1 = (api.mCoreSaveState (sv c).2 slot).1 ∧
        ExternalCall.mCoreSaveState slot ∈
          newCalls y (saveState api slot fopenOk written flushed y).2 ∧
        (saveState api slot fopenOk written flushed y).2.core =
          { y.core with m_core := some (api.mCoreSaveState (sv c).2 slot).2 })) := by
  refine ⟨saveState_guard api slot fopenOk written flushed y, ?_⟩
  intro c sz sv hcore hrom hslot hsz hsv hne
  have hfb := saveState_fallback api slot fopenOk written flushed y c sz sv hcore hrom hslot hsz
    hsv hne
  have hmem : ((sv c).1.1 = false ∨ fopenOk = false ∨ written < sz c) →
      ExternalCall.mCoreSaveState slot ∈
        newCalls y (saveState api slot fopenOk written flushed y).2 := by
    intro hf
    obtain ⟨-, before, hb⟩ := hfb hf
    rw [hb]
    simp
  have hlen : (((sv c).1.2 ++ List.replicate (sz c) 0).take (sz c)).length = sz c := by
    rw [List.length_take, List.length_append, List.length_replicate]
    omega
  refine ⟨⟨?_, ?_⟩, ?_, fun hf => ⟨(hfb hf).1, hmem hf,
    saveState_fallback_core api slot fopenOk written flushed y c sz sv hcore hrom hslot hsz hsv
      hne hf⟩⟩
  · rintro ⟨-, hnot⟩
    by_contra hcon
    apply hnot
    apply hmem
    by_cases h1 : (sv c).1.1 = true
    · by_cases h2 : fopenOk = true
      · right; right
        have : ¬ sz c ≤ written := fun h3 => hcon ⟨h1, h2, h3⟩
        omega
      · right; left; simpa using h2
    · left; simpa using h1
  · rintro ⟨h1, h2, h3⟩
    subst h2
    rw [saveState_reported api slot written flushed y c sz sv hcore hrom hslot hsz hsv hne h1 h3]
    refine ⟨rfl, ?_⟩
    rw [newCalls_append _ _ _ rfl]
    simp
  · rintro ⟨h1, h2, h3⟩
    subst h2
    rw [saveState_reported api slot written flushed y c sz sv hcore hrom hslot hsz hsv hne h1 h3]
    refine ⟨by simp, hlen, ?_, rfl, newCalls_append _ _ _ rfl⟩
    intro hfl
    have hfull : (((sv c).1.2 ++ List.replicate (sz c) 0).take (sz c)).take flushed =
        ((sv c).1.2 ++ List.replicate (sz c) 0).take (sz c) := by
      rw [List.take_take, Nat.min_eq_right hfl]
    simp [hfull]

/-- Witness of `saveState_result`: the demonstration engine with a ROM loaded
and slot 0. With a file that opens and a complete write that reaches the file,
the call returns true on its own and the slot file holds the blob; with a file
that cannot be opened, the built-in slot save is called and its result
returned. -/
theorem saveState_result_witness :
    ((saveState demoApi 0 true 1 1 (demoLoaded demoApi)).1 = true ∧
      ExternalCall.mCoreSaveState 0 ∉
        newCalls (demoLoaded demoApi) (saveState demoApi 0 true 1 1 (demoLoaded demoApi)).2) ∧
    ((saveState demoApi 0 true 1 1 (demoLoaded demoApi)).2.files
          ((demoLoaded demoApi).core.getStatePath 0) =
        some ((([demoFresh.frame] ++ List.replicate 1 0).take 1).take 1) ∧
      (([demoFresh.frame] ++ List.replicate 1 0).take 1).length = 1 ∧
      (1 ≤ 1 →
        (saveState demoApi 0 true 1 1 (demoLoaded demoApi)).2.files
            ((demoLoaded demoApi).core.getStatePath 0) =
          some (([demoFresh.frame] ++ List.replicate 1 0).take 1)) ∧
      (saveState demoApi 0 true 1 1 (demoLoaded demoApi)).2.core =
        { (demoLoaded demoApi).core with m_core := some demoFresh } ∧
      newCalls (demoLoaded demoApi) (saveState demoApi 0 true 1 1 (demoLoaded demoApi)).2 =
        [.stateSize, .saveState, .fopen ((demoLoaded demoApi).core.getStatePath 0) "wb",
          .fwrite ((demoLoaded demoApi).core.getStatePath 0) 1,
          .fclose ((demoLoaded demoApi).core.getStatePath 0)]) ∧
    ((saveState demoApi 0 false 0 0 (demoLoaded demoApi)).1 =
        (demoApi.mCoreSaveState demoFresh 0).1 ∧
      ExternalCall.mCoreSaveState 0 ∈
        newCalls (demoLoaded demoApi) (saveState demoApi 0 false 0 0 (demoLoaded demoApi)).2 ∧
      (saveState demoApi 0 false 0 0 (demoLoaded demoApi)).2.core =
        { (demoLoaded demoApi).core with
          m_core := some (demoApi.mCoreSaveState demoFresh 0).2 }) :=
  ⟨((saveState_result demoApi 0 true 1 1 (demoLoaded demoApi)).2 demoFresh (fun _ => 1)
      (fun c => ((true, [c.frame]), c)) (by rfl) (by decide) (by decide) (by rfl) (by rfl)
      (by decide)).1.2 ⟨rfl, rfl, by decide⟩,
    ((saveState_result demoApi 0 true 1 1 (demoLoaded demoApi)).2 demoFresh (fun _ => 1)
      (fun c => ((true, [c.frame]), c)) (by rfl) (by decide) (by decide) (by rfl) (by rfl)
      (by decide)).2.1 ⟨rfl, rfl, by decide⟩,
    ((saveState_result demoApi 0 false 0 0 (demoLoaded demoApi)).2 demoFresh (fun _ => 1)
      (fun c => ((true, [c.frame]), c)) (by rfl) (by decide) (by decide) (by rfl) (by rfl)
      (by decide)).2.2 (Or.inr (Or.inl rfl))⟩

/-- Counterexample to C10 as stated: on the demonstration engine with a ROM
loaded and slot 0, the serialize succeeds with a blob of one byte, the slot file
opens and `fwrite` reports one byte, but no byte has reached the file when
`fclose` returns. `saveState` returns true and does not invoke the built-in slot
save, yet the slot file is empty: the blob was not written to it. -/
theorem saveState_result_counterexample :
    (demoLoaded demoApi).core.m_romLoaded = true ∧
    (demoApi.stateSize.map (fun f => f demoFresh)) = some 1 ∧
    (demoApi.saveState.map (fun f => (f demoFresh).1)) = some (true, [0]) ∧
    (saveState demoApi 0 true 1 0 (demoLoaded demoApi)).1 = true ∧
    newCalls (demoLoaded demoApi) (saveState demoApi 0 true 1 0 (demoLoaded demoApi)).2 =
      [.stateSize, .saveState, .fopen "rom.gba.slot0.ss" "wb", .fwrite "rom.gba.slot0.ss" 1,
        .fclose "rom.gba.slot0.ss"] ∧
    (saveState demoApi 0 true 1 0 (demoLoaded demoApi)).2.files "rom.gba.slot0.ss" = some [] := by
  decide


/-- When the engine lacks the size query or the direct serialize entry point,
`saveState` returns false without any external call; when the size query
returns zero it returns false after that query alone. In neither case is the
built-in slot save called. -/
theorem saveState_gap (api : MCoreApi σ) (slot : Int) (fopenOk : Bool) (written flushed : Nat)
    (y : System σ) (c : σ) (hcore : y.core.m_core = some c) :
    (api.stateSize = none ∨ api.saveState = none →
      saveState api slot fopenOk written flushed y = (false, y)) ∧
    (∀ sz sv, api.stateSize = some sz → api.saveState = some sv → sz c = 0 →
      y.core.m_romLoaded = true → 0 ≤ slot →
      saveState api slot fopenOk written flushed y = (false, y.call .stateSize)) := by
  constructor
  · intro h
    unfold saveState
    rw [hcore]
    simp only []
    by_cases hg : y.core.m_romLoaded = false ∨ slot < 0
    · rw [if_pos hg]
    · rw [if_neg hg]
      rcases h with h | h
      · rw [h]
      · rw [h]
        cases api.stateSize <;> rfl
  · intro sz sv hsz hsv h0 hrom hslot
    unfold saveState
    rw [hcore]
    simp only [hsz, hsv]
    rw [if_neg (by simp [hrom]; omega), if_pos h0]

/-- C9, evaluated on the code: with a ROM loaded and `slot = 0`, for an engine
without the direct serialize entry point `saveState` returns false and makes no
external call, and for an engine whose size query returns zero it returns false
after the size query alone; the built-in slot save, which would have succeeded,
is not called in either case. -/
theorem saveState_gap_no_fallback :
    (demoLoaded demoApiNoSerialize).core.m_romLoaded = true ∧
    (saveState demoApiNoSerialize 0 true 1 1 (demoLoaded demoApiNoSerialize)).1 = false ∧
    newCalls (demoLoaded demoApiNoSerialize)
      (saveState demoApiNoSerialize 0 true 1 1 (demoLoaded demoApiNoSerialize)).2 = [] ∧
    (demoApiNoSerialize.mCoreSaveState demoFresh 0).1 = true ∧
    (demoLoaded demoApiZeroSize).core.m_romLoaded = true ∧
    (saveState demoApiZeroSize 0 true 1 1 (demoLoaded demoApiZeroSize)).1 = false ∧
    newCalls (demoLoaded demoApiZeroSize)
      (saveState demoApiZeroSize 0 true 1 1 (demoLoaded demoApiZeroSize)).2 = [.stateSize] ∧
    (demoApiZeroSize.mCoreSaveState demoFresh 0).1 = true := by
  decide

/-- The object after `runFrame` depends on the object before it alone. -/
theorem drainAudioLoop_congr (api : MCoreApi σ) (n : Nat) (c : σ) (y y1 : System σ)
    (h : y.core = y1.core) :
    (drainAudioLoop api n c y).1 = (drainAudioLoop api n c y1).1 ∧
    (drainAudioLoop api n c y).2.core = (drainAudioLoop api n c y1).2.core := by
  induction n generalizing c y y1 with
  | zero => exact ⟨rfl, h⟩
  | succ n ih =>
    simp only [drainAudioLoop]
    generalize (if api.mAudioBufferAvailable c < 1024 then api.mAudioBufferAvailable c
      else 1024) = framesToRead
    by_cases h1 : api.mAudioBufferAvailable c = 0
    · rw [if_pos h1, if_pos h1]; exact ⟨rfl, h⟩
    · rw [if_neg h1, if_neg h1]
      by_cases h2 : (List.take framesToRead (api.mAudioBufferRead c framesToRead).1).length = 0
      · rw [if_pos h2, if_pos h2]; exact ⟨rfl, h⟩
      · rw [if_neg h2, if_neg h2]
        apply ih
        show appendAudioSamples y.core
            (some (interleave (List.take framesToRead (api.mAudioBufferRead c framesToRead).1)))
            (((List.take framesToRead (api.mAudioBufferRead c framesToRead).1).length * 2 : Nat) : Int)
          = appendAudioSamples y1.core
            (some (interleave (List.take framesToRead (api.mAudioBufferRead c framesToRead).1)))
            (((List.take framesToRead (api.mAudioBufferRead c framesToRead).1).length * 2 : Nat) : Int)
        rw [h]

theorem runFrameAudio_congr (api : MCoreApi σ) (c : σ) (y y1 : System σ)
    (h : y.core = y1.core) :
    (runFrameAudio api c y).1 = (runFrameAudio api c y1).1 ∧
    (runFrameAudio api c y).2.core = (runFrameAudio api c y1).2.core := by
  unfold runFrameAudio
  cases api.getAudioBuffer with
  | none => exact ⟨rfl, h⟩
  | some getAudioBuffer =>
    simp only []
    split_ifs
    · exact drainAudioLoop_congr api 8 c _ _ h
    · exact ⟨rfl, h⟩

theorem runFrame_core_congr (api : MCoreApi σ) (y y1 : System σ) (h : y.core = y1.core) :
    (runFrame api y).core = (runFrame api y1).core := by
  unfold runFrame
  rw [← h]
  cases hc : y.core.m_core with
  | none => exact h
  | some c =>
    simp only []
    split_ifs
    · exact h
    · cases hs : api.runFrame with
      | none => exact h
      | some step =>
        simp only []
        have hh := runFrameAudio_congr api (step c y.core.m_coreVideoBuffer).1
          { y.call .runFrame with
            core := { y.core with
              m_coreVideoBuffer := (step c y.core.m_coreVideoBuffer).2
              m_videoBuffer := normalizeVideo api.color16 (step c y.core.m_coreVideoBuffer).2
                y.core.m_videoBuffer } }
          { y1.call .runFrame with
            core := { y.core with
              m_coreVideoBuffer := (step c y.core.m_coreVideoBuffer).2
              m_videoBuffer := normalizeVideo api.color16 (step c y.core.m_coreVideoBuffer).2
                y.core.m_videoBuffer } } rfl
        rw [show (runFrameAudio api (step c y.core.m_coreVideoBuffer).1
          { y.call .runFrame with
            core := { y.core with
              m_coreVideoBuffer := (step c y.core.m_coreVideoBuffer).2
              m_videoBuffer := normalizeVideo api.color16 (step c y.core.m_coreVideoBuffer).2
                y.core.m_videoBuffer } }).1 = _ from hh.1]
        rw [show (runFrameAudio api (step c y.core.m_coreVideoBuffer).1
          { y.call .runFrame with
            core := { y.core with
              m_coreVideoBuffer := (step c y.core.m_coreVideoBuffer).2
              m_videoBuffer := normalizeVideo api.color16 (step c y.core.m_coreVideoBuffer).2
                y.core.m_videoBuffer } }).2.core = _ from hh.2]


/-- C8 fails as stated: the engine is deterministic and its deserialize undoes
its serialize, `saveState(0)` returns true (through the built-in slot save,
because the slot file cannot be opened for writing) and the `loadState(0)`
called immediately afterwards returns true (through the slot file left by an
earlier save), yet the engine is at frame 0 instead of frame 1 and the next
`runFrame` produces different video bytes. -/
theorem saveState_loadState_roundtrip_counterexample :
    demoBeforeSave.core.m_romLoaded = true ∧ demoBeforeSave.core.m_coreReady = true ∧
    demoSecondSave.1 = true ∧ demoLoadAfterSave.1 = true ∧
    frameOf demoBeforeSave = 1 ∧ frameOf demoLoadAfterSave.2 = 0 ∧
    (runFrame demoApi demoBeforeSave).core.m_videoBuffer 1 = 16 ∧
    (runFrame demoApi demoLoadAfterSave.2).core.m_videoBuffer 1 = 8 := by
  decide

/-- The direct path of `loadState`: with an engine, a loaded ROM, `slot >= 0`,
both entry points present, a non-zero size, a slot file of at least `stateSize`
bytes and a deserialize that accepts its first `stateSize` bytes, the call
returns true, sets `m_coreReady` and does not call the built-in slot load. -/
theorem loadState_direct (api : MCoreApi σ) (slot : Int) (y : System σ)
    (c : σ) (sz : σ → Nat) (ld : σ → List Nat → Bool × σ) (bytes : List Nat)
    (hcore : y.core.m_core = some c) (hrom : y.core.m_romLoaded = true) (hslot : 0 ≤ slot)
    (hsz : api.stateSize = some sz) (hld : api.loadState = some ld) (hne : sz c ≠ 0)
    (hfile : y.files (y.core.getStatePath slot) = some bytes) (hlen : sz c ≤ bytes.length)
    (hok : (ld c (bytes.take (sz c))).1 = true) :
    loadState api slot y =
      (true,
        { core := { y.core with m_core := some (ld c (bytes.take (sz c))).2, m_coreReady := true }
          files := y.files
          trace := y.trace ++ [.stateSize, .fopen (y.core.getStatePath slot) "rb",
            .fread (y.core.getStatePath slot) (sz c), .fclose (y.core.getStatePath slot),
            .loadState] }) := by
  unfold loadState
  rw [hcore]
  simp only [hsz, hld]
  rw [if_neg (by simp [hrom]; omega), if_neg hne]
  have hfile2 : ((y.call .stateSize).call
      (.fopen ((y.call .stateSize).core.getStatePath slot) "rb")).files
      ((y.call .stateSize).core.getStatePath slot) = some bytes := hfile
  rw [hfile2]
  simp only []
  rw [if_neg (by rw [List.length_take]; simp; omega), if_neg (by simp [hok])]
  simp [System.call, getStatePath]

/-- C8 (as amended): for every state with a loaded ROM and every `slot >= 0`, if
`saveState(slot)` completes on its direct path (serialize succeeds and the
`stateSize` bytes are written in full to the slot file) and, in the
`loadState(slot)` called immediately afterwards, the engine's deserialize entry
point accepts those bytes and undoes the serialize, then both calls return
true, the object after `loadState` is the object before `saveState` with
`m_coreReady` set, and from a Ready state a subsequent `runFrame` yields the
same object (video bytes, ring buffer, engine state) as `runFrame` from the
state before `saveState`. -/
theorem saveState_loadState_roundtrip (api : MCoreApi σ) (slot : Int) (written flushed : Nat)
    (y : System σ) (c : σ) (sz : σ → Nat) (sv : σ → (Bool × List Nat) × σ)
    (ld : σ → List Nat → Bool × σ)
    (hcore : y.core.m_core = some c) (hrom : y.core.m_romLoaded = true) (hslot : 0 ≤ slot)
    (hsz : api.stateSize = some sz) (hsv : api.saveState = some sv)
    (hld : api.loadState = some ld) (hne : sz c ≠ 0)
    (hok : (sv c).1.1 = true) (hwr : sz c ≤ written) (hfl : sz c ≤ flushed)
    (hsize : sz (sv c).2 = sz c)
    (hundo : ld (sv c).2 (((sv c).1.2 ++ List.replicate (sz c) 0).take (sz c)) = (true, c)) :
    (saveState api slot true written flushed y).1 = true ∧
    (loadState api slot (saveState api slot true written flushed y).2).1 = true ∧
    (loadState api slot (saveState api slot true written flushed y).2).2.core =
      { y.core with m_coreReady := true } ∧
    (y.core.m_coreReady = true →
      (runFrame api (loadState api slot (saveState api slot true written flushed y).2).2).core =
        (runFrame api y).core) := by
  have hlen : (((sv c).1.2 ++ List.replicate (sz c) 0).take (sz c)).length = sz c := by
    rw [List.length_take, List.length_append, List.length_replicate]
    omega
  have hsave := saveState_direct api slot written flushed y c sz sv hcore hrom hslot hsz hsv hne
    hok hwr hfl
  have hload := loadState_direct api slot (saveState api slot true written flushed y).2 (sv c).2 sz ld
    (((sv c).1.2 ++ List.replicate (sz c) 0).take (sz c))
    (by rw [hsave]) (by rw [hsave]; exact hrom) hslot hsz hld (by rw [hsize]; exact hne)
    (by rw [hsave]; exact Function.update_same _ _ _) (by rw [hsize, hlen])
    (by rw [hsize, List.take_take, Nat.min_self, hundo])
  rw [hsize, List.take_take, Nat.min_self, hundo] at hload
  have hcoreEq : (loadState api slot (saveState api slot true written flushed y).2).2.core =
      { y.core with m_coreReady := true } := by
    rw [hload, hsave]
    have hm : y.core.m_core = some c := hcore
    cases y with
    | mk core files trace =>
      cases core
      simp only at hm
      subst hm
      rfl
  refine ⟨by rw [hsave], by rw [hload], hcoreEq, ?_⟩
  intro hready
  apply runFrame_core_congr
  rw [hcoreEq]
  cases y with
  | mk core files trace =>
    cases core
    simp only at hready
    subst hready
    rfl

/-- Witness of `saveState_loadState_roundtrip`: the demonstration engine with a
ROM loaded, slot 0 and a complete write. -/
theorem saveState_loadState_roundtrip_witness :
    (saveState demoApi 0 true 1 1 (demoLoaded demoApi)).1 = true ∧
    (loadState demoApi 0 (saveState demoApi 0 true 1 1 (demoLoaded demoApi)).2).1 = true ∧
    (loadState demoApi 0 (saveState demoApi 0 true 1 1 (demoLoaded demoApi)).2).2.core =
      { (demoLoaded demoApi).core with m_coreReady := true } ∧
    ((demoLoaded demoApi).core.m_coreReady = true →
      (runFrame demoApi
          (loadState demoApi 0 (saveState demoApi 0 true 1 1 (demoLoaded demoApi)).2).2).core =
        (runFrame demoApi (demoLoaded demoApi)).core) :=
  saveState_loadState_roundtrip demoApi 0 1 1 (demoLoaded demoApi) demoFresh (fun _ => 1)
    (fun c => ((true, [c.frame]), c))
    (fun c bytes =>
      match bytes with
      | [f] => (true, { c with frame := f })
      | _ => (false, c))
    (by rfl) (by decide) (by decide) (by rfl) (by rfl) (by rfl) (by decide) (by rfl) (by decide)
    (by decide)
    (by rfl) (by rfl)

/-! ## C11, C12, C13: `loadState` and `hasSaveState` -/

theorem loadStateFallback_fellBack (api : MCoreApi σ) (slot : Int) (c : σ) (y y1 : System σ)
    (l : List ExternalCall) (h : y1.trace = y.trace ++ l) :
    FellBack api slot c y (loadStateFallback api slot c y1) := by
  refine ⟨rfl, ?_⟩
  rw [newCalls_append y _ (l ++ [.mCoreLoadState slot])
    (by simp [loadStateFallback, System.call, h])]
  simp

theorem loadState_no_callbacks (api : MCoreApi σ) (slot : Int) (y : System σ) (c : σ)
    (hcore : y.core.m_core = some c) (hrom : y.core.m_romLoaded = true) (hslot : 0 ≤ slot)
    (h : api.stateSize = none ∨ api.loadState = none) :
    loadState api slot y = loadStateFallback api slot c y := by
  unfold loadState
  rw [hcore]
  simp only []
  rw [if_neg (by simp [hrom]; omega)]
  rcases h with h | h
  · rw [h]
  · rw [h]
    cases api.stateSize <;> rfl

theorem loadState_zero_size (api : MCoreApi σ) (slot : Int) (y : System σ) (c : σ)
    (sz : σ → Nat) (ld : σ → List Nat → Bool × σ)
    (hcore : y.core.m_core = some c) (hrom : y.core.m_romLoaded = true) (hslot : 0 ≤ slot)
    (hsz : api.stateSize = some sz) (hld : api.loadState = some ld) (h0 : sz c = 0) :
    loadState api slot y = loadStateFallback api slot c (y.call .stateSize) := by
  unfold loadState
  rw [hcore]
  simp only [hsz, hld]
  rw [if_neg (by simp [hrom]; omega), if_pos h0]

theorem loadState_no_file (api : MCoreApi σ) (slot : Int) (y : System σ) (c : σ)
    (sz : σ → Nat) (ld : σ → List Nat → Bool × σ)
    (hcore : y.core.m_core = some c) (hrom : y.core.m_romLoaded = true) (hslot : 0 ≤ slot)
    (hsz : api.stateSize = some sz) (hld : api.loadState = some ld) (hne : sz c ≠ 0)
    (hfile : y.files (y.core.getStatePath slot) = none) :
    loadState api slot y =
      loadStateFallback api slot c
        ((y.call .stateSize).call (.fopen (y.core.getStatePath slot) "rb")) := by
  unfold loadState
  rw [hcore]
  simp only [hsz, hld]
  rw [if_neg (by simp [hrom]; omega), if_neg hne]
  have hfile2 : ((y.call .stateSize).call
      (.fopen ((y.call .stateSize).core.getStatePath slot) "rb")).files
      ((y.call .stateSize).core.getStatePath slot) = none := hfile
  rw [hfile2]
  rfl

theorem loadState_short_file (api : MCoreApi σ) (slot : Int) (y : System σ) (c : σ)
    (sz : σ → Nat) (ld : σ → List Nat → Bool × σ) (bytes : List Nat)
    (hcore : y.core.m_core = some c) (hrom : y.core.m_romLoaded = true) (hslot : 0 ≤ slot)
    (hsz : api.stateSize = some sz) (hld : api.loadState = some ld) (hne : sz c ≠ 0)
    (hfile : y.files (y.core.getStatePath slot) = some bytes) (hlen : bytes.length < sz c) :
    loadState api slot y =
      loadStateFallback api slot c
        ((((y.call .stateSize).call (.fopen (y.core.getStatePath slot) "rb")).call
          (.fread (y.core.getStatePath slot) (sz c))).call (.fclose (y.core.getStatePath slot))) := by
  unfold loadState
  rw [hcore]
  simp only [hsz, hld]
  rw [if_neg (by simp [hrom]; omega), if_neg hne]
  have hfile2 : ((y.call .stateSize).call
      (.fopen ((y.call .stateSize).core.getStatePath slot) "rb")).files
      ((y.call .stateSize).core.getStatePath slot) = some bytes := hfile
  rw [hfile2]
  simp only []
  rw [if_pos (by rw [List.length_take]; simp; omega)]
  rfl

theorem loadState_rejected (api : MCoreApi σ) (slot : Int) (y : System σ) (c : σ)
    (sz : σ → Nat) (ld : σ → List Nat → Bool × σ) (bytes : List Nat)
    (hcore : y.core.m_core = some c) (hrom : y.core.m_romLoaded = true) (hslot : 0 ≤ slot)
    (hsz : api.stateSize = some sz) (hld : api.loadState = some ld) (hne : sz c ≠ 0)
    (hfile : y.files (y.core.getStatePath slot) = some bytes) (hlen : sz c ≤ bytes.length)
    (hrej : (ld c (bytes.take (sz c))).1 = false) :
    loadState api slot y =
      loadStateFallback api slot (ld c (bytes.take (sz c))).2
        { core := { y.core with m_core := some (ld c (bytes.take (sz c))).2 }
          files := y.files
          trace := y.trace ++ [.stateSize, .fopen (y.core.getStatePath slot) "rb",
            .fread (y.core.getStatePath slot) (sz c), .fclose (y.core.getStatePath slot),
            .loadState] } := by
  unfold loadState
  rw [hcore]
  simp only [hsz, hld]
  rw [if_neg (by simp [hrom]; omega), if_neg hne]
  have hfile2 : ((y.call .stateSize).call
      (.fopen ((y.call .stateSize).core.getStatePath slot) "rb")).files
      ((y.call .stateSize).core.getStatePath slot) = some bytes := hfile
  rw [hfile2]
  simp only []
  rw [if_neg (by rw [List.length_take]; simp; omega), if_pos hrej]
  simp [System.call, getStatePath]

theorem loadStateFallback_flags (api : MCoreApi σ) (slot : Int) (c : σ) (y : System σ) :
    ((loadStateFallback api slot c y).1 = true →
      (loadStateFallback api slot c y).2.core.m_coreReady = true) ∧
    ((loadStateFallback api slot c y).1 = false →
      lifecycleFlags (loadStateFallback api slot c y).2.core = lifecycleFlags y.core) := by
  unfold loadStateFallback lifecycleFlags
  simp only []
  cases (api.mCoreLoadState c slot).1 <;> simp [System.call]

theorem loadState_guard (api : MCoreApi σ) (slot : Int) (y : System σ)
    (h : y.core.m_core = none ∨ y.core.m_romLoaded = false ∨ slot < 0) :
    loadState api slot y = (false, y) := by
  unfold loadState
  cases hc : y.core.m_core with
  | none => rfl
  | some c =>
    simp only []
    rw [hc] at h
    rw [if_pos (by simpa using h)]

/-- With an engine, a loaded ROM and `slot >= 0`, `loadState` either is the
fallback on some engine state, entered from a system with the lifecycle flags of
the start, or succeeds on the direct path without calling the built-in slot load. -/
theorem loadState_cases (api : MCoreApi σ) (slot : Int) (y : System σ) (c : σ)
    (hcore : y.core.m_core = some c) (hrom : y.core.m_romLoaded = true) (hslot : 0 ≤ slot) :
    (∃ c1 y1 l, loadState api slot y = loadStateFallback api slot c1 y1 ∧
      lifecycleFlags y1.core = lifecycleFlags y.core ∧ y1.trace = y.trace ++ l) ∨
    ((loadState api slot y).1 = true ∧ (loadState api slot y).2.core.m_coreReady = true ∧
      ExternalCall.mCoreLoadState slot ∉ newCalls y (loadState api slot y).2) := by
  cases hsz : api.stateSize with
  | none =>
    exact Or.inl ⟨c, y, [], loadState_no_callbacks api slot y c hcore hrom hslot (Or.inl hsz),
      rfl, by simp⟩
  | some sz =>
    cases hld : api.loadState with
    | none =>
      exact Or.inl ⟨c, y, [], loadState_no_callbacks api slot y c hcore hrom hslot (Or.inr hld),
        rfl, by simp⟩
    | some ld =>
      by_cases h0 : sz c = 0
      · exact Or.inl ⟨c, _, [.stateSize],
          loadState_zero_size api slot y c sz ld hcore hrom hslot hsz hld h0, rfl, rfl⟩
      · cases hfile : y.files (y.core.getStatePath slot) with
        | none =>
          exact Or.inl ⟨c, _, [.stateSize, .fopen (y.core.getStatePath slot) "rb"],
            loadState_no_file api slot y c sz ld hcore hrom hslot hsz hld h0 hfile, rfl,
            by simp [System.call]⟩
        | some bytes =>
          by_cases hlen : bytes.length < sz c
          · exact Or.inl ⟨c, _, [.stateSize, .fopen (y.core.getStatePath slot) "rb",
                .fread (y.core.getStatePath slot) (sz c), .fclose (y.core.getStatePath slot)],
              loadState_short_file api slot y c sz ld bytes hcore hrom hslot hsz hld h0 hfile hlen,
              rfl, by simp [System.call]⟩
          · by_cases hrej : (ld c (bytes.take (sz c))).1 = false
            · exact Or.inl ⟨_, _, _,
                loadState_rejected api slot y c sz ld bytes hcore hrom hslot hsz hld h0 hfile
                  (by omega) hrej, rfl, rfl⟩
            · right
              rw [loadState_direct api slot y c sz ld bytes hcore hrom hslot hsz hld h0 hfile
                (by omega) (by simpa using hrej)]
              refine ⟨rfl, rfl, ?_⟩
              rw [newCalls_append _ _ _ rfl]
              simp

/-- Whatever the state, a `loadState` that returns true has set `m_coreReady`,
and one that returns false has left the lifecycle flags as they were. -/
theorem loadState_flags (api : MCoreApi σ) (slot : Int) (y : System σ) :
    ((loadState api slot y).1 = true → (loadState api slot y).2.core.m_coreReady = true) ∧
    ((loadState api slot y).1 = false →
      lifecycleFlags (loadState api slot y).2.core = lifecycleFlags y.core) := by
  by_cases hg : y.core.m_core = none ∨ y.core.m_romLoaded = false ∨ slot < 0
  · rw [loadState_guard api slot y hg]
    simp
  · have hc : ∃ c, y.core.m_core = some c := by
      cases h : y.core.m_core with
      | none => exact absurd (Or.inl h) hg
      | some c => exact ⟨c, rfl⟩
    obtain ⟨c, hcore⟩ := hc
    have hrom : y.core.m_romLoaded = true := by
      cases h : y.core.m_romLoaded with
      | false => exact absurd (Or.inr (Or.inl h)) hg
      | true => rfl
    have hslot : 0 ≤ slot := by
      by_contra h
      exact hg (Or.inr (Or.inr (by omega)))
    rcases loadState_cases api slot y c hcore hrom hslot with ⟨c1, y1, l, he, hfl, -⟩ | ⟨h1, h2, -⟩
    · rw [he, ← hfl]
      exact loadStateFallback_flags api slot c1 y1
    · exact ⟨fun _ => h2, fun h => by rw [h1] at h; cases h⟩

/-- The shape of `saveState` once the guards and the size query are passed. -/
theorem saveState_shape (api : MCoreApi σ) (slot : Int) (fopenOk : Bool) (written flushed : Nat)
    (y : System σ) (c : σ) (sz : σ → Nat) (sv : σ → (Bool × List Nat) × σ)
    (hcore : y.core.m_core = some c) (hrom : y.core.m_romLoaded = true) (hslot : 0 ≤ slot)
    (hsz : api.stateSize = some sz) (hsv : api.saveState = some sv) (hne : sz c ≠ 0) :
    saveState api slot fopenOk written flushed y =
      if (sv c).1.1 = false then
        saveStateFallback api slot (sv c).2
          { core := { y.core with m_core := some (sv c).2 }
            files := y.files
            trace := y.trace ++ [.stateSize, .saveState] }
      else if fopenOk = false then
        saveStateFallback api slot (sv c).2
          { core := { y.core with m_core := some (sv c).2 }
            files := y.files
            trace := y.trace ++ [.stateSize, .saveState, .fopen (y.core.getStatePath slot) "wb"] }
      else if min written (sz c) = sz c then
        (true,
          { core := { y.core with m_core := some (sv c).2 }
            files := Function.update y.files (y.core.getStatePath slot)
              (some ((((sv c).1.2 ++ List.replicate (sz c) 0).take (sz c)).take
                (min flushed (min written (sz c)))))
            trace := y.trace ++ [.stateSize, .saveState, .fopen (y.core.getStatePath slot) "wb",
              .fwrite (y.core.getStatePath slot) (sz c), .fclose (y.core.getStatePath slot)] })
      else
        saveStateFallback api slot (sv c).2
          { core := { y.core with m_core := some (sv c).2 }
            files := Function.update y.files (y.core.getStatePath slot)
              (some ((((sv c).1.2 ++ List.replicate (sz c) 0).take (sz c)).take
                (min flushed (min written (sz c)))))
            trace := y.trace ++ [.stateSize, .saveState, .fopen (y.core.getStatePath slot) "wb",
              .fwrite (y.core.getStatePath slot) (sz c), .fclose (y.core.getStatePath slot)] } := by
  unfold saveState
  rw [hcore]
  simp only [hsz, hsv]
  rw [if_neg (by simp [hrom]; omega), if_neg hne]
  by_cases h1 : (sv c).1.1 = false
  · rw [if_pos h1, if_pos h1]
    simp [System.call]
  · rw [if_neg h1, if_neg h1]
    by_cases h2 : fopenOk = false
    · rw [if_pos h2, if_pos h2]
      simp [System.call, getStatePath]
    · rw [if_neg h2, if_neg h2]
      by_cases h3 : min written (sz c) = sz c
      · rw [if_pos h3, if_pos h3]
        simp [System.call, getStatePath]
      · rw [if_neg h3, if_neg h3]
        simp [System.call, getStatePath]

/-- After a `saveState` that returned true there is an engine instance, the
slot is not negative, the ROM path is the same, and either the slot file exists
or the engine state is the one left by a successful built-in slot save. -/
theorem saveState_true_state (api : MCoreApi σ) (slot : Int) (fopenOk : Bool) (written flushed : Nat)
    (y : System σ) (h : (saveState api slot fopenOk written flushed y).1 = true) :
    0 ≤ slot ∧
    (saveState api slot fopenOk written flushed y).2.core.m_romPath = y.core.m_romPath ∧
    ((∃ c2, (saveState api slot fopenOk written flushed y).2.core.m_core = some c2 ∧
        ((saveState api slot fopenOk written flushed y).2.files (y.core.getStatePath slot)).isSome = true) ∨
      (∃ c1, (saveState api slot fopenOk written flushed y).2.core.m_core =
          some (api.mCoreSaveState c1 slot).2 ∧ (api.mCoreSaveState c1 slot).1 = true)) := by
  by_cases hg : y.core.m_core = none ∨ y.core.m_romLoaded = false ∨ slot < 0
  · rw [saveState_guard api slot fopenOk written flushed y hg] at h
    cases h
  · have hc : ∃ c, y.core.m_core = some c := by
      cases h : y.core.m_core with
      | none => exact absurd (Or.inl h) hg
      | some c => exact ⟨c, rfl⟩
    obtain ⟨c, hcore⟩ := hc
    have hrom : y.core.m_romLoaded = true := by
      cases h : y.core.m_romLoaded with
      | false => exact absurd (Or.inr (Or.inl h)) hg
      | true => rfl
    have hslot : 0 ≤ slot := by
      by_contra h
      exact hg (Or.inr (Or.inr (by omega)))
    have hgap := saveState_gap api slot fopenOk written flushed y c hcore
    cases hsz : api.stateSize with
    | none => rw [hgap.1 (Or.inl hsz)] at h; cases h
    | some sz =>
      cases hsv : api.saveState with
      | none => rw [hgap.1 (Or.inr hsv)] at h; cases h
      | some sv =>
        by_cases h0 : sz c = 0
        · rw [hgap.2 sz sv hsz hsv h0 hrom hslot] at h; cases h
        · rw [saveState_shape api slot fopenOk written flushed y c sz sv hcore hrom hslot hsz hsv h0]
            at h ⊢
          refine ⟨hslot, ?_⟩
          split_ifs at h ⊢
          · exact ⟨rfl, Or.inr ⟨(sv c).2, rfl, h⟩⟩
          · exact ⟨rfl, Or.inr ⟨(sv c).2, rfl, h⟩⟩
          · exact ⟨rfl, Or.inl ⟨(sv c).2, rfl, by simp⟩⟩
          · exact ⟨rfl, Or.inr ⟨(sv c).2, rfl, h⟩⟩

theorem hasSaveState_iff (api : MCoreApi σ) (slot : Int) (y : System σ) (c : σ)
    (hcore : y.core.m_core = some c) (hslot : 0 ≤ slot) :
    (hasSaveState api slot y).1 = true ↔
      ((y.files (y.core.getStatePath slot)).isSome = true ∨ api.mCoreGetState c slot = true) := by
  unfold hasSaveState
  rw [hcore]
  simp only []
  rw [if_neg (by omega)]
  have hf : (y.call (.fopen (y.core.getStatePath slot) "rb")).files (y.core.getStatePath slot)
      = y.files (y.core.getStatePath slot) := rfl
  rw [hf]
  cases hfile : y.files (y.core.getStatePath slot) with
  | some bytes => simp
  | none =>
    simp only []
    cases hq : api.mCoreGetState c slot <;> simp

theorem hasSaveState_guard (api : MCoreApi σ) (slot : Int) (y : System σ)
    (h : y.core.m_core = none ∨ slot < 0) : hasSaveState api slot y = (false, y) := by
  unfold hasSaveState
  cases hc : y.core.m_core with
  | none => rfl
  | some c =>
    simp only []
    rw [hc] at h
    rw [if_pos (by simpa using h)]

theorem loadStateFallback_newCalls (api : MCoreApi σ) (slot : Int) (c : σ) (y y1 : System σ)
    (l : List ExternalCall) (h : y1.trace = y.trace ++ l) :
    newCalls y (loadStateFallback api slot c y1).2 = l ++ [.mCoreLoadState slot] := by
  apply newCalls_append
  unfold loadStateFallback
  simp [System.call, h]

/-- C12 (as amended): `loadState` with a ROM loaded, `slot >= 0`, both entry
points present, a non-zero snapshot size and a slot file that opens. The
deserialize entry point is called iff the slot file holds at least `stateSize`
bytes. A shorter file is not handed to it and the built-in slot load decides the
result. A file of `stateSize` bytes or more has its first `stateSize` bytes
handed to it: if they are accepted the call returns true with the engine state
deserialize produced and without the built-in slot load, otherwise the built-in
slot load decides the result. -/
theorem loadState_size_check (api : MCoreApi σ) (slot : Int) (y : System σ)
    (c : σ) (sz : σ → Nat) (ld : σ → List Nat → Bool × σ) (bytes : List Nat)
    (hcore : y.core.m_core = some c) (hrom : y.core.m_romLoaded = true) (hslot : 0 ≤ slot)
    (hsz : api.stateSize = some sz) (hld : api.loadState = some ld) (hne : sz c ≠ 0)
    (hfile : y.files (y.core.getStatePath slot) = some bytes) :
    (ExternalCall.loadState ∈ newCalls y (loadState api slot y).2 ↔ sz c ≤ bytes.length) ∧
    (bytes.length < sz c → FellBack api slot c y (loadState api slot y)) ∧
    (sz c ≤ bytes.length → (ld c (bytes.take (sz c))).1 = true →
      (loadState api slot y).1 = true ∧
      (loadState api slot y).2.core.m_core = some (ld c (bytes.take (sz c))).2 ∧
      ExternalCall.mCoreLoadState slot ∉ newCalls y (loadState api slot y).2) ∧
    (sz c ≤ bytes.length → (ld c (bytes.take (sz c))).1 = false →
      FellBack api slot (ld c (bytes.take (sz c))).2 y (loadState api slot y)) := by
  have hshort : bytes.length < sz c →
      newCalls y (loadState api slot y).2 =
        [.stateSize, .fopen (y.core.getStatePath slot) "rb",
          .fread (y.core.getStatePath slot) (sz c), .fclose (y.core.getStatePath slot)] ++
          [.mCoreLoadState slot] := by
    intro hlen
    rw [loadState_short_file api slot y c sz ld bytes hcore hrom hslot hsz hld hne hfile hlen]
    exact loadStateFallback_newCalls api slot c y _ _ (by simp [System.call])
  have hdirect : sz c ≤ bytes.length → (ld c (bytes.take (sz c))).1 = true →
      newCalls y (loadState api slot y).2 =
        [.stateSize, .fopen (y.core.getStatePath slot) "rb",
          .fread (y.core.getStatePath slot) (sz c), .fclose (y.core.getStatePath slot),
          .loadState] := by
    intro hlen hok
    rw [loadState_direct api slot y c sz ld bytes hcore hrom hslot hsz hld hne hfile hlen hok]
    exact newCalls_append _ _ _ rfl
  have hrej : sz c ≤ bytes.length → (ld c (bytes.take (sz c))).1 = false →
      newCalls y (loadState api slot y).2 =
        [.stateSize, .fopen (y.core.getStatePath slot) "rb",
          .fread (y.core.getStatePath slot) (sz c), .fclose (y.core.getStatePath slot),
          .loadState] ++ [.mCoreLoadState slot] := by
    intro hlen hok
    rw [loadState_rejected api slot y c sz ld bytes hcore hrom hslot hsz hld hne hfile hlen hok]
    exact loadStateFallback_newCalls api slot _ y _ _ rfl
  refine ⟨?_, ?_, ?_, ?_⟩
  · constructor
    · intro hmem
      by_contra hlen
      rw [hshort (by omega)] at hmem
      simp at hmem
    · intro hlen
      cases hok : (ld c (bytes.take (sz c))).1 with
      | true =>
        rw [hdirect hlen hok]
        simp
      | false =>
        rw [hrej hlen hok]
        simp
  · intro hlen
    rw [loadState_short_file api slot y c sz ld bytes hcore hrom hslot hsz hld hne hfile hlen]
    exact loadStateFallback_fellBack api slot c y _
      [.stateSize, .fopen (y.core.getStatePath slot) "rb",
        .fread (y.core.getStatePath slot) (sz c),
        .fclose (y.core.getStatePath slot)] (by simp [System.call])
  · intro hlen hok
    refine ⟨?_, ?_, ?_⟩
    · rw [loadState_direct api slot y c sz ld bytes hcore hrom hslot hsz hld hne hfile hlen hok]
    · rw [loadState_direct api slot y c sz ld bytes hcore hrom hslot hsz hld hne hfile hlen hok]
    · rw [hdirect hlen hok]
      simp
  · intro hlen hok
    rw [loadState_rejected api slot y c sz ld bytes hcore hrom hslot hsz hld hne hfile hlen hok]
    exact loadStateFallback_fellBack api slot _ y _
      [.stateSize, .fopen (y.core.getStatePath slot) "rb",
        .fread (y.core.getStatePath slot) (sz c),
        .fclose (y.core.getStatePath slot), .loadState] rfl

/-- Witness of `loadState_size_check`: the demonstration engine with a ROM
loaded and a slot-0 file of two bytes. -/
theorem loadState_size_check_witness :
    (ExternalCall.loadState ∈
        newCalls demoLoadedLongSlot (loadState demoApi 0 demoLoadedLongSlot).2 ↔
      (fun _ => 1) demoFresh ≤ [7, 9].length) ∧
    ([7, 9].length < (fun _ => 1) demoFresh →
      FellBack demoApi 0 demoFresh demoLoadedLongSlot (loadState demoApi 0 demoLoadedLongSlot)) ∧
    ((fun _ => 1) demoFresh ≤ [7, 9].length →
      ((fun (c : DemoEngine) (bytes : List Nat) =>
          match bytes with
          | [f] => (true, { c with frame := f })
          | _ => (false, c)) demoFresh ([7, 9].take ((fun _ => 1) demoFresh))).1 = true →
      (loadState demoApi 0 demoLoadedLongSlot).1 = true ∧
      (loadState demoApi 0 demoLoadedLongSlot).2.core.m_core =
        some ((fun (c : DemoEngine) (bytes : List Nat) =>
          match bytes with
          | [f] => (true, { c with frame := f })
          | _ => (false, c)) demoFresh ([7, 9].take ((fun _ => 1) demoFresh))).2 ∧
      ExternalCall.mCoreLoadState 0 ∉
        newCalls demoLoadedLongSlot (loadState demoApi 0 demoLoadedLongSlot).2) ∧
    ((fun _ => 1) demoFresh ≤ [7, 9].length →
      ((fun (c : DemoEngine) (bytes : List Nat) =>
          match bytes with
          | [f] => (true, { c with frame := f })
          | _ => (false, c)) demoFresh ([7, 9].take ((fun _ => 1) demoFresh))).1 = false →
      FellBack demoApi 0
        ((fun (c : DemoEngine) (bytes : List Nat) =>
          match bytes with
          | [f] => (true, { c with frame := f })
          | _ => (false, c)) demoFresh ([7, 9].take ((fun _ => 1) demoFresh))).2
        demoLoadedLongSlot (loadState demoApi 0 demoLoadedLongSlot)) :=
  loadState_size_check demoApi 0 demoLoadedLongSlot demoFresh (fun _ => 1)
    (fun c bytes =>
      match bytes with
      | [f] => (true, { c with frame := f })
      | _ => (false, c))
    [7, 9] (by rfl) (by decide) (by decide) (by rfl) (by rfl) (by decide) (by decide)

/-- Counterexample to C12 as stated: the slot file holds two bytes while the
snapshot size of the engine is one byte, so the lengths differ, yet `loadState`
calls the deserialize entry point on the first byte, does not call the built-in
slot load, and returns true with the frame counter taken from the file. -/
theorem loadState_size_check_counterexample :
    demoLoadedLongSlot.files (demoLoadedLongSlot.core.getStatePath 0) = some [7, 9] ∧
    demoApi.stateSize.map (fun sz => sz demoFresh) = some 1 ∧
    demoLoadedLongSlot.core.m_romLoaded = true ∧
    ExternalCall.loadState ∈
      newCalls demoLoadedLongSlot (loadState demoApi 0 demoLoadedLongSlot).2 ∧
    ExternalCall.mCoreLoadState 0 ∉
      newCalls demoLoadedLongSlot (loadState demoApi 0 demoLoadedLongSlot).2 ∧
    (loadState demoApi 0 demoLoadedLongSlot).1 = true ∧
    frameOf (loadState demoApi 0 demoLoadedLongSlot).2 = 7 := by
  decide

/-- C13: `hasSaveState(slot)`. With an engine present and `slot >= 0` it is true
iff the slot file `getStatePath(slot)` opens for reading or the engine's slot
query reports a snapshot; with no engine or `slot < 0` it is false; it is false
for a slot that has neither a slot file nor a snapshot in the engine; and, for
an engine whose slot query reports every snapshot its built-in slot save has
stored, it is true immediately after a `saveState(slot)` that returned true. -/
theorem hasSaveState_file_or_engine (api : MCoreApi σ) (slot : Int) (y : System σ)
    (hcoh : ∀ c1, (api.mCoreSaveState c1 slot).1 = true →
      api.mCoreGetState (api.mCoreSaveState c1 slot).2 slot = true) :
    (∀ c, y.core.m_core = some c → 0 ≤ slot →
      ((hasSaveState api slot y).1 = true ↔
        ((y.files (y.core.getStatePath slot)).isSome = true ∨
          api.mCoreGetState c slot = true))) ∧
    (y.core.m_core = none ∨ slot < 0 → (hasSaveState api slot y).1 = false) ∧
    (y.files (y.core.getStatePath slot) = none →
      (∀ c, y.core.m_core = some c → api.mCoreGetState c slot = false) →
      (hasSaveState api slot y).1 = false) ∧
    (∀ fopenOk written flushed, (saveState api slot fopenOk written flushed y).1 = true →
      (hasSaveState api slot (saveState api slot fopenOk written flushed y).2).1 = true) := by
  refine ⟨fun c hcore hslot => hasSaveState_iff api slot y c hcore hslot, ?_, ?_, ?_⟩
  · intro h
    rw [hasSaveState_guard api slot y h]
  · intro hfile hq
    by_cases hg : y.core.m_core = none ∨ slot < 0
    · rw [hasSaveState_guard api slot y hg]
    · cases hcore : y.core.m_core with
      | none => exact absurd (Or.inl hcore) hg
      | some c =>
        have hslot : 0 ≤ slot := by
          by_contra h
          exact hg (Or.inr (by omega))
        cases hr : (hasSaveState api slot y).1 with
        | false => rfl
        | true =>
          rcases (hasSaveState_iff api slot y c hcore hslot).1 hr with h | h
          · rw [hfile] at h
            cases h
          · rw [hq c hcore] at h
            cases h
  · intro fopenOk written flushed htrue
    obtain ⟨hslot, hpath, hcase⟩ := saveState_true_state api slot fopenOk written flushed y htrue
    have hp : (saveState api slot fopenOk written flushed y).2.core.getStatePath slot =
        y.core.getStatePath slot := by
      unfold getStatePath
      rw [hpath]
    rcases hcase with ⟨c2, hc2, hfile⟩ | ⟨c1, hc1, hok⟩
    · refine (hasSaveState_iff api slot _ c2 hc2 hslot).2 (Or.inl ?_)
      rw [hp]
      exact hfile
    · exact (hasSaveState_iff api slot _ _ hc1 hslot).2 (Or.inr (hcoh c1 hok))

/-- Witness of `hasSaveState_file_or_engine`: the demonstration engine, whose
slot query looks up the snapshots its built-in slot save stored, with a ROM
loaded and slot 0. -/
theorem hasSaveState_file_or_engine_witness :
    (∀ c1, (demoApi.mCoreSaveState c1 0).1 = true →
      demoApi.mCoreGetState (demoApi.mCoreSaveState c1 0).2 0 = true) ∧
    (∀ c, (demoLoaded demoApi).core.m_core = some c → (0 : Int) ≤ 0 →
      ((hasSaveState demoApi 0 (demoLoaded demoApi)).1 = true ↔
        (((demoLoaded demoApi).files ((demoLoaded demoApi).core.getStatePath 0)).isSome = true ∨
          demoApi.mCoreGetState c 0 = true))) ∧
    ((demoLoaded demoApi).core.m_core = none ∨ (0 : Int) < 0 →
      (hasSaveState demoApi 0 (demoLoaded demoApi)).1 = false) ∧
    ((demoLoaded demoApi).files ((demoLoaded demoApi).core.getStatePath 0) = none →
      (∀ c, (demoLoaded demoApi).core.m_core = some c → demoApi.mCoreGetState c 0 = false) →
      (hasSaveState demoApi 0 (demoLoaded demoApi)).1 = false) ∧
    (∀ fopenOk written flushed, (saveState demoApi 0 fopenOk written flushed (demoLoaded demoApi)).1 = true →
      (hasSaveState demoApi 0
        (saveState demoApi 0 fopenOk written flushed (demoLoaded demoApi)).2).1 = true) :=
  ⟨by intro c1 _; simp [demoApi, List.lookup],
    hasSaveState_file_or_engine demoApi 0 (demoLoaded demoApi)
      (by intro c1 _; simp [demoApi, List.lookup])⟩

/-! ## C14: the configuration clamps -/

theorem appendAudioSamplesLoop_configOf (samples : List Int) (n i : Nat) (s : JboyCore σ) :
    configOf (appendAudioSamplesLoop samples n i s) = configOf s := by
  induction n generalizing i s with
  | zero => rfl
  | succ n ih =>
    simp only [appendAudioSamplesLoop]
    rw [ih]
    unfold appendAudioSamplesStep
    simp only []
    split_ifs <;> rfl

theorem appendAudioSamples_configOf (s : JboyCore σ) (samples : Option (List Int)) (n : Int) :
    configOf (appendAudioSamples s samples n) = configOf s := by
  unfold appendAudioSamples
  cases samples with
  | none => rfl
  | some buf =>
    simp only []
    split_ifs
    · rfl
    · exact appendAudioSamplesLoop_configOf buf _ _ s

theorem consumeCopyLoop_configOf (n : Nat) (s : JboyCore σ) :
    configOf (consumeCopyLoop n s).2 = configOf s := by
  induction n generalizing s with
  | zero => rfl
  | succ n ih =>
    simp only [consumeCopyLoop]
    rw [ih]
    rfl

theorem trimBacklog_configOf (s : JboyCore σ) (m : Int) :
    configOf (trimBacklog s m) = configOf s := by
  unfold trimBacklog
  simp only []
  split_ifs <;> rfl

theorem consumeAudioSamples_configOf (s : JboyCore σ) (b : Bool) (m : Int) :
    configOf (consumeAudioSamples s b m).core = configOf s := by
  unfold consumeAudioSamples
  simp only []
  split_ifs
  · rfl
  · exact trimBacklog_configOf s m
  · have h := consumeCopyLoop_configOf (serveCount (trimBacklog s m) m).toNat (trimBacklog s m)
    rw [← trimBacklog_configOf s m, ← h]
    rfl

theorem createCoreLocked_configOf (api : MCoreApi σ) (created : Option σ) (y : System σ) :
    configOf (createCoreLocked api created y).2.core = configOf y.core := by
  unfold createCoreLocked configOf
  cases y.core.m_core <;> cases created <;> simp [System.call, clearAudio]

theorem performCoreResetLocked_configOf (api : MCoreApi σ) (y : System σ) :
    configOf (performCoreResetLocked api y).2.core = configOf y.core := by
  unfold performCoreResetLocked configOf
  cases y.core.m_core <;> cases api.reset <;> cases y.core.m_romLoaded <;>
    simp [System.call, clearAudio]

theorem cleanup_configOf (api : MCoreApi σ) (y : System σ) :
    configOf (cleanup api y).core = configOf y.core := by
  unfold cleanup configOf
  cases y.core.m_core <;> cases api.unloadROM <;> cases y.core.m_romLoaded <;>
    simp [System.call, clearAudio]

theorem unloadRom_configOf (api : MCoreApi σ) (y : System σ) :
    configOf (unloadRom api y).core = configOf y.core := by
  unfold unloadRom configOf
  cases y.core.m_core <;> cases api.unloadROM <;> cases y.core.m_romLoaded <;>
    simp [System.call, clearAudio]

theorem loadRomAttach_configOf (api : MCoreApi σ) (romPath : String) (c : σ) (y : System σ) :
    configOf (loadRomAttach api romPath c y).core = configOf y.core := by
  unfold loadRomAttach
  simp only []
  split_ifs <;> rfl

theorem loadRomFinish_configOf (api : MCoreApi σ) (romPath : String) (c : σ)
    (y : System σ) (r : Bool × System σ) (h : loadRomFinish api romPath c y = some r) :
    configOf r.2.core = configOf y.core := by
  unfold loadRomFinish at h
  simp only [] at h
  have h1 : configOf (performCoreResetLocked api (loadRomAttach api romPath c y)).2.core =
      configOf y.core :=
    (performCoreResetLocked_configOf api _).trans (loadRomAttach_configOf api romPath c y)
  generalize performCoreResetLocked api (loadRomAttach api romPath c y) = rr at h h1
  split_ifs at h
  · split at h
    · cases h; exact h1
    · cases h
  · cases h; exact h1

theorem loadRomOpen_configOf (api : MCoreApi σ) (romPath : String)
    (y : System σ) (r : Bool × System σ) (h : loadRomOpen api romPath y = some r) :
    configOf r.2.core = configOf y.core := by
  unfold loadRomOpen at h
  simp only [] at h
  split at h
  · cases h; rfl
  · split at h
    · cases h
    · split_ifs at h
      · cases h; rfl
      · exact (loadRomFinish_configOf _ _ _ _ _ h).trans rfl

theorem loadRom_configOf (api : MCoreApi σ) (romPath : String) (created : Option σ)
    (y : System σ) (r : Bool × System σ) (h : loadRom api romPath created y = some r) :
    configOf r.2.core = configOf y.core := by
  have hc := createCoreLocked_configOf api created y
  unfold loadRom at h
  simp only [] at h
  generalize hr0 : (if y.core.m_core.isNone = true ∨ y.core.m_romLoaded = true
    then createCoreLocked api created y else (true, y)) = r0 at h
  have h0 : configOf r0.2.core = configOf y.core := by
    rw [← hr0]; split_ifs
    · exact hc
    · rfl
  split_ifs at h
  · cases h; exact h0
  · exact (loadRomOpen_configOf _ _ _ _ h).trans h0

theorem reset_configOf (api : MCoreApi σ) (created : Option σ)
    (y y1 : System σ) (h : JboyCore.reset api created y = some y1) :
    configOf y1.core = configOf y.core := by
  unfold JboyCore.reset at h
  split_ifs at h
  · cases h; rfl
  · cases hl : loadRom api y.core.m_romPath created y with
    | none => rw [hl] at h; cases h
    | some r =>
      rw [hl] at h
      cases h
      exact loadRom_configOf _ _ _ _ _ hl

theorem saveState_configOf (api : MCoreApi σ) (slot : Int) (fopenOk : Bool) (written flushed : Nat)
    (y : System σ) : configOf (saveState api slot fopenOk written flushed y).2.core = configOf y.core := by
  unfold saveState saveStateFallback
  simp only []
  repeat' split
  all_goals rfl

theorem loadState_configOf (api : MCoreApi σ) (slot : Int) (y : System σ) :
    configOf (loadState api slot y).2.core = configOf y.core := by
  unfold loadState loadStateFallback
  simp only []
  repeat' split
  all_goals rfl

theorem hasSaveState_configOf (api : MCoreApi σ) (slot : Int) (y : System σ) :
    configOf (hasSaveState api slot y).2.core = configOf y.core := by
  unfold hasSaveState
  simp only []
  repeat' split
  all_goals rfl

theorem setInput_configOf (api : MCoreApi σ) (buttons : Int) (y : System σ) :
    configOf (setInput api buttons y).core = configOf y.core := by
  unfold setInput
  simp only []
  split <;> rfl

theorem runFrame_configOf (api : MCoreApi σ) (y : System σ) :
    configOf (runFrame api y).core = configOf y.core := by
  unfold runFrame
  cases hc : y.core.m_core with
  | none => rfl
  | some c =>
    simp only []
    split_ifs
    · rfl
    · cases hs : api.runFrame with
      | none => rfl
      | some step =>
        simp only []
        have h1 := runFrameAudio_preserves api (fun s => configOf s = configOf y.core)
          (fun s buf k hs => (appendAudioSamples_configOf s (some buf) _).trans hs)
          (step c y.core.m_coreVideoBuffer).1
          { y.call .runFrame with
            core := { y.core with
              m_coreVideoBuffer := (step c y.core.m_coreVideoBuffer).2
              m_videoBuffer := normalizeVideo api.color16 (step c y.core.m_coreVideoBuffer).2
                y.core.m_videoBuffer } } rfl
        exact h1

theorem setAudioConfig_stores (api : MCoreApi σ) (rate frames : Int) (y : System σ) :
    ((setAudioConfig api rate frames y).core.m_targetSampleRate : Int) =
      min (max rate 8000) 96000 ∧
    ((setAudioConfig api rate frames y).core.m_targetAudioBufferSize : Int) =
      min (max frames 1024) 65536 ∧
    (setAudioConfig api rate frames y).core.m_frameSkipThrottlePercent =
      y.core.m_frameSkipThrottlePercent ∧
    (setAudioConfig api rate frames y).core.m_frameSkipInterval = y.core.m_frameSkipInterval := by
  have h1 : (((if rate < 8000 then 8000 else (if rate > 96000 then 96000 else rate) : Int)).toNat
      : Int) = min (max rate 8000) 96000 := by
    simp only [min_def, max_def]
    split_ifs <;> omega
  have h2 : (((if frames < 1024 then 1024 else (if frames > 65536 then 65536 else frames)
      : Int)).toNat : Int) = min (max frames 1024) 65536 := by
    simp only [min_def, max_def]
    split_ifs <;> omega
  unfold setAudioConfig
  simp only []
  split
  · exact ⟨h1, h2, rfl, rfl⟩
  · exact ⟨h1, h2, rfl, rfl⟩

theorem setGameOptions_stores (api : MCoreApi σ) (a : Bool) (t i : Int) (d : Bool) (e : Int)
    (f : Bool) (y : System σ) :
    (setGameOptions api a t i d e f y).core.m_frameSkipThrottlePercent = min (max t 0) 100 ∧
    (setGameOptions api a t i d e f y).core.m_frameSkipInterval = min (max i 0) 12 ∧
    (setGameOptions api a t i d e f y).core.m_targetSampleRate = y.core.m_targetSampleRate ∧
    (setGameOptions api a t i d e f y).core.m_targetAudioBufferSize =
      y.core.m_targetAudioBufferSize := by
  have h1 : (if t < 0 then 0 else (if t > 100 then 100 else t) : Int) = min (max t 0) 100 := by
    simp only [min_def, max_def]
    split_ifs <;> omega
  have h2 : (if i < 0 then 0 else (if i > 12 then 12 else i) : Int) = min (max i 0) 12 := by
    simp only [min_def, max_def]
    split_ifs <;> omega
  unfold setGameOptions
  simp only []
  split
  · exact ⟨h1, h2, rfl, rfl⟩
  · exact ⟨h1, h2, rfl, rfl⟩

theorem configInRange_of_configOf_eq {s t : JboyCore σ} (e : configOf t = configOf s)
    (h : ConfigInRange s) : ConfigInRange t := by
  unfold configOf at e
  simp only [Prod.mk.injEq] at e
  unfold ConfigInRange at *
  rw [e.1, e.2.1, e.2.2.1, e.2.2.2]
  exact h

theorem exec_configInRange (api : MCoreApi σ) (op : Op σ) (y y1 : System σ)
    (h : op.exec api y = some y1) (hy : ConfigInRange y.core) : ConfigInRange y1.core := by
  cases op with
  | init created =>
    cases h; exact configInRange_of_configOf_eq (createCoreLocked_configOf api created y) hy
  | cleanup => cases h; exact configInRange_of_configOf_eq (cleanup_configOf api y) hy
  | loadRom romPath created =>
    simp only [Op.exec] at h
    cases hl : loadRom api romPath created y with
    | none => rw [hl] at h; cases h
    | some r =>
      rw [hl] at h; cases h
      exact configInRange_of_configOf_eq (loadRom_configOf _ _ _ _ _ hl) hy
  | unloadRom => cases h; exact configInRange_of_configOf_eq (unloadRom_configOf api y) hy
  | runFrame => cases h; exact configInRange_of_configOf_eq (runFrame_configOf api y) hy
  | setInput buttons =>
    cases h; exact configInRange_of_configOf_eq (setInput_configOf api buttons y) hy
  | saveState slot fopenOk written flushed =>
    cases h
    exact configInRange_of_configOf_eq (saveState_configOf api slot fopenOk written flushed y) hy
  | loadState slot =>
    cases h; exact configInRange_of_configOf_eq (loadState_configOf api slot y) hy
  | hasSaveState slot =>
    cases h; exact configInRange_of_configOf_eq (hasSaveState_configOf api slot y) hy
  | pause => cases h; exact hy
  | resume => cases h; exact hy
  | reset created => exact configInRange_of_configOf_eq (reset_configOf api created y y1 h) hy
  | setAudioConfig sampleRate bufferSize =>
    cases h
    obtain ⟨h1, h2, h3, h4⟩ := setAudioConfig_stores api sampleRate bufferSize y
    unfold ConfigInRange at *
    rw [h3, h4]
    refine ⟨?_, ?_, hy.2.2.1, hy.2.2.2⟩
    · simp only [min_def, max_def] at h1
      split_ifs at h1 <;> omega
    · simp only [min_def, max_def] at h2
      split_ifs at h2 <;> omega
  | setGameOptions a b c d e f =>
    cases h
    obtain ⟨h1, h2, h3, h4⟩ := setGameOptions_stores api a b c d e f y
    unfold ConfigInRange at *
    rw [h3, h4]
    refine ⟨hy.1, hy.2.1, ?_, ?_⟩
    · simp only [min_def, max_def] at h1
      split_ifs at h1 <;> omega
    · simp only [min_def, max_def] at h2
      split_ifs at h2 <;> omega
  | consumeAudioSamples outNonNull maxSamples =>
    cases h
    exact configInRange_of_configOf_eq (consumeAudioSamples_configOf y.core _ _) hy
  | appendAudioFrame left right =>
    cases h
    exact configInRange_of_configOf_eq (appendAudioSamples_configOf y.core _ _) hy
  | appendAudioSamples samples sampleCount =>
    cases h
    exact configInRange_of_configOf_eq (appendAudioSamples_configOf y.core _ _) hy
  | createCoreLocked created =>
    cases h; exact configInRange_of_configOf_eq (createCoreLocked_configOf api created y) hy
  | performCoreResetLocked =>
    cases h; exact configInRange_of_configOf_eq (performCoreResetLocked_configOf api y) hy

theorem runOps_configInRange (api : MCoreApi σ) (ops : List (Op σ)) (y y1 : System σ)
    (h : runOps api ops y = some y1) (hy : ConfigInRange y.core) : ConfigInRange y1.core := by
  induction ops generalizing y with
  | nil => cases h; exact hy
  | cons op rest ih =>
    simp only [runOps] at h
    cases he : op.exec api y with
    | none => rw [he] at h; cases h
    | some y2 =>
      rw [he] at h
      exact ih y2 h (exec_configInRange api op y y2 he hy)

/-- C14: the configuration clamps. For all integer inputs and every state,
`setAudioConfig(rate, frames)` stores `min(max(rate, 8000), 96000)` as the target
sample rate and `min(max(frames, 1024), 65536)` as the target audio buffer
frames, so that `(4000, 100)` gives 8000 and 1024 and `(999999, 999999)` gives
96000 and 65536; `setGameOptions` stores `min(max(t, 0), 100)` as the frame-skip
throttle percent and `min(max(i, 0), 12)` as the frame-skip interval; a new
object holds the defaults 44100, 8192, 33 and 0; and in every state reached from
a new object by a sequence of calls the four fields are inside their ranges. -/
theorem config_clamped (api : MCoreApi σ) (ops : List (Op σ))
    (files : String → Option (List Nat)) (y : System σ)
    (h : runOps api ops (System.initial files) = some y) :
    (∀ (rate frames : Int) (z : System σ),
      ((setAudioConfig api rate frames z).core.m_targetSampleRate : Int) =
        min (max rate 8000) 96000 ∧
      ((setAudioConfig api rate frames z).core.m_targetAudioBufferSize : Int) =
        min (max frames 1024) 65536) ∧
    (∀ z : System σ,
      (setAudioConfig api 4000 100 z).core.m_targetSampleRate = 8000 ∧
      (setAudioConfig api 4000 100 z).core.m_targetAudioBufferSize = 1024 ∧
      (setAudioConfig api 999999 999999 z).core.m_targetSampleRate = 96000 ∧
      (setAudioConfig api 999999 999999 z).core.m_targetAudioBufferSize = 65536) ∧
    (∀ (a : Bool) (t i : Int) (d : Bool) (e : Int) (f : Bool) (z : System σ),
      (setGameOptions api a t i d e f z).core.m_frameSkipThrottlePercent = min (max t 0) 100 ∧
      (setGameOptions api a t i d e f z).core.m_frameSkipInterval = min (max i 0) 12) ∧
    configOf (JboyCore.construct : JboyCore σ) = (44100, 8192, 33, 0) ∧
    ConfigInRange y.core := by
  refine ⟨?_, ?_, ?_, rfl, ?_⟩
  · intro rate frames z
    exact ⟨(setAudioConfig_stores api rate frames z).1, (setAudioConfig_stores api rate frames z).2.1⟩
  · intro z
    have h1 := setAudioConfig_stores api 4000 100 z
    have h2 := setAudioConfig_stores api 999999 999999 z
    refine ⟨?_, ?_, ?_, ?_⟩
    · have := h1.1
      simp only [min_def, max_def] at this
      split_ifs at this <;> omega
    · have := h1.2.1
      simp only [min_def, max_def] at this
      split_ifs at this <;> omega
    · have := h2.1
      simp only [min_def, max_def] at this
      split_ifs at this <;> omega
    · have := h2.2.1
      simp only [min_def, max_def] at this
      split_ifs at this <;> omega
  · intro a t i d e f z
    exact ⟨(setGameOptions_stores api a t i d e f z).1, (setGameOptions_stores api a t i d e f z).2.1⟩
  · refine runOps_configInRange api ops _ y h ?_
    unfold ConfigInRange System.initial JboyCore.construct
    simp

/-- Witness of `config_clamped`: the demonstration session `demoOps`. -/
theorem config_clamped_witness :
    (∀ (rate frames : Int) (z : System DemoEngine),
      ((setAudioConfig demoApi rate frames z).core.m_targetSampleRate : Int) =
        min (max rate 8000) 96000 ∧
      ((setAudioConfig demoApi rate frames z).core.m_targetAudioBufferSize : Int) =
        min (max frames 1024) 65536) ∧
    (∀ z : System DemoEngine,
      (setAudioConfig demoApi 4000 100 z).core.m_targetSampleRate = 8000 ∧
      (setAudioConfig demoApi 4000 100 z).core.m_targetAudioBufferSize = 1024 ∧
      (setAudioConfig demoApi 999999 999999 z).core.m_targetSampleRate = 96000 ∧
      (setAudioConfig demoApi 999999 999999 z).core.m_targetAudioBufferSize = 65536) ∧
    (∀ (a : Bool) (t i : Int) (d : Bool) (e : Int) (f : Bool) (z : System DemoEngine),
      (setGameOptions demoApi a t i d e f z).core.m_frameSkipThrottlePercent =
        min (max t 0) 100 ∧
      (setGameOptions demoApi a t i d e f z).core.m_frameSkipInterval = min (max i 0) 12) ∧
    configOf (JboyCore.construct : JboyCore DemoEngine) = (44100, 8192, 33, 0) ∧
    ConfigInRange demoAfterOps.core :=
  config_clamped demoApi demoOps demoFiles demoAfterOps demoOps_run

/-! ## C15: the pixel conversion of `runFrame` -/

theorem and_255_eq_mod (x : Nat) : x &&& 0xFF = x % 256 :=
  Nat.and_pow_two_sub_one_eq_mod x 8

theorem red_field_aux :
    ∀ q < 32, ∀ m < 8, ((8 * q + m) &&& 0xF8) <<< 8 = 2 ^ 11 * q := by
  decide

theorem red_field (r : Nat) (h : r < 256) : (r &&& 0xF8) <<< 8 = 2 ^ 11 * (r / 8) := by
  have h1 := red_field_aux (r / 8) (by omega) (r % 8) (by omega)
  rw [show 8 * (r / 8) + r % 8 = r by omega] at h1
  exact h1

theorem green_field_aux :
    ∀ q < 64, ∀ m < 4, ((4 * q + m) &&& 0xFC) <<< 3 = 2 ^ 5 * q := by
  decide

theorem green_field (g : Nat) (h : g < 256) : (g &&& 0xFC) <<< 3 = 2 ^ 5 * (g / 4) := by
  have h1 := green_field_aux (g / 4) (by omega) (g % 4) (by omega)
  rw [show 4 * (g / 4) + g % 4 = g by omega] at h1
  exact h1

theorem pack_arith (r g b : Nat) (hg : g < 256) (hb : b < 256) :
    2 ^ 11 * (r / 8) ||| 2 ^ 5 * (g / 4) ||| b / 8 =
      2048 * (r / 8) + 32 * (g / 4) + b / 8 := by
  have h1 : b / 8 < 2 ^ 5 := by norm_num; omega
  have h2 : 2 ^ 5 * (g / 4) + b / 8 < 2 ^ 11 := by norm_num; omega
  rw [Nat.or_assoc, ← Nat.mul_add_lt_is_or h1, ← Nat.mul_add_lt_is_or h2]
  norm_num
  omega

theorem rgb565_arith (c : Nat) :
    rgb565 c = 2048 * (c % 256 / 8) + 32 * (c / 256 % 256 / 4) + c / 65536 % 256 / 8 := by
  unfold rgb565
  simp only [and_255_eq_mod, Nat.shiftRight_eq_div_pow, Nat.mod_mod]
  have hr : c % 4294967296 % 256 = c % 256 := by omega
  have hg : c % 4294967296 / 2 ^ 8 % 256 = c / 256 % 256 := by norm_num; omega
  have hb : c % 4294967296 / 2 ^ 16 % 256 = c / 65536 % 256 := by norm_num; omega
  rw [hr, hg, hb, red_field _ (Nat.mod_lt _ (by norm_num)),
    green_field _ (Nat.mod_lt _ (by norm_num)),
    show c / 65536 % 256 / 2 ^ 3 = c / 65536 % 256 / 8 from rfl,
    pack_arith _ _ _ (Nat.mod_lt _ (by norm_num)) (Nat.mod_lt _ (by norm_num))]
  have : c % 256 < 256 := Nat.mod_lt _ (by norm_num)
  have : c / 256 % 256 < 256 := Nat.mod_lt _ (by norm_num)
  have : c / 65536 % 256 < 256 := Nat.mod_lt _ (by norm_num)
  omega

theorem pack565_arith (c : Nat) :
    pack565 c = 2048 * (c % 256 / 8) + 32 * (c / 256 % 256 / 4) + c / 65536 % 256 / 8 := by
  unfold pack565 redOf greenOf blueOf
  simp only [and_255_eq_mod, Nat.shiftRight_eq_div_pow, Nat.shiftLeft_eq]
  have e1 : c % 256 / 2 ^ 3 * 2 ^ 11 = 2 ^ 11 * (c % 256 / 8) := by norm_num; omega
  have e2 : c / 2 ^ 8 % 256 / 2 ^ 2 * 2 ^ 5 = 2 ^ 5 * (c / 256 % 256 / 4) := by norm_num; omega
  have e3 : c / 2 ^ 16 % 256 / 2 ^ 3 = c / 65536 % 256 / 8 := by norm_num
  rw [e1, e2, e3, pack_arith _ _ _ (Nat.mod_lt _ (by norm_num)) (Nat.mod_lt _ (by norm_num))]

theorem appendAudioSamplesLoop_videoBuffer (samples : List Int) (n i : Nat) (s : JboyCore σ) :
    (appendAudioSamplesLoop samples n i s).m_videoBuffer = s.m_videoBuffer := by
  induction n generalizing i s with
  | zero => rfl
  | succ n ih =>
    simp only [appendAudioSamplesLoop]
    rw [ih]
    unfold appendAudioSamplesStep
    simp only []
    split_ifs <;> rfl

theorem appendAudioSamples_videoBuffer (s : JboyCore σ) (samples : Option (List Int)) (n : Int) :
    (appendAudioSamples s samples n).m_videoBuffer = s.m_videoBuffer := by
  unfold appendAudioSamples
  cases samples with
  | none => rfl
  | some buf =>
    simp only []
    split_ifs
    · rfl
    · exact appendAudioSamplesLoop_videoBuffer buf _ _ s

/-- The video buffer after a `runFrame` that steps the engine is the conversion
of the surface the engine drew. -/
theorem runFrame_videoBuffer (api : MCoreApi σ) (y : System σ) (c : σ)
    (step : σ → (Nat → Nat) → σ × (Nat → Nat))
    (hcore : y.core.m_core = some c) (hrom : y.core.m_romLoaded = true)
    (hready : y.core.m_coreReady = true) (hpaused : y.core.m_paused = false)
    (hstep : api.runFrame = some step) :
    (runFrame api y).core.m_videoBuffer =
      normalizeVideo api.color16 (step c y.core.m_coreVideoBuffer).2 y.core.m_videoBuffer := by
  unfold runFrame
  rw [hcore]
  simp only [hstep]
  rw [if_neg (by simp [hrom, hready, hpaused])]
  exact runFrameAudio_preserves api
    (fun s => s.m_videoBuffer =
      normalizeVideo api.color16 (step c y.core.m_coreVideoBuffer).2 y.core.m_videoBuffer)
    (fun s buf k hs => (appendAudioSamples_videoBuffer s (some buf) _).trans hs)
    (step c y.core.m_coreVideoBuffer).1 _ rfl

theorem rgb565_lt (p : Nat) : rgb565 p < 65536 := by
  unfold rgb565
  exact Nat.mod_lt _ (by norm_num)

theorem normalizeVideo_bytes (surface old : Nat → Nat) (i : Nat)
    (hi : i < GBA_SCREEN_WIDTH * GBA_SCREEN_HEIGHT) :
    normalizeVideo false surface old (2 * i) = rgb565 (surface i) % 256 ∧
    normalizeVideo false surface old (2 * i + 1) = rgb565 (surface i) / 256 := by
  have hlt := rgb565_lt (surface i)
  unfold normalizeVideo
  simp only [and_255_eq_mod, Nat.shiftRight_eq_div_pow, Nat.mod_mod]
  constructor
  · rw [if_pos (by omega), if_pos (by omega)]
    simp only [Bool.false_eq_true, if_false]
    rw [show 2 * i / 2 = i by omega]
  · rw [if_pos (by omega), if_neg (by omega)]
    simp only [Bool.false_eq_true, if_false]
    rw [show (2 * i + 1) / 2 = i by omega]
    norm_num
    omega

/-- C15: the pixel conversion of `runFrame` on an engine with 32-bit native
pixels. After a `runFrame` that steps the engine, for every pixel index `i` of
the 240x160 screen, output byte `2i` is the low byte and output byte `2i+1` the
high byte of the 16-bit value `(R >> 3) << 11 | (G >> 2) << 5 | (B >> 3)`,
where `R = c & 0xFF`, `G = (c >> 8) & 0xFF`, `B = (c >> 16) & 0xFF` and `c` is
pixel `i` of the surface the engine drew. That value is what the code computes
for every pixel; it does not depend on bits 24 and above of the pixel; and two
pixels give the same value iff they agree on the top 5 bits of R, the top 6
bits of G and the top 5 bits of B. -/
theorem runFrame_pixel_565 (api : MCoreApi σ) (y : System σ) (c : σ)
    (step : σ → (Nat → Nat) → σ × (Nat → Nat)) (i : Nat)
    (hcore : y.core.m_core = some c) (hrom : y.core.m_romLoaded = true)
    (hready : y.core.m_coreReady = true) (hpaused : y.core.m_paused = false)
    (hstep : api.runFrame = some step) (h32 : api.color16 = false)
    (hi : i < GBA_SCREEN_WIDTH * GBA_SCREEN_HEIGHT) :
    ((runFrame api y).core.m_videoBuffer (2 * i) =
        pack565 ((step c y.core.m_coreVideoBuffer).2 i) % 256 ∧
      (runFrame api y).core.m_videoBuffer (2 * i + 1) =
        pack565 ((step c y.core.m_coreVideoBuffer).2 i) / 256 ∧
      pack565 ((step c y.core.m_coreVideoBuffer).2 i) < 65536) ∧
    (∀ p, rgb565 p = pack565 p) ∧
    (∀ p q, p % 16777216 = q % 16777216 → rgb565 p = rgb565 q) ∧
    (∀ p q, rgb565 p = rgb565 q ↔
      (redOf p >>> 3 = redOf q >>> 3 ∧ greenOf p >>> 2 = greenOf q >>> 2 ∧
        blueOf p >>> 3 = blueOf q >>> 3)) := by
  have hpack : ∀ p, rgb565 p = pack565 p := fun p => by rw [rgb565_arith, pack565_arith]
  refine ⟨?_, hpack, ?_, ?_⟩
  · rw [runFrame_videoBuffer api y c step hcore hrom hready hpaused hstep, h32, ← hpack]
    exact ⟨(normalizeVideo_bytes _ _ i hi).1, (normalizeVideo_bytes _ _ i hi).2, rgb565_lt _⟩
  · intro p q h
    rw [rgb565_arith, rgb565_arith]
    have h1 : p % 256 = q % 256 := by omega
    have h2 : p / 256 % 256 = q / 256 % 256 := by omega
    have h3 : p / 65536 % 256 = q / 65536 % 256 := by omega
    rw [h1, h2, h3]
  · intro p q
    rw [rgb565_arith, rgb565_arith]
    unfold redOf greenOf blueOf
    simp only [and_255_eq_mod, Nat.shiftRight_eq_div_pow]
    norm_num
    have := Nat.mod_lt p (show 0 < 256 by norm_num)
    have := Nat.mod_lt (p / 256) (show 0 < 256 by norm_num)
    have := Nat.mod_lt (p / 65536) (show 0 < 256 by norm_num)
    have := Nat.mod_lt q (show 0 < 256 by norm_num)
    have := Nat.mod_lt (q / 256) (show 0 < 256 by norm_num)
    have := Nat.mod_lt (q / 65536) (show 0 < 256 by norm_num)
    constructor
    · intro h
      omega
    · rintro ⟨h1, h2, h3⟩
      omega

/-- Witness of `runFrame_pixel_565`: the first pixel of the first frame of the
demonstration engine. -/
theorem runFrame_pixel_565_witness :
    ((runFrame demoApi (demoLoaded demoApi)).core.m_videoBuffer (2 * 0) =
        pack565 (((fun (c : DemoEngine) (_ : Nat → Nat) =>
          (({ c with frame := c.frame + 1, pending := c.pending + 1 } : DemoEngine),
            fun (_ : Nat) => (c.frame + 1) * 8)) demoFresh
              (demoLoaded demoApi).core.m_coreVideoBuffer).2 0) % 256 ∧
      (runFrame demoApi (demoLoaded demoApi)).core.m_videoBuffer (2 * 0 + 1) =
        pack565 (((fun (c : DemoEngine) (_ : Nat → Nat) =>
          (({ c with frame := c.frame + 1, pending := c.pending + 1 } : DemoEngine),
            fun (_ : Nat) => (c.frame + 1) * 8)) demoFresh
              (demoLoaded demoApi).core.m_coreVideoBuffer).2 0) / 256 ∧
      pack565 (((fun (c : DemoEngine) (_ : Nat → Nat) =>
          (({ c with frame := c.frame + 1, pending := c.pending + 1 } : DemoEngine),
            fun (_ : Nat) => (c.frame + 1) * 8)) demoFresh
              (demoLoaded demoApi).core.m_coreVideoBuffer).2 0) < 65536) ∧
    (∀ p, rgb565 p = pack565 p) ∧
    (∀ p q, p % 16777216 = q % 16777216 → rgb565 p = rgb565 q) ∧
    (∀ p q, rgb565 p = rgb565 q ↔
      (redOf p >>> 3 = redOf q >>> 3 ∧ greenOf p >>> 2 = greenOf q >>> 2 ∧
        blueOf p >>> 3 = blueOf q >>> 3)) :=
  runFrame_pixel_565 demoApi (demoLoaded demoApi) demoFresh
    (fun c _ => ({ c with frame := c.frame + 1, pending := c.pending + 1 },
      fun _ => (c.frame + 1) * 8)) 0
    (by rfl) (by decide) (by decide) (by decide) (by rfl) (by rfl) (by decide)

/-! ## C16: the input mapping of `setInput` -/

theorem setInput_eq (api : MCoreApi σ) (buttons : Int) (y : System σ) :
    setInput api buttons y =
      match y.core.m_core with
      | none => { y with core := { y.core with m_buttons := buttons } }
      | some c =>
        { core := { y.core with
            m_buttons := buttons, m_core := some (api.setKeys c (setInputKeys buttons)) }
          files := y.files
          trace := y.trace ++ [.setKeys (setInputKeys buttons)] } := by
  unfold setInput
  cases h : y.core.m_core <;> simp [h, System.call, setInputKeys]

theorem testBit_ite_or (p : Prop) [Decidable p] (keys k j : Nat) :
    (if p then keys ||| (1 <<< k) else keys).testBit j =
      (keys.testBit j || (decide p && decide (k = j))) := by
  by_cases h : p
  · rw [if_pos h, Nat.testBit_or, Nat.one_shiftLeft, Nat.testBit_two_pow]
    simp [h]
  · rw [if_neg h]
    simp [h]

theorem nat_single_bit_ne_zero (x k : Nat) (v : Bool)
    (h : ∀ j, x.testBit j = (decide (k = j) && v)) : x ≠ 0 ↔ v = true := by
  constructor
  · intro hx
    by_contra hv
    apply hx
    apply Nat.eq_of_testBit_eq
    intro j
    rw [h j, Nat.zero_testBit]
    simp [hv]
  · intro hv hx
    have := h k
    rw [hx, Nat.zero_testBit, hv] at this
    simp at this

theorem land_two_pow_ne_zero (b : Int) (k : Nat) :
    Int.land b ((2 ^ k : Nat) : Int) ≠ 0 ↔ Int.testBit b k = true := by
  cases b with
  | ofNat n =>
    show ((n &&& 2 ^ k : Nat) : Int) ≠ 0 ↔ n.testBit k = true
    rw [Int.natCast_ne_zero]
    apply nat_single_bit_ne_zero _ k
    intro j
    rw [Nat.testBit_and, Nat.testBit_two_pow]
    by_cases hkj : k = j
    · subst hkj; simp
    · simp [hkj]
  | negSucc n =>
    show ((Nat.ldiff (2 ^ k) n : Nat) : Int) ≠ 0 ↔ (!n.testBit k) = true
    rw [Int.natCast_ne_zero]
    apply nat_single_bit_ne_zero _ k
    intro j
    rw [Nat.testBit_ldiff, Nat.testBit_two_pow]
    by_cases hkj : k = j
    · subst hkj; simp
    · simp [hkj]

theorem decide_land_mask (b : Int) (k : Nat) (m : Int) (hm : m = ((2 ^ k : Nat) : Int)) :
    decide (Int.land b m ≠ 0) = Int.testBit b k := by
  rw [hm]
  cases h : Int.testBit b k with
  | true => exact decide_eq_true ((land_two_pow_ne_zero b k).2 h)
  | false =>
    apply decide_eq_false
    intro hne
    rw [(land_two_pow_ne_zero b k).1 hne] at h
    cases h

theorem setInputKeys_testBit (b : Int) (j : Nat) :
    (setInputKeys b).testBit j = (decide (j < 10) && Int.testBit b j) := by
  unfold setInputKeys
  simp only [testBit_ite_or, Nat.zero_testBit,
    decide_land_mask b 0 0x001 (by norm_num), decide_land_mask b 1 0x002 (by norm_num),
    decide_land_mask b 2 0x004 (by norm_num), decide_land_mask b 3 0x008 (by norm_num),
    decide_land_mask b 4 0x010 (by norm_num), decide_land_mask b 5 0x020 (by norm_num),
    decide_land_mask b 6 0x040 (by norm_num), decide_land_mask b 7 0x080 (by norm_num),
    decide_land_mask b 8 0x100 (by norm_num), decide_land_mask b 9 0x200 (by norm_num)]
  by_cases hj : j < 10
  · interval_cases j <;> simp
  · have h0 : ¬ (0 = j) := by omega
    have h1 : ¬ (1 = j) := by omega
    have h2 : ¬ (2 = j) := by omega
    have h3 : ¬ (3 = j) := by omega
    have h4 : ¬ (4 = j) := by omega
    have h5 : ¬ (5 = j) := by omega
    have h6 : ¬ (6 = j) := by omega
    have h7 : ¬ (7 = j) := by omega
    have h8 : ¬ (8 = j) := by omega
    have h9 : ¬ (9 = j) := by omega
    simp [hj, h0, h1, h2, h3, h4, h5, h6, h7, h8, h9]

theorem setInputKeys_eq_land (b : Int) : ((setInputKeys b : Nat) : Int) = Int.land b 0x3FF := by
  cases b with
  | ofNat n =>
    show ((setInputKeys (Int.ofNat n) : Nat) : Int) = ((n &&& 1023 : Nat) : Int)
    congr 1
    apply Nat.eq_of_testBit_eq
    intro j
    rw [setInputKeys_testBit, Nat.testBit_and,
      show (1023 : Nat) = 2 ^ 10 - 1 from rfl, Nat.testBit_two_pow_sub_one]
    show (decide (j < 10) && n.testBit j) = (n.testBit j && decide (j < 10))
    rw [Bool.and_comm]
  | negSucc n =>
    show ((setInputKeys (Int.negSucc n) : Nat) : Int) = ((Nat.ldiff 1023 n : Nat) : Int)
    congr 1
    apply Nat.eq_of_testBit_eq
    intro j
    rw [setInputKeys_testBit, Nat.testBit_ldiff,
      show (1023 : Nat) = 2 ^ 10 - 1 from rfl, Nat.testBit_two_pow_sub_one]
    rfl

/-- C16: the input mapping. For every integer bitmask `b`, `setInput(b)` stores
`b` so that `getInput()` returns `b`, with or without an engine; when an engine
exists the key word passed to it is `b AND 0x3FF`: key bit `i` for `i` in `0..9`
is set iff bit `i` of `b` is set, whatever the other bits are, no higher key bit
is ever set, and two bitmasks that agree on bits `0..9` give the same key word.
Without an engine nothing is passed to it. -/
theorem setInput_mapping (api : MCoreApi σ) (b : Int) (y : System σ) :
    getInput (setInput api b y).core = b ∧
    (∀ c, y.core.m_core = some c →
      newCalls y (setInput api b y) = [.setKeys (setInputKeys b)] ∧
      (setInput api b y).core.m_core = some (api.setKeys c (setInputKeys b))) ∧
    (y.core.m_core = none → newCalls y (setInput api b y) = []) ∧
    ((setInputKeys b : Nat) : Int) = Int.land b 0x3FF ∧
    (∀ i, i < 10 → (setInputKeys b).testBit i = Int.testBit b i) ∧
    (∀ i, 10 ≤ i → (setInputKeys b).testBit i = false) ∧
    (∀ b1 : Int, (∀ i, i < 10 → Int.testBit b1 i = Int.testBit b i) →
      setInputKeys b1 = setInputKeys b) := by
  refine ⟨?_, ?_, ?_, setInputKeys_eq_land b, ?_, ?_, ?_⟩
  · rw [setInput_eq]
    cases y.core.m_core <;> rfl
  · intro c hc
    rw [setInput_eq, hc]
    exact ⟨newCalls_append _ _ _ rfl, rfl⟩
  · intro hc
    rw [setInput_eq, hc]
    exact newCalls_append _ _ [] (by simp)
  · intro i hi
    rw [setInputKeys_testBit]
    simp [hi]
  · intro i hi
    rw [setInputKeys_testBit]
    have : ¬ i < 10 := by omega
    simp [this]
  · intro b1 h
    apply Nat.eq_of_testBit_eq
    intro j
    rw [setInputKeys_testBit, setInputKeys_testBit]
    by_cases hj : j < 10
    · rw [h j hj]
    · simp [hj]

/-- Witness of `setInput_mapping`: the bitmask `0x7FF` (A through L and one
unmapped bit) on the demonstration engine with a ROM loaded, and the bitmask
`-1`, which gives the same key word as `0x3FF`. -/
theorem setInput_mapping_witness :
    getInput (setInput demoApi 0x7FF (demoLoaded demoApi)).core = 0x7FF ∧
    newCalls (demoLoaded demoApi) (setInput demoApi 0x7FF (demoLoaded demoApi)) =
      [.setKeys 0x3FF] ∧
    setInputKeys (-1) = setInputKeys 0x3FF ∧
    setInputKeys 0x3FF = 0x3FF ∧ setInputKeys 0x400 = 0 ∧ setInputKeys 0x011 = 0x011 :=
  ⟨(setInput_mapping demoApi 0x7FF (demoLoaded demoApi)).1, by decide,
    (setInput_mapping demoApi 0x3FF (demoLoaded demoApi)).2.2.2.2.2.2 (-1) (by decide),
    by decide, by decide, by decide⟩

/-! ## C20: the gate of `runFrame` -/

theorem trimStartLoop_eq (input : List Char) (fuel start : Nat)
    (hf : input.length - start ≤ fuel) (hs : start ≤ input.length) :
    trimStartLoop input fuel start =
      start + ((input.drop start).takeWhile isspace).length := by
  induction fuel generalizing start with
  | zero =>
    have : input.drop start = [] := List.drop_eq_nil_of_le (by omega)
    simp [trimStartLoop, this]
  | succ fuel ih =>
    simp only [trimStartLoop]
    by_cases hlt : start < input.length
    · rw [List.drop_eq_getElem_cons hlt, List.getD_eq_getElem input (Char.ofNat 0) hlt]
      by_cases hsp : isspace input[start] = true
      · rw [if_pos ⟨hlt, hsp⟩, ih (start + 1) (by omega) (by omega), List.takeWhile_cons,
          if_pos hsp, List.length_cons]
        omega
      · rw [if_neg (fun h => hsp h.2), List.takeWhile_cons, if_neg hsp]
        rfl
    · rw [if_neg (fun h => hlt h.1)]
      have : input.drop start = [] := List.drop_eq_nil_of_le (by omega)
      simp [this]

theorem trimEndLoop_eq (input : List Char) (start fuel stop : Nat)
    (hf : stop - start ≤ fuel) (hs : stop ≤ input.length) :
    substr input start (trimEndLoop input start fuel stop - start) =
      ((substr input start (stop - start)).reverse.dropWhile isspace).reverse := by
  induction fuel generalizing stop with
  | zero =>
    have h0 : stop - start = 0 := by omega
    simp [trimEndLoop, substr, h0]
  | succ fuel ih =>
    simp only [trimEndLoop]
    by_cases hgt : stop > start
    · have hlt : stop - 1 < input.length := by omega
      have hwin : substr input start (stop - start) =
          substr input start (stop - 1 - start) ++ [input[stop - 1]] := by
        unfold substr
        have e : stop - start = (stop - 1 - start) + 1 := by omega
        rw [e, List.take_succ]
        congr 1
        rw [List.getElem?_drop, show start + (stop - 1 - start) = stop - 1 by omega,
          List.getElem?_eq_getElem hlt]
        rfl
      rw [List.getD_eq_getElem input (Char.ofNat 0) hlt]
      by_cases hsp : isspace input[stop - 1] = true
      · rw [if_pos ⟨hgt, hsp⟩, ih (stop - 1) (by omega) (by omega), hwin,
          List.reverse_append, List.reverse_singleton, List.singleton_append,
          List.dropWhile_cons, if_pos hsp]
      · rw [if_neg (fun h => hsp h.2), hwin, List.reverse_append, List.reverse_singleton,
          List.singleton_append, List.dropWhile_cons, if_neg hsp, List.reverse_cons,
          List.reverse_reverse]
    · rw [if_neg (fun h => hgt h.1)]
      have h0 : stop - start = 0 := by omega
      simp [substr, h0]

theorem drop_length_takeWhile (p : Char → Bool) (l : List Char) :
    l.drop (l.takeWhile p).length = l.dropWhile p := by
  induction l with
  | nil => rfl
  | cons a l ih =>
    by_cases h : p a = true
    · simp [List.takeWhile_cons, List.dropWhile_cons, h, ih]
    · simp [List.takeWhile_cons, List.dropWhile_cons, h]

/-- `trimCheatLine` removes the whitespace at the two ends of its input. -/
theorem trimCheatLine_eq (input : List Char) : trimCheatLine input = trimWhitespace input := by
  unfold trimCheatLine trimWhitespace
  simp only []
  rw [trimStartLoop_eq input input.length 0 (by omega) (by omega)]
  simp only [List.drop_zero, Nat.zero_add]
  have hd := drop_length_takeWhile isspace input
  by_cases hall : (input.takeWhile isspace).length ≥ input.length
  · rw [if_pos hall]
    have : input.dropWhile isspace = [] := by
      rw [← hd]
      exact List.drop_eq_nil_of_le hall
    rw [this]
    rfl
  · rw [if_neg hall, trimEndLoop_eq input _ input.length input.length (by omega) (le_refl _)]
    have : substr input (input.takeWhile isspace).length
        (input.length - (input.takeWhile isspace).length) = input.dropWhile isspace := by
      unfold substr
      rw [hd, List.take_of_length_le]
      rw [← hd, List.length_drop]
    rw [this]

theorem split_at_indexOf (s : List Char) (c : Char) (h : c ∈ s) :
    s = s.take (s.indexOf c) ++ c :: s.drop (s.indexOf c + 1) ∧
      c ∉ s.take (s.indexOf c) := by
  induction s with
  | nil => cases h
  | cons a s ih =>
    by_cases hac : a = c
    · subst hac
      simp [List.indexOf_cons_self]
    · have hc : c ∈ s := by
        rcases List.mem_cons.1 h with h1 | h1
        · exact absurd h1.symm hac
        · exact h1
      have hne : c ≠ a := fun e => hac e.symm
      obtain ⟨h1, h2⟩ := ih hc
      rw [List.indexOf_cons_ne _ hac]
      constructor
      · simp only [List.take_succ_cons, List.drop_succ_cons, List.cons_append]
        rw [← h1]
      · simp only [List.take_succ_cons, List.mem_cons, not_or]
        exact ⟨hne, h2⟩

/-- The line loop of `addCheatCode`, started at `cursor` with enough iterations
allowed, offers the non-empty trimmed pieces between the newlines of the rest of
the text, in order, and ends by its own tests. -/
theorem addCheatLoop_eq (capi : MCheatApi σ) (t : List Char) (fuel cursor : Nat)
    (st : Bool × σ × System σ) (hk : cursor ≤ t.length) (hf : t.length - cursor < fuel) :
    addCheatLoop capi t fuel cursor st =
      offerLines capi
        ((((t.drop cursor).splitOnP (fun c => c = Char.ofNat 10)).map trimCheatLine).filter
          (fun line => line ≠ [])) st := by
  induction fuel generalizing cursor st with
  | zero => omega
  | succ fuel ih =>
    simp only [addCheatLoop]
    rw [if_pos hk]
    by_cases hmem : Char.ofNat 10 ∈ t.drop cursor
    · have hfind : find t (Char.ofNat 10) cursor =
          some (cursor + (t.drop cursor).indexOf (Char.ofNat 10)) := by
        unfold find
        rw [if_pos hmem]
      obtain ⟨hs, hnot⟩ := split_at_indexOf (t.drop cursor) (Char.ofNat 10) hmem
      have hi : (t.drop cursor).indexOf (Char.ofNat 10) < (t.drop cursor).length :=
        List.indexOf_lt_length.2 hmem
      rw [List.length_drop] at hi
      have hsplit : (t.drop cursor).splitOnP (fun c => c = Char.ofNat 10) =
          (t.drop cursor).take ((t.drop cursor).indexOf (Char.ofNat 10)) ::
            (t.drop (cursor + (t.drop cursor).indexOf (Char.ofNat 10) + 1)).splitOnP
              (fun c => c = Char.ofNat 10) := by
        have h1 := List.splitOnP_first (fun c => decide (c = Char.ofNat 10))
          ((t.drop cursor).take ((t.drop cursor).indexOf (Char.ofNat 10)))
          (fun x hx => by
            intro hp
            have : x = Char.ofNat 10 := by simpa using hp
            exact hnot (this ▸ hx))
          (Char.ofNat 10) (by simp)
          ((t.drop cursor).drop ((t.drop cursor).indexOf (Char.ofNat 10) + 1))
        rw [← hs, List.drop_drop] at h1
        rw [h1, Nat.add_assoc]
      rw [hfind, hsplit]
      simp only [substr, Nat.add_sub_cancel_left, List.map_cons]
      rw [ih _ _ (by omega) (by omega)]
      by_cases hl : trimCheatLine
          ((t.drop cursor).take ((t.drop cursor).indexOf (Char.ofNat 10))) = []
      · rw [if_neg (by simp [hl]), List.filter_cons_of_neg (by simp [hl])]
      · rw [if_pos hl, List.filter_cons_of_pos (by simp [hl])]
        rfl
    · have hfind : find t (Char.ofNat 10) cursor = none := by
        unfold find
        rw [if_neg hmem]
      have hsplit : (t.drop cursor).splitOnP (fun c => c = Char.ofNat 10) = [t.drop cursor] :=
        List.splitOnP_eq_single (fun c => decide (c = Char.ofNat 10)) (t.drop cursor)
          (fun x hx => by
            intro hp
            have : x = Char.ofNat 10 := by simpa using hp
            exact hmem (this ▸ hx))
      have htake : (t.drop cursor).take (t.length - cursor) = t.drop cursor :=
        List.take_of_length_le (by rw [List.length_drop])
      rw [hfind, hsplit]
      simp only [substr, htake, List.map_cons, List.map_nil]
      by_cases hl : trimCheatLine (t.drop cursor) = []
      · rw [if_neg (by simp [hl]), List.filter_cons_of_neg (by simp [hl])]
        rfl
      · rw [if_pos hl, List.filter_cons_of_pos (by simp [hl])]
        rfl

theorem splitOnP_replaceSeparators (text : List Char) :
    (replaceSeparators text).splitOnP (fun c => c = Char.ofNat 10) =
      text.splitOnP (fun c => c = ';' || c = '+' || c = Char.ofNat 10) := by
  induction text with
  | nil => rfl
  | cons x xs ih =>
    unfold replaceSeparators at ih ⊢
    rw [List.map_cons, List.splitOnP_cons, List.splitOnP_cons, ih]
    by_cases h1 : x = ';' ∨ x = '+'
    · rw [if_pos h1]
      have : (x = ';' || x = '+' || x = Char.ofNat 10) = true := by
        rcases h1 with h | h <;> simp [h]
      simp [this]
    · rw [if_neg h1]
      push_neg at h1
      by_cases h2 : x = Char.ofNat 10
      · simp [h2]
      · simp [h1.1, h1.2, h2]

/-- The lines that the loop of `addCheatCode` offers for the text `code` are the
lines that the text stands for. -/
theorem addCheatLoop_lines (capi : MCheatApi σ) (code : List Char)
    (st : Bool × σ × System σ) :
    addCheatLoop capi (replaceSeparators code) ((replaceSeparators code).length + 1) 0 st =
      offerLines capi (cheatLinesOfText code) st := by
  rw [addCheatLoop_eq capi _ _ 0 st (by omega) (by omega), List.drop_zero,
    splitOnP_replaceSeparators]
  unfold cheatLinesOfText
  congr 2
  apply List.map_congr_left
  intro l _
  exact trimCheatLine_eq l

theorem offerLines_sys (capi : MCheatApi σ) (lines : List (List Char))
    (st : Bool × σ × System σ) :
    (offerLines capi lines st).2.2 =
      { core := st.2.2.core, files := st.2.2.files,
        trace := st.2.2.trace ++ lineCalls capi lines st.2.1 } := by
  induction lines generalizing st with
  | nil => simp [offerLines, lineCalls]
  | cons line rest ih =>
    simp only [offerLines, lineCalls]
    rw [ih]
    simp [System.call]

theorem offerLines_added (capi : MCheatApi σ) (lines : List (List Char))
    (st : Bool × σ × System σ) :
    (offerLines capi lines st).1 = true ↔
      (st.1 = true ∨ ∃ line, ExternalCall.mCheatAddLine line true ∈ lineCalls capi lines st.2.1) := by
  induction lines generalizing st with
  | nil => simp [offerLines, lineCalls]
  | cons line rest ih =>
    simp only [offerLines, lineCalls]
    rw [ih]
    simp only []
    cases hans : (capi.mCheatAddLine st.2.1 line).1 with
    | true =>
      simp only [if_true, true_or, true_iff]
      exact Or.inr ⟨String.mk line, List.mem_cons_self _ _⟩
    | false =>
      simp only [Bool.false_eq_true, if_false, List.mem_cons, ExternalCall.mCheatAddLine.injEq,
        and_false, false_or, Bool.true_eq_false]

theorem offerLines_size (capi : MCheatApi σ)
    (hline : ∀ c l, capi.mCheatSetsSize (capi.mCheatAddLine c l).2 = capi.mCheatSetsSize c)
    (lines : List (List Char)) (st : Bool × σ × System σ) :
    capi.mCheatSetsSize (offerLines capi lines st).2.1 = capi.mCheatSetsSize st.2.1 := by
  induction lines generalizing st with
  | nil => rfl
  | cons line rest ih =>
    simp only [offerLines]
    rw [ih]
    exact hline _ _

theorem offeredLines_append (l1 l2 : List ExternalCall) :
    offeredLines (l1 ++ l2) = offeredLines l1 ++ offeredLines l2 := by
  induction l1 with
  | nil => rfl
  | cons e l1 ih =>
    cases e <;> simp [offeredLines, ih]

theorem offeredLines_lineCalls (capi : MCheatApi σ) (lines : List (List Char)) (c : σ) :
    offeredLines (lineCalls capi lines c) = lines.map String.mk := by
  induction lines generalizing c with
  | nil => rfl
  | cons line rest ih => simp [lineCalls, offeredLines, ih]

theorem lineCalls_only (capi : MCheatApi σ) (lines : List (List Char)) (c : σ)
    (e : ExternalCall) (he : e ∈ lineCalls capi lines c) :
    ∃ line a, e = .mCheatAddLine line a := by
  induction lines generalizing c with
  | nil => cases he
  | cons line rest ih =>
    simp only [lineCalls, List.mem_cons] at he
    rcases he with h | h
    · exact ⟨_, _, h⟩
    · exact ih _ h

/-- What `addCheatLines` does: the lines of the text are offered in order; the
result tells whether one was accepted; the set is enabled and refreshed, after
the lines, exactly in that case. -/
theorem addCheatLines_spec (capi : MCheatApi σ) (code : List Char) (c : σ) (y : System σ) :
    ((addCheatLines capi code c y).1 = true ↔
      ∃ line, ExternalCall.mCheatAddLine line true ∈ lineCalls capi (cheatLinesOfText code) c) ∧
    (addCheatLines capi code c y).2.trace =
      y.trace ++ (lineCalls capi (cheatLinesOfText code) c ++
        if (addCheatLines capi code c y).1 = true then [.enableSet, refreshCall capi] else []) ∧
    (addCheatLines capi code c y).2.files = y.files ∧
    (∃ c1, (addCheatLines capi code c y).2.core = { y.core with m_core := some c1 } ∧
      ((∀ c l, capi.mCheatSetsSize (capi.mCheatAddLine c l).2 = capi.mCheatSetsSize c) →
        (∀ c, capi.mCheatSetsSize (capi.enableSet c) = capi.mCheatSetsSize c) →
        (∀ f c, capi.refresh = some f → capi.mCheatSetsSize (f c) = capi.mCheatSetsSize c) →
        (∀ c, capi.mCheatSetsSize (capi.mCheatRefresh c) = capi.mCheatSetsSize c) →
        capi.mCheatSetsSize c1 = capi.mCheatSetsSize c)) := by
  have hadd := offerLines_added capi (cheatLinesOfText code) (false, c, y)
  have hsys := offerLines_sys capi (cheatLinesOfText code) (false, c, y)
  have hsize := fun h => offerLines_size capi h (cheatLinesOfText code) (false, c, y)
  simp only [Bool.false_eq_true, false_or] at hadd
  unfold addCheatLines
  simp only []
  rw [addCheatLoop_lines]
  generalize offerLines capi (cheatLinesOfText code) (false, c, y) = r at hadd hsys hsize
  cases hr : r.1 with
  | false =>
    rw [hr] at hadd
    simp only [if_true]
    refine ⟨?_, ?_, ?_, ?_⟩
    · simpa using hadd
    · rw [hsys]
      simp
    · rw [hsys]
    · refine ⟨r.2.1, ?_, ?_⟩
      · rw [hsys]
      · intro h1 _ _ _
        exact hsize h1
  | true =>
    rw [hr] at hadd
    simp only [Bool.true_eq_false, if_false]
    cases hrf : capi.refresh with
    | some f =>
      simp only []
      refine ⟨?_, ?_, ?_, ?_⟩
      · simpa using hadd
      · rw [hsys]
        simp [System.call, refreshCall, hrf]
      · rw [hsys]
        rfl
      · refine ⟨f (capi.enableSet r.2.1), ?_, ?_⟩
        · rw [hsys]
          rfl
        · intro h1 h2 h3 _
          rw [h3 f _ rfl, h2]
          exact hsize h1
    | none =>
      simp only []
      refine ⟨?_, ?_, ?_, ?_⟩
      · simpa using hadd
      · rw [hsys]
        simp [System.call, refreshCall, hrf]
      · rw [hsys]
        rfl
      · refine ⟨capi.mCheatRefresh (capi.enableSet r.2.1), ?_, ?_⟩
        · rw [hsys]
          rfl
        · intro h1 h2 _ h4
          rw [h4, h2]
          exact hsize h1

theorem addCheatCode_guard (capi : MCheatApi σ) (code : Option (List Char)) (y : System σ)
    (h : y.core.m_core = none ∨ y.core.m_romLoaded = false ∨ capi.cheatDevice = none ∨
      code = none) : addCheatCode capi code y = (false, y) := by
  unfold addCheatCode
  cases hc : y.core.m_core with
  | none => rfl
  | some c =>
    cases hd : capi.cheatDevice with
    | none => rfl
    | some dev =>
      cases hcode : code with
      | none => rfl
      | some text =>
        simp only []
        rcases h with h | h | h | h
        · rw [hc] at h; cases h
        · rw [if_pos h]
        · rw [hd] at h; cases h
        · rw [hcode] at h; cases h

theorem addCheatCode_null_device (capi : MCheatApi σ) (text : List Char) (y : System σ)
    (c : σ) (dev : σ → Bool) (hcore : y.core.m_core = some c)
    (hrom : y.core.m_romLoaded = true) (hdev : capi.cheatDevice = some dev)
    (hnull : dev c = false) :
    addCheatCode capi (some text) y = (false, y.call .cheatDevice) := by
  unfold addCheatCode
  rw [hcore, hdev]
  simp only []
  rw [if_neg (by simp [hrom]), if_pos hnull]

theorem addCheatCode_no_set (capi : MCheatApi σ) (text : List Char) (y : System σ)
    (c : σ) (dev : σ → Bool) (hcore : y.core.m_core = some c)
    (hrom : y.core.m_romLoaded = true) (hdev : capi.cheatDevice = some dev)
    (hdevice : dev c = true) (hsize : capi.mCheatSetsSize c = 0)
    (hcr : (capi.createSet c "JBOY").1 = false) :
    addCheatCode capi (some text) y =
      (false,
        { core := { y.core with m_core := some (capi.createSet c "JBOY").2 }
          files := y.files
          trace := y.trace ++ [.cheatDevice, .createSet "JBOY"] }) := by
  unfold addCheatCode
  rw [hcore, hdev]
  simp only []
  rw [if_neg (by simp [hrom]), if_neg (by simp [hdevice]), if_neg (by simp [hsize]), if_pos hcr]
  simp [System.call]

theorem addCheatCode_lines (capi : MCheatApi σ) (text : List Char) (y : System σ)
    (c : σ) (dev : σ → Bool) (hcore : y.core.m_core = some c)
    (hrom : y.core.m_romLoaded = true) (hdev : capi.cheatDevice = some dev)
    (hdevice : dev c = true)
    (havail : capi.mCheatSetsSize c ≠ 0 ∨ (capi.createSet c "JBOY").1 = true) :
    addCheatCode capi (some text) y =
      addCheatLines capi text (cheatSetState capi c)
        { core := if capi.mCheatSetsSize c ≠ 0 then y.core
            else { y.core with m_core := some (capi.createSet c "JBOY").2 }
          files := y.files
          trace := y.trace ++ cheatPrelude capi c } := by
  unfold addCheatCode cheatSetState cheatPrelude
  rw [hcore, hdev]
  simp only []
  rw [if_neg (by simp [hrom]), if_neg (by simp [hdevice])]
  by_cases hsize : capi.mCheatSetsSize c ≠ 0
  · rw [if_pos hsize, if_pos hsize, if_pos hsize, if_pos hsize]
    simp [System.call]
  · have hcr : (capi.createSet c "JBOY").1 = true := by
      rcases havail with h | h
      · exact absurd h hsize
      · exact h
    rw [if_neg hsize, if_neg hsize, if_neg hsize, if_neg hsize, if_neg (by simp [hcr])]
    simp [System.call]

/-- What `addCheatCode` does when the guards pass and a set is available. -/
theorem addCheatCode_run (capi : MCheatApi σ) (text : List Char) (y : System σ)
    (c : σ) (dev : σ → Bool) (hcore : y.core.m_core = some c)
    (hrom : y.core.m_romLoaded = true) (hdev : capi.cheatDevice = some dev)
    (hdevice : dev c = true)
    (havail : capi.mCheatSetsSize c ≠ 0 ∨ (capi.createSet c "JBOY").1 = true) :
    ((addCheatCode capi (some text) y).1 = true ↔
      ∃ line, ExternalCall.mCheatAddLine line true ∈
        lineCalls capi (cheatLinesOfText text) (cheatSetState capi c)) ∧
    newCalls y (addCheatCode capi (some text) y).2 =
      cheatPrelude capi c ++ (lineCalls capi (cheatLinesOfText text) (cheatSetState capi c) ++
        if (addCheatCode capi (some text) y).1 = true then [.enableSet, refreshCall capi]
        else []) := by
  rw [addCheatCode_lines capi text y c dev hcore hrom hdev hdevice havail]
  obtain ⟨h1, h2, _, _⟩ := addCheatLines_spec capi text (cheatSetState capi c)
    { core := if capi.mCheatSetsSize c ≠ 0 then y.core
        else { y.core with m_core := some (capi.createSet c "JBOY").2 }
      files := y.files
      trace := y.trace ++ cheatPrelude capi c }
  refine ⟨h1, ?_⟩
  apply newCalls_append
  rw [h2, List.append_assoc]

theorem dropWhile_head_not (p : Char → Bool) (l : List Char) (a : Char) (t : List Char)
    (h : l.dropWhile p = a :: t) : p a = false := by
  induction l with
  | nil => cases h
  | cons x xs ih =>
    rw [List.dropWhile_cons] at h
    by_cases hx : p x = true
    · rw [if_pos hx] at h
      exact ih h
    · rw [if_neg hx] at h
      cases h
      simpa using hx

theorem splitOnP_pieces (p : Char → Bool) (l : List Char) :
    ∀ piece ∈ l.splitOnP p, ∀ x ∈ piece, x ∈ l ∧ p x = false := by
  induction l with
  | nil =>
    intro piece hp x hx
    rw [List.splitOnP_nil] at hp
    simp only [List.mem_singleton] at hp
    subst hp
    cases hx
  | cons a l ih =>
    intro piece hp x hx
    rw [List.splitOnP_cons] at hp
    by_cases ha : p a = true
    · rw [if_pos ha] at hp
      rcases List.mem_cons.1 hp with h | h
      · subst h
        cases hx
      · exact ⟨List.mem_cons_of_mem _ (ih piece h x hx).1, (ih piece h x hx).2⟩
    · rw [if_neg ha] at hp
      cases hs : l.splitOnP p with
      | nil => exact absurd hs (List.splitOnP_ne_nil p l)
      | cons first others =>
        rw [hs] at hp ih
        simp only [List.modifyHead_cons, List.mem_cons] at hp
        rcases hp with h | h
        · subst h
          rcases List.mem_cons.1 hx with h1 | h1
          · subst h1
            exact ⟨List.mem_cons_self _ _, by simpa using ha⟩
          · have := ih first (List.mem_cons_self _ _) x h1
            exact ⟨List.mem_cons_of_mem _ this.1, this.2⟩
        · have := ih piece (List.mem_cons_of_mem _ h) x hx
          exact ⟨List.mem_cons_of_mem _ this.1, this.2⟩

theorem trimWhitespace_mem (l : List Char) (x : Char) (h : x ∈ trimWhitespace l) : x ∈ l := by
  unfold trimWhitespace at h
  rw [List.mem_reverse] at h
  have h1 := (List.dropWhile_suffix isspace).subset h
  rw [List.mem_reverse] at h1
  exact (List.dropWhile_suffix isspace).subset h1

theorem trimWhitespace_head (l : List Char) (a : Char) (h : (trimWhitespace l).head? = some a) :
    isspace a = false := by
  unfold trimWhitespace at h
  have hpre : ((l.dropWhile isspace).reverse.dropWhile isspace).reverse <+:
      l.dropWhile isspace := by
    rw [← List.reverse_suffix, List.reverse_reverse]
    exact List.dropWhile_suffix isspace
  obtain ⟨t, ht⟩ := hpre
  cases hr : ((l.dropWhile isspace).reverse.dropWhile isspace).reverse with
  | nil => rw [hr] at h; cases h
  | cons b r =>
    rw [hr] at h ht
    simp only [List.head?_cons, Option.some.injEq] at h
    subst h
    exact dropWhile_head_not isspace l b (r ++ t) ht.symm

theorem trimWhitespace_last (l : List Char) (a : Char)
    (h : (trimWhitespace l).getLast? = some a) : isspace a = false := by
  unfold trimWhitespace at h
  rw [List.getLast?_reverse] at h
  cases hr : (l.dropWhile isspace).reverse.dropWhile isspace with
  | nil => rw [hr] at h; cases h
  | cons b r =>
    rw [hr] at h
    simp only [List.head?_cons, Option.some.injEq] at h
    subst h
    exact dropWhile_head_not isspace _ b r hr

/-- Every line that a cheat text stands for is non-empty, neither starts nor ends
with whitespace, and holds no `;`, `+` or newline. -/
theorem cheatLinesOfText_clean (text : List Char) (line : List Char)
    (h : line ∈ cheatLinesOfText text) :
    line ≠ [] ∧ (∀ a, line.head? = some a → isspace a = false) ∧
    (∀ a, line.getLast? = some a → isspace a = false) ∧
    (∀ a ∈ line, a ≠ ';' ∧ a ≠ '+' ∧ a ≠ Char.ofNat 10) := by
  unfold cheatLinesOfText at h
  rw [List.mem_filter, List.mem_map] at h
  obtain ⟨⟨piece, hpiece, rfl⟩, hne⟩ := h
  refine ⟨by simpa using hne, trimWhitespace_head piece, trimWhitespace_last piece, ?_⟩
  intro a ha
  have := (splitOnP_pieces _ text piece hpiece a (trimWhitespace_mem piece a ha)).2
  simp only [Bool.or_eq_false_iff, decide_eq_false_iff_not] at this
  exact ⟨this.1.1, this.1.2, this.2⟩

/-- A text of whitespace and separators stands for no line. -/
theorem cheatLinesOfText_blank (text : List Char)
    (h : ∀ a ∈ text, isspace a = true ∨ a = ';' ∨ a = '+') : cheatLinesOfText text = [] := by
  unfold cheatLinesOfText
  rw [List.filter_eq_nil_iff]
  intro line hline
  rw [List.mem_map] at hline
  obtain ⟨piece, hpiece, rfl⟩ := hline
  have hall : ∀ x ∈ piece, isspace x = true := by
    intro x hx
    have h1 := splitOnP_pieces _ text piece hpiece x hx
    have h2 := h1.2
    simp only [Bool.or_eq_false_iff, decide_eq_false_iff_not] at h2
    rcases h x h1.1 with h3 | h3 | h3
    · exact h3
    · exact absurd h3 h2.1.1
    · exact absurd h3 h2.1.2
  have : piece.dropWhile isspace = [] := by
    rw [List.dropWhile_eq_nil_iff]
    exact hall
  simp [trimWhitespace, this]

/-- The four ways in which a call of `addCheatCode` can go. -/
theorem addCheatCode_cases (capi : MCheatApi σ) (code : Option (List Char)) (y : System σ) :
    (addCheatCode capi code y = (false, y) ∧
      (y.core.m_core = none ∨ y.core.m_romLoaded = false ∨ capi.cheatDevice = none ∨
        code = none)) ∨
    (∃ c dev text, y.core.m_core = some c ∧ y.core.m_romLoaded = true ∧
      capi.cheatDevice = some dev ∧ code = some text ∧
      ((dev c = false ∧ (addCheatCode capi code y).1 = false ∧
          newCalls y (addCheatCode capi code y).2 = [.cheatDevice]) ∨
        (dev c = true ∧ capi.mCheatSetsSize c = 0 ∧ (capi.createSet c "JBOY").1 = false ∧
          (addCheatCode capi code y).1 = false ∧
          newCalls y (addCheatCode capi code y).2 = [.cheatDevice, .createSet "JBOY"]) ∨
        (dev c = true ∧
          (capi.mCheatSetsSize c ≠ 0 ∨ (capi.createSet c "JBOY").1 = true) ∧
          ((addCheatCode capi code y).1 = true ↔
            ∃ line, ExternalCall.mCheatAddLine line true ∈
              lineCalls capi (cheatLinesOfText text) (cheatSetState capi c)) ∧
          newCalls y (addCheatCode capi code y).2 =
            cheatPrelude capi c ++
              (lineCalls capi (cheatLinesOfText text) (cheatSetState capi c) ++
                if (addCheatCode capi code y).1 = true then [.enableSet, refreshCall capi]
                else [])))) := by
  by_cases hg : y.core.m_core = none ∨ y.core.m_romLoaded = false ∨ capi.cheatDevice = none ∨
      code = none
  · exact Or.inl ⟨addCheatCode_guard capi code y hg, hg⟩
  · right
    simp only [not_or] at hg
    obtain ⟨h1, h2, h3, h4⟩ := hg
    obtain ⟨c, hcore⟩ := Option.ne_none_iff_exists'.1 h1
    obtain ⟨dev, hdev⟩ := Option.ne_none_iff_exists'.1 h3
    obtain ⟨text, hcode⟩ := Option.ne_none_iff_exists'.1 h4
    have hrom : y.core.m_romLoaded = true := by simpa using h2
    subst hcode
    refine ⟨c, dev, text, hcore, hrom, hdev, rfl, ?_⟩
    cases hdevice : dev c with
    | false =>
      left
      rw [addCheatCode_null_device capi text y c dev hcore hrom hdev hdevice]
      exact ⟨rfl, rfl, newCalls_append _ _ _ rfl⟩
    | true =>
      right
      by_cases havail : capi.mCheatSetsSize c ≠ 0 ∨ (capi.createSet c "JBOY").1 = true
      · right
        exact ⟨rfl, havail, addCheatCode_run capi text y c dev hcore hrom hdev hdevice havail⟩
      · left
        simp only [not_or, not_not] at havail
        have hcr : (capi.createSet c "JBOY").1 = false := by simpa using havail.2
        rw [addCheatCode_no_set capi text y c dev hcore hrom hdev hdevice havail.1 hcr]
        exact ⟨rfl, havail.1, hcr, rfl, newCalls_append _ _ _ rfl⟩

theorem offeredLines_cheatPrelude (capi : MCheatApi σ) (c : σ) :
    offeredLines (cheatPrelude capi c) = [] := by
  unfold cheatPrelude
  split_ifs <;> rfl

theorem offeredLines_tail (capi : MCheatApi σ) (b : Bool) :
    offeredLines (if b = true then [.enableSet, refreshCall capi] else []) = [] := by
  unfold refreshCall
  cases b <;> cases capi.refresh <;> rfl

theorem offeredLines_run (capi : MCheatApi σ) (lines : List (List Char)) (c c1 : σ) (b : Bool) :
    offeredLines (cheatPrelude capi c ++ (lineCalls capi lines c1 ++
      if b = true then [.enableSet, refreshCall capi] else [])) = lines.map String.mk := by
  rw [offeredLines_append, offeredLines_append, offeredLines_cheatPrelude, offeredLines_tail,
    offeredLines_lineCalls]
  simp

/-- When the engine has no instance, no ROM is loaded, the `cheatDevice` entry
point is missing, the device is null or the set cannot be created,
`addCheatCode` returns false and offers no line. -/
theorem addCheatCode_refused (capi : MCheatApi σ) (code : Option (List Char)) (y : System σ)
    (h : y.core.m_core = none ∨ y.core.m_romLoaded = false ∨ capi.cheatDevice = none ∨
      ∃ c dev, y.core.m_core = some c ∧ capi.cheatDevice = some dev ∧
        (dev c = false ∨ (capi.mCheatSetsSize c = 0 ∧ (capi.createSet c "JBOY").1 = false))) :
    (addCheatCode capi code y).1 = false ∧
    offeredLines (newCalls y (addCheatCode capi code y).2) = [] ∧
    ExternalCall.enableSet ∉ newCalls y (addCheatCode capi code y).2 := by
  rcases addCheatCode_cases capi code y with ⟨hg, _⟩ | ⟨c, dev, text, hcore, hrom, hdev, _, hc⟩
  · rw [hg, newCalls_append y y [] (by simp)]
    exact ⟨rfl, rfl, by simp⟩
  · rcases hc with ⟨_, hr, hn⟩ | ⟨_, _, _, hr, hn⟩ | ⟨hdevice, havail, _, _⟩
    · rw [hn]
      exact ⟨hr, rfl, by simp⟩
    · rw [hn]
      exact ⟨hr, rfl, by simp⟩
    · exfalso
      rcases h with h | h | h | ⟨c1, dev1, hc1, hd1, h⟩
      · rw [hcore] at h; cases h
      · rw [hrom] at h; cases h
      · rw [hdev] at h; cases h
      · rw [hcore] at hc1
        rw [hdev] at hd1
        cases hc1
        cases hd1
        rcases h with h | ⟨h1, h2⟩
        · rw [hdevice] at h; cases h
        · rcases havail with hav | hav
          · exact hav h1
          · rw [hav] at h2; cases h2

/-- C17 (as amended): the lines of a cheat text. With a ROM loaded and a cheat
device that holds a set or creates one, for every text, the sequence of lines
that `addCheatCode` offers to `mCheatAddLine`, in order, is the list obtained by
splitting the text at every `;`, `+` and newline, trimming whitespace from both
ends of each piece and discarding the pieces that are then empty. When the
engine has no `cheatDevice` entry point, returns a null device or cannot create
the set (and likewise without an engine instance or a loaded ROM), no line is
offered and the call returns false. In every situation, no offered line is
empty, starts or ends with whitespace, or holds a `;`, a `+` or a newline. The
text "0123ABCD;+4567EF01" stands for exactly the two lines "0123ABCD" and
"4567EF01". -/
theorem addCheatCode_offers (capi : MCheatApi σ) (text : List Char) (y : System σ) :
    (∀ c dev, y.core.m_core = some c → y.core.m_romLoaded = true →
      capi.cheatDevice = some dev → dev c = true →
      (capi.mCheatSetsSize c ≠ 0 ∨ (capi.createSet c "JBOY").1 = true) →
      offeredLines (newCalls y (addCheatCode capi (some text) y).2) =
        (cheatLinesOfText text).map String.mk) ∧
    (y.core.m_core = none ∨ y.core.m_romLoaded = false ∨ capi.cheatDevice = none ∨
        (∃ c dev, y.core.m_core = some c ∧ capi.cheatDevice = some dev ∧
          (dev c = false ∨
            (capi.mCheatSetsSize c = 0 ∧ (capi.createSet c "JBOY").1 = false))) →
      offeredLines (newCalls y (addCheatCode capi (some text) y).2) = [] ∧
      (addCheatCode capi (some text) y).1 = false) ∧
    (∀ line ∈ offeredLines (newCalls y (addCheatCode capi (some text) y).2),
      line.data ≠ [] ∧ (∀ a, line.data.head? = some a → isspace a = false) ∧
      (∀ a, line.data.getLast? = some a → isspace a = false) ∧
      (∀ a ∈ line.data, a ≠ ';' ∧ a ≠ '+' ∧ a ≠ Char.ofNat 10)) ∧
    (cheatLinesOfText "0123ABCD;+4567EF01".data).map String.mk = ["0123ABCD", "4567EF01"] := by
  refine ⟨?_, ?_, ?_, by decide⟩
  · intro c dev hcore hrom hdev hdevice havail
    rw [(addCheatCode_run capi text y c dev hcore hrom hdev hdevice havail).2, offeredLines_run]
  · intro h
    have hr := addCheatCode_refused capi (some text) y h
    exact ⟨hr.2.1, hr.1⟩
  · intro line hline
    rcases addCheatCode_cases capi (some text) y with ⟨h, _⟩ | ⟨c, dev, text1, _, _, _, hcode, h⟩
    · rw [h, newCalls_append y y [] (by simp)] at hline
      cases hline
    · cases hcode
      rcases h with ⟨_, _, h⟩ | ⟨_, _, _, _, h⟩ | ⟨_, _, _, h⟩
      · rw [h] at hline
        cases hline
      · rw [h] at hline
        cases hline
      · rw [h, offeredLines_run, List.mem_map] at hline
        obtain ⟨l, hl, rfl⟩ := hline
        exact cheatLinesOfText_clean text l hl

/-- Witness of `addCheatCode_offers`: the text "0123ABCD;+4567EF01" on the
demonstration cheat device with a ROM loaded, where both lines are offered, and
on the engines without the `cheatDevice` entry point, with a null device and
with a device that cannot create a set, where no line is offered. -/
theorem addCheatCode_offers_witness :
    (offeredLines (newCalls demoCheatLoaded
      (addCheatCode demoCheatApi (some "0123ABCD;+4567EF01".data) demoCheatLoaded).2) =
      (cheatLinesOfText "0123ABCD;+4567EF01".data).map String.mk ∧
    offeredLines (newCalls demoCheatLoaded
      (addCheatCode demoCheatApi (some "0123ABCD;+4567EF01".data) demoCheatLoaded).2) =
      ["0123ABCD", "4567EF01"]) ∧
    (offeredLines (newCalls demoCheatLoaded
      (addCheatCode demoCheatApiNoDevice (some "0123ABCD;+4567EF01".data)
        demoCheatLoaded).2) = [] ∧
      (addCheatCode demoCheatApiNoDevice (some "0123ABCD;+4567EF01".data)
        demoCheatLoaded).1 = false) ∧
    (offeredLines (newCalls demoCheatLoaded
      (addCheatCode demoCheatApiNullDevice (some "0123ABCD;+4567EF01".data)
        demoCheatLoaded).2) = [] ∧
      (addCheatCode demoCheatApiNullDevice (some "0123ABCD;+4567EF01".data)
        demoCheatLoaded).1 = false) ∧
    (offeredLines (newCalls demoCheatLoaded
      (addCheatCode demoCheatApiNoSet (some "0123ABCD;+4567EF01".data)
        demoCheatLoaded).2) = [] ∧
      (addCheatCode demoCheatApiNoSet (some "0123ABCD;+4567EF01".data)
        demoCheatLoaded).1 = false) :=
  ⟨⟨(addCheatCode_offers demoCheatApi "0123ABCD;+4567EF01".data demoCheatLoaded).1
      { sets := [], refreshes := 0 } (fun _ => true) (by rfl) (by rfl) (by rfl) (by rfl)
      (Or.inr (by rfl)),
    by decide⟩,
  (addCheatCode_offers demoCheatApiNoDevice "0123ABCD;+4567EF01".data demoCheatLoaded).2.1
    (Or.inr (Or.inr (Or.inl rfl))),
  (addCheatCode_offers demoCheatApiNullDevice "0123ABCD;+4567EF01".data demoCheatLoaded).2.1
    (Or.inr (Or.inr (Or.inr ⟨{ sets := [], refreshes := 0 }, fun _ => false, rfl, rfl,
      Or.inl rfl⟩))),
  (addCheatCode_offers demoCheatApiNoSet "0123ABCD;+4567EF01".data demoCheatLoaded).2.1
    (Or.inr (Or.inr (Or.inr ⟨{ sets := [], refreshes := 0 }, fun _ => true, rfl, rfl,
      Or.inr ⟨rfl, rfl⟩⟩)))⟩

/-- Counterexample to C17 as stated: a ROM is loaded and the text stands for two
lines, yet `addCheatCode` offers no line, because the engine does not provide
the `cheatDevice` entry point. -/
theorem addCheatCode_offers_counterexample :
    demoCheatLoaded.core.m_core.isSome = true ∧
    demoCheatLoaded.core.m_romLoaded = true ∧
    offeredLines (newCalls demoCheatLoaded
      (addCheatCode demoCheatApiNoDevice (some "0123ABCD;+4567EF01".data) demoCheatLoaded).2) =
      [] ∧
    (cheatLinesOfText "0123ABCD;+4567EF01".data).map String.mk = ["0123ABCD", "4567EF01"] := by
  decide

/-! ## C18: the result of `addCheatCode` -/

theorem not_mem_cheatPrelude (capi : MCheatApi σ) (c : σ) (e : ExternalCall)
    (h1 : e ≠ .cheatDevice) (h2 : e ≠ .createSet "JBOY") (h3 : e ≠ .mCheatAddSet)
    (h4 : e ≠ .mCheatSetsGetPointer 0) :
    e ∉ cheatPrelude capi c := by
  unfold cheatPrelude
  split_ifs <;> simp [h1, h2, h3, h4]

theorem refreshCall_cases (capi : MCheatApi σ) :
    refreshCall capi = .cheatRefresh ∨ refreshCall capi = .mCheatRefresh := by
  unfold refreshCall
  cases capi.refresh
  · exact Or.inr rfl
  · exact Or.inl rfl

theorem mem_run_accepted (capi : MCheatApi σ) (lines : List (List Char)) (c c1 : σ) (b : Bool)
    (line : String) :
    ExternalCall.mCheatAddLine line true ∈ cheatPrelude capi c ++ (lineCalls capi lines c1 ++
      if b = true then [.enableSet, refreshCall capi] else []) ↔
    ExternalCall.mCheatAddLine line true ∈ lineCalls capi lines c1 := by
  have hp := not_mem_cheatPrelude capi c (.mCheatAddLine line true) (by simp) (by simp)
    (by simp) (by simp)
  have ht : ExternalCall.mCheatAddLine line true ∉
      (if b = true then [ExternalCall.enableSet, refreshCall capi] else []) := by
    rcases refreshCall_cases capi with h | h <;> cases b <;> simp [h]
  simp [hp, ht]

theorem mem_run_tail (capi : MCheatApi σ) (lines : List (List Char)) (c c1 : σ) (b : Bool)
    (e : ExternalCall) (he : e = .enableSet ∨ e = refreshCall capi) :
    e ∈ cheatPrelude capi c ++ (lineCalls capi lines c1 ++
      if b = true then [.enableSet, refreshCall capi] else []) ↔ b = true := by
  have hne : e ≠ .cheatDevice ∧ e ≠ .createSet "JBOY" ∧ e ≠ .mCheatAddSet ∧
      e ≠ .mCheatSetsGetPointer 0 ∧ ∀ line a, e ≠ .mCheatAddLine line a := by
    rcases he with h | h
    · subst h
      simp
    · rcases refreshCall_cases capi with h1 | h1 <;> rw [h, h1] <;> simp
  have hp := not_mem_cheatPrelude capi c e hne.1 hne.2.1 hne.2.2.1 hne.2.2.2.1
  have hl : e ∉ lineCalls capi lines c1 := by
    intro hmem
    obtain ⟨line, a, h⟩ := lineCalls_only capi lines c1 e hmem
    exact hne.2.2.2.2 line a h
  cases b with
  | true =>
    simp only [if_true, List.mem_append, List.mem_cons, iff_true]
    right; right
    rcases he with h | h
    · exact Or.inl h
    · exact Or.inr (Or.inl h)
  | false => simp [hp, hl]

theorem offerLines_state (capi : MCheatApi σ) (lines : List (List Char))
    (st : Bool × σ × System σ) :
    (offerLines capi lines st).2.1 = lineState capi lines st.2.1 := by
  induction lines generalizing st with
  | nil => rfl
  | cons line rest ih =>
    simp only [offerLines, lineState]
    rw [ih]

/-- The engine state that `addCheatLines` leaves: the state after the lines,
with the set enabled and then refreshed when a line was accepted. -/
theorem addCheatLines_core (capi : MCheatApi σ) (code : List Char) (c : σ) (y : System σ) :
    (addCheatLines capi code c y).2.core =
      { y.core with
        m_core := some (if (addCheatLines capi code c y).1 = true then
            applyRefresh capi (capi.enableSet (lineState capi (cheatLinesOfText code) c))
          else lineState capi (cheatLinesOfText code) c) } := by
  have hsys := offerLines_sys capi (cheatLinesOfText code) (false, c, y)
  have hst := offerLines_state capi (cheatLinesOfText code) (false, c, y)
  unfold addCheatLines applyRefresh
  simp only []
  rw [addCheatLoop_lines]
  simp only [] at hst
  rw [← hst]
  generalize offerLines capi (cheatLinesOfText code) (false, c, y) = r at hsys
  cases hr : r.1 with
  | false =>
    simp only [if_true, Bool.false_eq_true, if_false]
    rw [hsys]
  | true =>
    simp only [Bool.true_eq_false, if_false, if_true]
    cases hrf : capi.refresh with
    | some f =>
      simp only []
      rw [hsys]
      rfl
    | none =>
      simp only []
      rw [hsys]
      rfl

/-- The engine state that `addCheatCode` leaves when the guards pass and a set
is available. -/
theorem addCheatCode_core (capi : MCheatApi σ) (text : List Char) (y : System σ)
    (c : σ) (dev : σ → Bool) (hcore : y.core.m_core = some c)
    (hrom : y.core.m_romLoaded = true) (hdev : capi.cheatDevice = some dev)
    (hdevice : dev c = true)
    (havail : capi.mCheatSetsSize c ≠ 0 ∨ (capi.createSet c "JBOY").1 = true) :
    (addCheatCode capi (some text) y).2.core =
      { y.core with
        m_core := some (if (addCheatCode capi (some text) y).1 = true then
            applyRefresh capi (capi.enableSet
              (lineState capi (cheatLinesOfText text) (cheatSetState capi c)))
          else lineState capi (cheatLinesOfText text) (cheatSetState capi c)) } := by
  rw [addCheatCode_lines capi text y c dev hcore hrom hdev hdevice havail, addCheatLines_core]
  by_cases hsize : capi.mCheatSetsSize c ≠ 0
  · simp only [if_pos hsize]
  · simp only [if_neg hsize]

/-- C18: the result of `addCheatCode`. It returns true iff an engine with a
loaded ROM and a cheat device is present and at least one of the lines offered
to `mCheatAddLine` was accepted. For every text that consists of whitespace and
separators only, such as "   ", it returns false and offers no line. When no
ROM is loaded it returns false and makes no external call. The set is enabled
and refreshed exactly when it returns true: the two calls are made exactly in
that case, and the engine state after the call is the state after the offered
lines with `cheatSet->enabled = true` and then the refresh applied to it when
the result is true, and the state after the offered lines alone when the result
is false; when a guard refuses the call, the engine state is the one before
the call (after `createSet` when the set cannot be created). -/
theorem addCheatCode_result (capi : MCheatApi σ) (code : Option (List Char)) (y : System σ) :
    ((addCheatCode capi code y).1 = true ↔
      ((∃ c dev, y.core.m_core = some c ∧ y.core.m_romLoaded = true ∧
          capi.cheatDevice = some dev ∧ dev c = true) ∧
        ∃ line, ExternalCall.mCheatAddLine line true ∈
          newCalls y (addCheatCode capi code y).2)) ∧
    (∀ text, code = some text → (∀ a ∈ text, isspace a = true ∨ a = ';' ∨ a = '+') →
      (addCheatCode capi code y).1 = false ∧
      offeredLines (newCalls y (addCheatCode capi code y).2) = []) ∧
    (∀ a ∈ "   ".data, isspace a = true ∨ a = ';' ∨ a = '+') ∧
    (y.core.m_romLoaded = false → addCheatCode capi code y = (false, y)) ∧
    (ExternalCall.enableSet ∈ newCalls y (addCheatCode capi code y).2 ↔
      (addCheatCode capi code y).1 = true) ∧
    (refreshCall capi ∈ newCalls y (addCheatCode capi code y).2 ↔
      (addCheatCode capi code y).1 = true) ∧
    (∀ c dev text, y.core.m_core = some c → y.core.m_romLoaded = true →
      capi.cheatDevice = some dev → dev c = true →
      (capi.mCheatSetsSize c ≠ 0 ∨ (capi.createSet c "JBOY").1 = true) → code = some text →
      (addCheatCode capi code y).2.core =
        { y.core with
          m_core := some (if (addCheatCode capi code y).1 = true then
              applyRefresh capi (capi.enableSet
                (lineState capi (cheatLinesOfText text) (cheatSetState capi c)))
            else lineState capi (cheatLinesOfText text) (cheatSetState capi c)) } ∧
      newCalls y (addCheatCode capi code y).2 =
        cheatPrelude capi c ++
          (lineCalls capi (cheatLinesOfText text) (cheatSetState capi c) ++
            if (addCheatCode capi code y).1 = true then [.enableSet, refreshCall capi]
            else [])) ∧
    (y.core.m_core = none ∨ y.core.m_romLoaded = false ∨ capi.cheatDevice = none ∨
        code = none → addCheatCode capi code y = (false, y)) ∧
    (∀ c dev text, y.core.m_core = some c → y.core.m_romLoaded = true →
      capi.cheatDevice = some dev → dev c = false → code = some text →
      (addCheatCode capi code y).1 = false ∧ (addCheatCode capi code y).2.core = y.core ∧
      newCalls y (addCheatCode capi code y).2 = [.cheatDevice]) ∧
    (∀ c dev text, y.core.m_core = some c → y.core.m_romLoaded = true →
      capi.cheatDevice = some dev → dev c = true → capi.mCheatSetsSize c = 0 →
      (capi.createSet c "JBOY").1 = false → code = some text →
      (addCheatCode capi code y).1 = false ∧
      (addCheatCode capi code y).2.core =
        { y.core with m_core := some (capi.createSet c "JBOY").2 } ∧
      newCalls y (addCheatCode capi code y).2 = [.cheatDevice, .createSet "JBOY"]) := by
  have hrc := refreshCall_cases capi
  refine ⟨?_, ?_, by decide, fun h => addCheatCode_guard capi code y (Or.inr (Or.inl h)), ?_, ?_,
    ?_, addCheatCode_guard capi code y, ?_, ?_⟩
  · rcases addCheatCode_cases capi code y with ⟨h, _⟩ | ⟨c, dev, text, hcore, hrom, hdev, _, h⟩
    · rw [h, newCalls_append y y [] (by simp)]
      simp
    · rcases h with ⟨_, hr, hn⟩ | ⟨_, _, _, hr, hn⟩ | ⟨hdevice, _, hr, hn⟩
      · rw [hr, hn]
        simp
      · rw [hr, hn]
        simp
      · rw [hn]
        simp only [mem_run_accepted]
        rw [hr]
        constructor
        · intro h
          exact ⟨⟨c, dev, hcore, hrom, hdev, hdevice⟩, h⟩
        · intro h
          exact h.2
  · intro text hcode hblank
    subst hcode
    rcases addCheatCode_cases capi (some text) y with ⟨h, _⟩ |
      ⟨c, dev, text1, _, _, _, hcode, h⟩
    · rw [h, newCalls_append y y [] (by simp)]
      exact ⟨rfl, rfl⟩
    · cases hcode
      rcases h with ⟨_, hr, hn⟩ | ⟨_, _, _, hr, hn⟩ | ⟨_, _, hr, hn⟩
      · rw [hr, hn]
        exact ⟨rfl, rfl⟩
      · rw [hr, hn]
        exact ⟨rfl, rfl⟩
      · rw [cheatLinesOfText_blank text hblank] at hr hn
        have hf : (addCheatCode capi (some text) y).1 = false := by
          cases hres : (addCheatCode capi (some text) y).1 with
          | false => rfl
          | true =>
            obtain ⟨line, hl⟩ := hr.1 hres
            cases hl
        refine ⟨hf, ?_⟩
        rw [hn, offeredLines_run]
        rfl
  · rcases addCheatCode_cases capi code y with ⟨h, _⟩ | ⟨c, dev, text, _, _, _, _, h⟩
    · rw [h, newCalls_append y y [] (by simp)]
      simp
    · rcases h with ⟨_, hr, hn⟩ | ⟨_, _, _, hr, hn⟩ | ⟨_, _, _, hn⟩
      · rw [hr, hn]
        simp
      · rw [hr, hn]
        simp
      · rw [hn]
        exact mem_run_tail capi _ c _ _ _ (Or.inl rfl)
  · rcases addCheatCode_cases capi code y with ⟨h, _⟩ | ⟨c, dev, text, _, _, _, _, h⟩
    · rw [h, newCalls_append y y [] (by simp)]
      simp
    · rcases h with ⟨_, hr, hn⟩ | ⟨_, _, _, hr, hn⟩ | ⟨_, _, _, hn⟩
      · rw [hr, hn]
        rcases hrc with h1 | h1 <;> rw [h1] <;> simp
      · rw [hr, hn]
        rcases hrc with h1 | h1 <;> rw [h1] <;> simp
      · rw [hn]
        exact mem_run_tail capi _ c _ _ _ (Or.inr rfl)
  · intro c dev text hcore hrom hdev hdevice havail hcode
    subst hcode
    exact ⟨addCheatCode_core capi text y c dev hcore hrom hdev hdevice havail,
      (addCheatCode_run capi text y c dev hcore hrom hdev hdevice havail).2⟩
  · intro c dev text hcore hrom hdev hnull hcode
    subst hcode
    rw [addCheatCode_null_device capi text y c dev hcore hrom hdev hnull]
    exact ⟨rfl, rfl, newCalls_append _ _ _ rfl⟩
  · intro c dev text hcore hrom hdev hdevice hsize hcr hcode
    subst hcode
    rw [addCheatCode_no_set capi text y c dev hcore hrom hdev hdevice hsize hcr]
    exact ⟨rfl, rfl, newCalls_append _ _ _ rfl⟩

/-- Witness of `addCheatCode_result`: on the demonstration cheat device with a
ROM loaded the text "0123ABCD;+4567EF01" is accepted, after which the set
"JBOY" holds the two lines, is enabled and has been refreshed once; the text
"   " is not accepted, after which the set is empty, not enabled and not
refreshed; with no ROM loaded nothing is called. -/
theorem addCheatCode_result_witness :
    (addCheatCode demoCheatApi (some "0123ABCD;+4567EF01".data) demoCheatLoaded).1 = true ∧
    newCalls demoCheatLoaded
      (addCheatCode demoCheatApi (some "0123ABCD;+4567EF01".data) demoCheatLoaded).2 =
      [.cheatDevice, .createSet "JBOY", .mCheatAddSet, .mCheatAddLine "0123ABCD" true,
        .mCheatAddLine "4567EF01" true, .enableSet, .mCheatRefresh] ∧
    ((addCheatCode demoCheatApi (some "   ".data) demoCheatLoaded).1 = false ∧
      offeredLines (newCalls demoCheatLoaded
        (addCheatCode demoCheatApi (some "   ".data) demoCheatLoaded).2) = []) ∧
    addCheatCode demoCheatApi (some "0123ABCD".data) demoCheatNoRom = (false, demoCheatNoRom) ∧
    (addCheatCode demoCheatApi (some "0123ABCD;+4567EF01".data) demoCheatLoaded).2.core =
      { demoCheatLoaded.core with
        m_core := some
          (if (addCheatCode demoCheatApi (some "0123ABCD;+4567EF01".data)
              demoCheatLoaded).1 = true then
            applyRefresh demoCheatApi (demoCheatApi.enableSet
              (lineState demoCheatApi (cheatLinesOfText "0123ABCD;+4567EF01".data)
                (cheatSetState demoCheatApi { sets := [], refreshes := 0 })))
          else lineState demoCheatApi (cheatLinesOfText "0123ABCD;+4567EF01".data)
            (cheatSetState demoCheatApi { sets := [], refreshes := 0 })) } ∧
    (addCheatCode demoCheatApi (some "0123ABCD;+4567EF01".data)
        demoCheatLoaded).2.core.m_core.map (fun c => (c.sets, c.refreshes)) =
      some ([(["0123ABCD".data, "4567EF01".data], true)], 1) ∧
    (addCheatCode demoCheatApi (some "   ".data)
        demoCheatLoaded).2.core.m_core.map (fun c => (c.sets, c.refreshes)) =
      some ([([], false)], 0) ∧
    ((addCheatCode demoCheatApiNullDevice (some "0123ABCD".data) demoCheatLoaded).1 = false ∧
      (addCheatCode demoCheatApiNullDevice (some "0123ABCD".data) demoCheatLoaded).2.core =
        demoCheatLoaded.core ∧
      newCalls demoCheatLoaded
        (addCheatCode demoCheatApiNullDevice (some "0123ABCD".data) demoCheatLoaded).2 =
        [.cheatDevice]) ∧
    ((addCheatCode demoCheatApiNoSet (some "0123ABCD".data) demoCheatLoaded).1 = false ∧
      (addCheatCode demoCheatApiNoSet (some "0123ABCD".data) demoCheatLoaded).2.core =
        { demoCheatLoaded.core with
          m_core := some (demoCheatApiNoSet.createSet { sets := [], refreshes := 0 } "JBOY").2 } ∧
      newCalls demoCheatLoaded
        (addCheatCode demoCheatApiNoSet (some "0123ABCD".data) demoCheatLoaded).2 =
        [.cheatDevice, .createSet "JBOY"]) :=
  ⟨by decide, by decide,
    (addCheatCode_result demoCheatApi (some "   ".data) demoCheatLoaded).2.1 "   ".data rfl
      (by decide),
    (addCheatCode_result demoCheatApi (some "0123ABCD".data) demoCheatNoRom).2.2.2.1 (by rfl),
    ((addCheatCode_result demoCheatApi (some "0123ABCD;+4567EF01".data)
      demoCheatLoaded).2.2.2.2.2.2.1 { sets := [], refreshes := 0 } (fun _ => true)
      "0123ABCD;+4567EF01".data (by rfl) (by rfl) (by rfl) (by rfl) (Or.inr (by rfl)) rfl).1,
    by decide, by decide,
    (addCheatCode_result demoCheatApiNullDevice (some "0123ABCD".data)
      demoCheatLoaded).2.2.2.2.2.2.2.2.1 { sets := [], refreshes := 0 } (fun _ => false)
      "0123ABCD".data (by rfl) (by rfl) (by rfl) (by rfl) rfl,
    (addCheatCode_result demoCheatApiNoSet (some "0123ABCD".data)
      demoCheatLoaded).2.2.2.2.2.2.2.2.2 { sets := [], refreshes := 0 } (fun _ => true)
      "0123ABCD".data (by rfl) (by rfl) (by rfl) (by rfl) (by rfl) (by rfl) rfl⟩

/-! ## C19: the managed cheat set -/

theorem count_lineCalls (capi : MCheatApi σ) (lines : List (List Char)) (c : σ)
    (e : ExternalCall) (he : ∀ line a, e ≠ .mCheatAddLine line a) :
    (lineCalls capi lines c).count e = 0 := by
  apply List.count_eq_zero_of_not_mem
  intro hmem
  obtain ⟨line, a, h⟩ := lineCalls_only capi lines c e hmem
  exact he line a h

theorem count_tail (capi : MCheatApi σ) (b : Bool) (e : ExternalCall)
    (h1 : e ≠ .enableSet) (h2 : e ≠ .cheatRefresh) (h3 : e ≠ .mCheatRefresh) :
    (if b = true then [ExternalCall.enableSet, refreshCall capi] else []).count e = 0 := by
  apply List.count_eq_zero_of_not_mem
  rcases refreshCall_cases capi with h | h <;> cases b <;> simp [h, h1, h2, h3]

/-- The external calls and the number of sets after one `addCheatCode`, for an
engine that keeps the contract. -/
theorem addCheatCode_step (capi : MCheatApi σ) (hc : CheatContract capi)
    (code : Option (List Char)) (y : System σ) :
    ∃ l, (addCheatCode capi code y).2.trace = y.trace ++ l ∧
      l.count .mCheatDeviceClear = 0 ∧
      ((l.count .mCheatAddSet = 0 ∧ l.count (.createSet "JBOY") ≤ 1 ∧
          (ExternalCall.createSet "JBOY" ∈ l → setsOf capi y = 0) ∧
          setsOf capi (addCheatCode capi code y).2 = setsOf capi y) ∨
        (l.count .mCheatAddSet = 1 ∧ l.count (.createSet "JBOY") = 1 ∧ setsOf capi y = 0 ∧
          setsOf capi (addCheatCode capi code y).2 = 1)) := by
  obtain ⟨h1, h2, h3, h4, h5, h6, _⟩ := hc
  by_cases hg : y.core.m_core = none ∨ y.core.m_romLoaded = false ∨ capi.cheatDevice = none ∨
      code = none
  · rw [addCheatCode_guard capi code y hg]
    exact ⟨[], by simp, rfl, Or.inl ⟨rfl, by simp, by simp, rfl⟩⟩
  · simp only [not_or] at hg
    obtain ⟨g1, g2, g3, g4⟩ := hg
    obtain ⟨c, hcore⟩ := Option.ne_none_iff_exists'.1 g1
    obtain ⟨dev, hdev⟩ := Option.ne_none_iff_exists'.1 g3
    obtain ⟨text, hcode⟩ := Option.ne_none_iff_exists'.1 g4
    have hrom : y.core.m_romLoaded = true := by simpa using g2
    subst hcode
    have hsets : setsOf capi y = capi.mCheatSetsSize c := by
      unfold setsOf
      rw [hcore]
    cases hdevice : dev c with
    | false =>
      rw [addCheatCode_null_device capi text y c dev hcore hrom hdev hdevice]
      exact ⟨[.cheatDevice], rfl, by simp, Or.inl ⟨by simp, by simp, by simp, rfl⟩⟩
    | true =>
      by_cases hsize : capi.mCheatSetsSize c ≠ 0
      · rw [addCheatCode_lines capi text y c dev hcore hrom hdev hdevice (Or.inl hsize)]
        obtain ⟨_, s2, _, c1, s4, s5⟩ := addCheatLines_spec capi text (cheatSetState capi c)
          { core := if capi.mCheatSetsSize c ≠ 0 then y.core
              else { y.core with m_core := some (capi.createSet c "JBOY").2 }
            files := y.files
            trace := y.trace ++ cheatPrelude capi c }
        refine ⟨_, by rw [s2, List.append_assoc], ?_, Or.inl ⟨?_, ?_, ?_, ?_⟩⟩
        · rw [List.count_append, List.count_append, count_lineCalls _ _ _ _ (by simp),
            count_tail _ _ _ (by simp) (by simp) (by simp)]
          unfold cheatPrelude
          rw [if_pos hsize]
          simp
        · rw [List.count_append, List.count_append, count_lineCalls _ _ _ _ (by simp),
            count_tail _ _ _ (by simp) (by simp) (by simp)]
          unfold cheatPrelude
          rw [if_pos hsize]
          simp
        · rw [List.count_append, List.count_append, count_lineCalls _ _ _ _ (by simp),
            count_tail _ _ _ (by simp) (by simp) (by simp)]
          unfold cheatPrelude
          rw [if_pos hsize]
          simp
        · intro hmem
          exfalso
          have : (cheatPrelude capi c ++ (lineCalls capi (cheatLinesOfText text)
              (cheatSetState capi c) ++ if (addCheatLines capi text (cheatSetState capi c)
                { core := if capi.mCheatSetsSize c ≠ 0 then y.core
                    else { y.core with m_core := some (capi.createSet c "JBOY").2 }
                  files := y.files
                  trace := y.trace ++ cheatPrelude capi c }).1 = true
                then [ExternalCall.enableSet, refreshCall capi] else [])).count
              (.createSet "JBOY") = 0 := by
            rw [List.count_append, List.count_append, count_lineCalls _ _ _ _ (by simp),
              count_tail _ _ _ (by simp) (by simp) (by simp)]
            unfold cheatPrelude
            rw [if_pos hsize]
            simp
          exact (List.count_eq_zero.1 this) hmem
        · rw [hsets]
          unfold setsOf
          rw [s4]
          simp only []
          rw [s5 h3 h4 h5 h6]
          unfold cheatSetState
          rw [if_pos hsize]
      · have hzero : capi.mCheatSetsSize c = 0 := by simpa using hsize
        cases hcr : (capi.createSet c "JBOY").1 with
        | false =>
          rw [addCheatCode_no_set capi text y c dev hcore hrom hdev hdevice hzero hcr]
          refine ⟨[.cheatDevice, .createSet "JBOY"], rfl, by simp,
            Or.inl ⟨by simp, by simp, fun _ => by rw [hsets, hzero], ?_⟩⟩
          rw [hsets]
          unfold setsOf
          simp only []
          rw [h1]
        | true =>
          rw [addCheatCode_lines capi text y c dev hcore hrom hdev hdevice (Or.inr hcr)]
          obtain ⟨_, s2, _, c1, s4, s5⟩ := addCheatLines_spec capi text (cheatSetState capi c)
            { core := if capi.mCheatSetsSize c ≠ 0 then y.core
                else { y.core with m_core := some (capi.createSet c "JBOY").2 }
              files := y.files
              trace := y.trace ++ cheatPrelude capi c }
          refine ⟨_, by rw [s2, List.append_assoc], ?_, Or.inr ⟨?_, ?_, ?_, ?_⟩⟩
          · rw [List.count_append, List.count_append, count_lineCalls _ _ _ _ (by simp),
              count_tail _ _ _ (by simp) (by simp) (by simp)]
            unfold cheatPrelude
            rw [if_neg hsize]
            simp
          · rw [List.count_append, List.count_append, count_lineCalls _ _ _ _ (by simp),
              count_tail _ _ _ (by simp) (by simp) (by simp)]
            unfold cheatPrelude
            rw [if_neg hsize]
            simp
          · rw [List.count_append, List.count_append, count_lineCalls _ _ _ _ (by simp),
              count_tail _ _ _ (by simp) (by simp) (by simp)]
            unfold cheatPrelude
            rw [if_neg hsize]
            simp
          · rw [hsets, hzero]
          · unfold setsOf
            rw [s4]
            simp only []
            rw [s5 h3 h4 h5 h6]
            unfold cheatSetState
            rw [if_neg hsize, h2, h1, hzero]

/-- The external calls and the number of sets after one `clearCheats`, for an
engine that keeps the contract. -/
theorem clearCheats_step (capi : MCheatApi σ) (hc : CheatContract capi) (y : System σ) :
    ∃ l, (clearCheats capi y).2.trace = y.trace ++ l ∧
      l.count .mCheatAddSet = 0 ∧ l.count (.createSet "JBOY") = 0 ∧
      setsOf capi (clearCheats capi y).2 ≤ setsOf capi y ∧
      (setsOf capi (clearCheats capi y).2 < setsOf capi y → 1 ≤ l.count .mCheatDeviceClear) := by
  unfold clearCheats
  cases hcore : y.core.m_core with
  | none => exact ⟨[], by simp, rfl, rfl, le_refl _, fun h => absurd h (lt_irrefl _)⟩
  | some c =>
    cases hdev : capi.cheatDevice with
    | none => exact ⟨[], by simp, rfl, rfl, le_refl _, fun h => absurd h (lt_irrefl _)⟩
    | some dev =>
      simp only []
      by_cases hrom : y.core.m_romLoaded = false
      · rw [if_pos hrom]
        exact ⟨[], by simp, rfl, rfl, le_refl _, fun h => absurd h (lt_irrefl _)⟩
      · rw [if_neg hrom]
        by_cases hnull : dev c = false
        · rw [if_pos hnull]
          exact ⟨[.cheatDevice], rfl, by simp, by simp, le_refl _,
            fun h => absurd h (lt_irrefl _)⟩
        · rw [if_neg hnull]
          refine ⟨[.cheatDevice, .mCheatDeviceClear], by simp [System.call], by simp, by simp,
            ?_, fun _ => by simp⟩
          unfold setsOf
          rw [hcore]
          exact hc.2.2.2.2.2.2 c

theorem cheatOp_step (capi : MCheatApi σ) (hc : CheatContract capi) (op : CheatOp)
    (y : System σ) (hs : setsOf capi y ≤ 1) :
    ∃ l, (op.exec capi y).trace = y.trace ++ l ∧
      setsOf capi (op.exec capi y) ≤ 1 ∧
      l.count .mCheatAddSet + setsOf capi y ≤
        l.count .mCheatDeviceClear + setsOf capi (op.exec capi y) ∧
      (op ≠ .clearCheats → l.count .mCheatDeviceClear = 0) := by
  cases op with
  | addCheatCode code =>
    obtain ⟨l, h1, h2, h3⟩ := addCheatCode_step capi hc code y
    refine ⟨l, h1, ?_, ?_, fun _ => h2⟩
    · show setsOf capi (addCheatCode capi code y).2 ≤ 1
      rcases h3 with ⟨_, _, _, h⟩ | ⟨_, _, _, h⟩ <;> omega
    · show _ ≤ _ + setsOf capi (addCheatCode capi code y).2
      rcases h3 with ⟨ha, _, _, h⟩ | ⟨ha, _, hz, h⟩ <;> omega
  | clearCheats =>
    obtain ⟨l, h1, h2, _, h4, h5⟩ := clearCheats_step capi hc y
    refine ⟨l, h1, ?_, ?_, fun h => absurd rfl h⟩
    · show setsOf capi (clearCheats capi y).2 ≤ 1
      omega
    · show _ ≤ _ + setsOf capi (clearCheats capi y).2
      by_cases hlt : setsOf capi (clearCheats capi y).2 < setsOf capi y
      · have := h5 hlt
        omega
      · omega

theorem runCheatOps_sets (capi : MCheatApi σ) (hc : CheatContract capi) (ops : List CheatOp)
    (y : System σ) (hs : setsOf capi y ≤ 1) :
    ∃ l, (runCheatOps capi ops y).trace = y.trace ++ l ∧
      setsOf capi (runCheatOps capi ops y) ≤ 1 ∧
      l.count .mCheatAddSet + setsOf capi y ≤
        l.count .mCheatDeviceClear + setsOf capi (runCheatOps capi ops y) ∧
      ((∀ op ∈ ops, op ≠ CheatOp.clearCheats) → l.count .mCheatDeviceClear = 0) := by
  induction ops generalizing y with
  | nil => exact ⟨[], by simp [runCheatOps], hs, le_refl _, fun _ => rfl⟩
  | cons op rest ih =>
    obtain ⟨l1, a1, a2, a3, a4⟩ := cheatOp_step capi hc op y hs
    obtain ⟨l2, b1, b2, b3, b4⟩ := ih (op.exec capi y) a2
    refine ⟨l1 ++ l2, ?_, b2, ?_, ?_⟩
    · simp only [runCheatOps]
      rw [b1, a1, List.append_assoc]
    · simp only [runCheatOps, List.count_append]
      omega
    · intro hno
      rw [List.count_append, a4 (hno op (List.mem_cons_self _ _)),
        b4 (fun o ho => hno o (List.mem_cons_of_mem _ ho))]

/-- The demonstration cheat device keeps the contract. -/
theorem demoCheatApi_contract : CheatContract demoCheatApi := by
  unfold CheatContract demoCheatApi
  refine ⟨?_, ?_, ?_, ?_, ?_, ?_, ?_⟩
  · intro c name
    rfl
  · intro c
    simp
  · intro c l
    simp only []
    split_ifs <;> simp
  · intro c
    simp
  · intro f c h
    cases h
  · intro c
    rfl
  · intro c
    simp

/-- C19 (as amended): the managed cheat set. On an engine whose cheat subsystem
keeps the contract and whose device starts with no set, after any sequence of
`addCheatCode` and `clearCheats` calls the device holds at most one set; the
number of sets this component has added is at most one more than the number of
`mCheatDeviceClear` calls, and at most one when `clearCheats` is never called;
`addCheatCode` creates and adds a set only when the device holds none and
otherwise takes the first set of the device, and `clearCheats` never creates or
adds one. -/
theorem cheatSet_single (capi : MCheatApi σ) (hc : CheatContract capi) (ops : List CheatOp)
    (y : System σ) (h0 : setsOf capi y = 0) :
    setsOf capi (runCheatOps capi ops y) ≤ 1 ∧
    (newCalls y (runCheatOps capi ops y)).count .mCheatAddSet ≤
      1 + (newCalls y (runCheatOps capi ops y)).count .mCheatDeviceClear ∧
    ((∀ op ∈ ops, op ≠ CheatOp.clearCheats) →
      (newCalls y (runCheatOps capi ops y)).count .mCheatAddSet ≤ 1) ∧
    (∀ code z,
      (ExternalCall.createSet "JBOY" ∈ newCalls z (addCheatCode capi code z).2 ∨
        (newCalls z (addCheatCode capi code z).2).count .mCheatAddSet ≠ 0) →
      setsOf capi z = 0) ∧
    (∀ text z c dev, z.core.m_core = some c → z.core.m_romLoaded = true →
      capi.cheatDevice = some dev → dev c = true → capi.mCheatSetsSize c ≠ 0 →
      ∃ l, newCalls z (addCheatCode capi (some text) z).2 =
          .cheatDevice :: .mCheatSetsGetPointer 0 :: l ∧
        ExternalCall.createSet "JBOY" ∉ l ∧ ExternalCall.mCheatAddSet ∉ l) ∧
    (∀ z, (newCalls z (clearCheats capi z).2).count (.createSet "JBOY") = 0 ∧
      (newCalls z (clearCheats capi z).2).count .mCheatAddSet = 0) := by
  obtain ⟨l, h1, h2, h3, h4⟩ := runCheatOps_sets capi hc ops y (by omega)
  rw [newCalls_append y _ l h1]
  refine ⟨h2, by omega, fun hno => ?_, ?_, ?_, ?_⟩
  · have := h4 hno
    omega
  · intro code z hz
    obtain ⟨l1, a1, _, a3⟩ := addCheatCode_step capi hc code z
    rw [newCalls_append z _ l1 a1] at hz
    rcases a3 with ⟨b1, _, b3, _⟩ | ⟨_, _, b3, _⟩
    · rcases hz with hz | hz
      · exact b3 hz
      · exact absurd b1 hz
    · exact b3
  · intro text z c dev hcore hrom hdev hdevice hsize
    have hrun := (addCheatCode_run capi text z c dev hcore hrom hdev hdevice (Or.inl hsize)).2
    unfold cheatPrelude at hrun
    rw [if_pos hsize] at hrun
    refine ⟨lineCalls capi (cheatLinesOfText text) (cheatSetState capi c) ++
      (if (addCheatCode capi (some text) z).1 = true then [.enableSet, refreshCall capi]
        else []), hrun, ?_, ?_⟩
    · apply List.count_eq_zero.1
      rw [List.count_append, count_lineCalls _ _ _ _ (by simp),
        count_tail _ _ _ (by simp) (by simp) (by simp)]
    · apply List.count_eq_zero.1
      rw [List.count_append, count_lineCalls _ _ _ _ (by simp),
        count_tail _ _ _ (by simp) (by simp) (by simp)]
  · intro z
    obtain ⟨l1, a1, a2, a3, _⟩ := clearCheats_step capi hc z
    rw [newCalls_append z _ l1 a1]
    exact ⟨a3, a2⟩

/-- Witness of `cheatSet_single`: the session `demoCheatOps` on the
demonstration cheat device. -/
theorem cheatSet_single_witness :
    setsOf demoCheatApi (runCheatOps demoCheatApi demoCheatOps demoCheatLoaded) ≤ 1 ∧
    (newCalls demoCheatLoaded
      (runCheatOps demoCheatApi demoCheatOps demoCheatLoaded)).count .mCheatAddSet ≤
      1 + (newCalls demoCheatLoaded
        (runCheatOps demoCheatApi demoCheatOps demoCheatLoaded)).count .mCheatDeviceClear :=
  ⟨(cheatSet_single demoCheatApi demoCheatApi_contract demoCheatOps demoCheatLoaded (by rfl)).1,
    (cheatSet_single demoCheatApi demoCheatApi_contract demoCheatOps demoCheatLoaded
      (by rfl)).2.1⟩

/-- Counterexample to C19 as stated: the device starts with no set; a code is
added, the cheats are cleared, which removes the set from the device, and a code
is added again; the component creates a set twice. -/
theorem cheatSet_single_counterexample :
    setsOf demoCheatApi demoCheatLoaded = 0 ∧
    (newCalls demoCheatLoaded
      (runCheatOps demoCheatApi demoCheatOps demoCheatLoaded)).count (.createSet "JBOY") = 2 ∧
    (newCalls demoCheatLoaded
      (runCheatOps demoCheatApi demoCheatOps demoCheatLoaded)).count .mCheatAddSet = 2 := by
  decide

/-! ## C27: the amount trimmed by `consumeAudioSamples` -/

/-- C27: the trim amount. For a backlog `c = m_audioCount` that is a 32-bit value
not above the capacity, a 32-bit target sample rate and `0 < maxSamples < 2^31`,
with `P` the clamped preferred backlog that `consumeAudioSamples` computes: if
`c <= P` nothing is dropped and the object is unchanged; if `c > P` the number
dropped is `c - P` rounded down to even, so that the backlog after trimming is
`P` when `c - P` is even and `P + 1` when it is odd, has the parity of `c`, and
is not below `P`. -/
theorem trimBacklog_amount (s : JboyCore σ) (maxSamples : Int)
    (hc0 : -2147483648 ≤ s.m_audioCount) (hc1 : s.m_audioCount ≤ AUDIO_BUFFER_CAPACITY)
    (hr : s.m_targetSampleRate < 4294967296)
    (h0 : 0 < maxSamples) (h1 : maxSamples < 2147483648) :
    (s.m_audioCount ≤ preferredBacklog s.m_targetSampleRate maxSamples →
      trimDrop s maxSamples = 0 ∧ trimBacklog s maxSamples = s) ∧
    (s.m_audioCount > preferredBacklog s.m_targetSampleRate maxSamples →
      trimDrop s maxSamples =
        roundDownEven (s.m_audioCount - preferredBacklog s.m_targetSampleRate maxSamples) ∧
      (trimBacklog s maxSamples).m_audioCount = s.m_audioCount - trimDrop s maxSamples ∧
      ((s.m_audioCount - preferredBacklog s.m_targetSampleRate maxSamples) % 2 = 0 →
        (trimBacklog s maxSamples).m_audioCount =
          preferredBacklog s.m_targetSampleRate maxSamples) ∧
      ((s.m_audioCount - preferredBacklog s.m_targetSampleRate maxSamples) % 2 = 1 →
        (trimBacklog s maxSamples).m_audioCount =
          preferredBacklog s.m_targetSampleRate maxSamples + 1) ∧
      (trimBacklog s maxSamples).m_audioCount % 2 = s.m_audioCount % 2 ∧
      preferredBacklog s.m_targetSampleRate maxSamples ≤
        (trimBacklog s maxSamples).m_audioCount) := by
  simp only [AUDIO_BUFFER_CAPACITY] at hc1
  have hrange := preferredBacklog_range s.m_targetSampleRate maxSamples hr h0 h1
  have hp := preferredBacklog_int32 s.m_targetSampleRate maxSamples h0 h1
  have hhi : s.m_audioCount - preferredBacklog s.m_targetSampleRate maxSamples < 2147483648 := by
    omega
  have hd := trimDrop_eq s maxSamples hhi
  have hcount := trimBacklog_count s maxSamples hc0 (by omega) hp.1 hhi
  constructor
  · intro hle
    have h0d : trimDrop s maxSamples = 0 := by
      rw [hd, if_neg (by omega)]
    refine ⟨h0d, ?_⟩
    rw [trimBacklog_eq, if_neg (by omega)]
  · intro hgt
    rw [if_pos hgt] at hd
    rw [hcount, hd]
    unfold roundDownEven
    refine ⟨rfl, rfl, ?_, ?_, ?_, ?_⟩
    · intro he
      omega
    · intro ho
      omega
    · omega
    · omega

/-- Witness of `trimBacklog_amount`: 8000 buffered samples at the default sample
rate and `maxSamples = 2048`. -/
theorem trimBacklog_amount_witness :
    (backlog8000.m_audioCount ≤ preferredBacklog backlog8000.m_targetSampleRate 2048 →
      trimDrop backlog8000 2048 = 0 ∧ trimBacklog backlog8000 2048 = backlog8000) ∧
    (backlog8000.m_audioCount > preferredBacklog backlog8000.m_targetSampleRate 2048 →
      trimDrop backlog8000 2048 =
        roundDownEven
          (backlog8000.m_audioCount - preferredBacklog backlog8000.m_targetSampleRate 2048) ∧
      (trimBacklog backlog8000 2048).m_audioCount =
        backlog8000.m_audioCount - trimDrop backlog8000 2048 ∧
      ((backlog8000.m_audioCount - preferredBacklog backlog8000.m_targetSampleRate 2048) % 2 =
          0 →
        (trimBacklog backlog8000 2048).m_audioCount =
          preferredBacklog backlog8000.m_targetSampleRate 2048) ∧
      ((backlog8000.m_audioCount - preferredBacklog backlog8000.m_targetSampleRate 2048) % 2 =
          1 →
        (trimBacklog backlog8000 2048).m_audioCount =
          preferredBacklog backlog8000.m_targetSampleRate 2048 + 1) ∧
      (trimBacklog backlog8000 2048).m_audioCount % 2 = backlog8000.m_audioCount % 2 ∧
      preferredBacklog backlog8000.m_targetSampleRate 2048 ≤
        (trimBacklog backlog8000 2048).m_audioCount) :=
  trimBacklog_amount backlog8000 2048 (by decide) (by decide) (by decide) (by decide)
    (by decide)

/-! ## C24: the names of the slot files -/

theorem digitChar_value (k : Nat) (h : k < 10) :
    (Nat.digitChar k).toNat - 48 = k ∧ (Nat.digitChar k).isDigit = true := by
  interval_cases k <;> decide

theorem decimalValue_append (l : List Char) (c : Char) :
    decimalValue (l ++ [c]) = 10 * decimalValue l + (c.toNat - 48) := by
  unfold decimalValue
  rw [List.foldl_append]
  rfl

theorem decimalDigits_value (fuel n : Nat) (h : n < fuel) :
    decimalValue (decimalDigits fuel n) = n := by
  induction fuel generalizing n with
  | zero => omega
  | succ fuel ih =>
    simp only [decimalDigits]
    by_cases h10 : n < 10
    · rw [if_pos h10]
      have := (digitChar_value n h10).1
      simpa [decimalValue] using this
    · rw [if_neg h10, decimalValue_append, ih (n / 10) (by omega),
        (digitChar_value (n % 10) (Nat.mod_lt _ (by norm_num))).1]
      omega

theorem decimalDigits_isDigit (fuel n : Nat) :
    ∀ c ∈ decimalDigits fuel n, c.isDigit = true := by
  induction fuel generalizing n with
  | zero =>
    intro c hc
    cases hc
  | succ fuel ih =>
    intro c hc
    simp only [decimalDigits] at hc
    by_cases h10 : n < 10
    · rw [if_pos h10] at hc
      simp only [List.mem_singleton] at hc
      rw [hc]
      exact (digitChar_value n h10).2
    · rw [if_neg h10, List.mem_append] at hc
      rcases hc with hc | hc
      · exact ih _ c hc
      · simp only [List.mem_singleton] at hc
        rw [hc]
        exact (digitChar_value (n % 10) (Nat.mod_lt _ (by norm_num))).2

/-- The digits that `to_string` produces are those of the standard decimal
numeral. -/
theorem decimalDigits_eq_toDigits (fuel n : Nat) (ds : List Char) (h : n < fuel) :
    Nat.toDigitsCore 10 fuel n ds = decimalDigits fuel n ++ ds := by
  induction fuel generalizing n ds with
  | zero => omega
  | succ fuel ih =>
    simp only [Nat.toDigitsCore, decimalDigits]
    by_cases h10 : n < 10
    · rw [if_pos (by omega), if_pos h10, Nat.mod_eq_of_lt h10]
      rfl
    · rw [if_neg (by omega), if_neg h10, ih (n / 10) _ (by omega)]
      simp

theorem to_string_nonneg (n : Int) (h : 0 ≤ n) :
    (to_string n).data = Nat.toDigits 10 n.toNat ∧
    (to_string n).data = decimalDigits (n.toNat + 1) n.toNat := by
  unfold to_string
  rw [if_neg (by omega)]
  refine ⟨?_, rfl⟩
  unfold Nat.toDigits
  rw [decimalDigits_eq_toDigits _ _ _ (by omega)]
  simp

theorem to_string_inj (m n : Int) (hm : 0 ≤ m) (hn : 0 ≤ n)
    (h : (to_string m).data = (to_string n).data) : m = n := by
  rw [(to_string_nonneg m hm).2, (to_string_nonneg n hn).2] at h
  have h1 := decimalDigits_value (m.toNat + 1) m.toNat (by omega)
  have h2 := decimalDigits_value (n.toNat + 1) n.toNat (by omega)
  rw [h, h2] at h1
  omega

/-- Two texts that end in digits after a character that is not a digit are equal
only if the digits and the parts before them are equal. -/
theorem digits_prefix_cancel (P : Char → Bool) (a b x y : List Char)
    (ha : ∀ c ∈ a, P c = true) (hb : ∀ c ∈ b, P c = true)
    (hx : ∀ c, x.head? = some c → P c = false)
    (hy : ∀ c, y.head? = some c → P c = false)
    (h : a ++ x = b ++ y) : a = b ∧ x = y := by
  induction a generalizing b with
  | nil =>
    cases b with
    | nil => exact ⟨rfl, h⟩
    | cons b0 b =>
      exfalso
      simp only [List.nil_append, List.cons_append] at h
      have := hx b0 (by rw [h]; rfl)
      rw [hb b0 (List.mem_cons_self _ _)] at this
      cases this
  | cons a0 a ih =>
    cases b with
    | nil =>
      exfalso
      simp only [List.nil_append, List.cons_append] at h
      have := hy a0 (by rw [← h]; rfl)
      rw [ha a0 (List.mem_cons_self _ _)] at this
      cases this
    | cons b0 b =>
      simp only [List.cons_append, List.cons.injEq] at h
      obtain ⟨h0, h1⟩ := h
      obtain ⟨e1, e2⟩ := ih b (fun c hc => ha c (List.mem_cons_of_mem _ hc))
        (fun c hc => hb c (List.mem_cons_of_mem _ hc)) h1
      exact ⟨by rw [h0, e1], e2⟩

theorem getStatePath_data (s : JboyCore σ) (slot : Int) :
    (getStatePath s slot).data =
      s.m_romPath.data ++ ".slot".data ++ (to_string slot).data ++ ".ss".data := by
  unfold getStatePath
  simp [String.data_append]

theorem getStatePath_inj (s t : JboyCore σ) (m n : Int) (hm : 0 ≤ m) (hn : 0 ≤ n)
    (h : getStatePath s m = getStatePath t n) : s.m_romPath = t.m_romPath ∧ m = n := by
  have hd : (getStatePath s m).data = (getStatePath t n).data := by rw [h]
  rw [getStatePath_data, getStatePath_data] at hd
  have h1 := List.append_cancel_right hd
  have h2 : (to_string m).data.reverse ++ (s.m_romPath.data ++ ".slot".data).reverse =
      (to_string n).data.reverse ++ (t.m_romPath.data ++ ".slot".data).reverse := by
    rw [← List.reverse_append, ← List.reverse_append, h1]
  have hdig : ∀ (k : Int), 0 ≤ k → ∀ c ∈ (to_string k).data.reverse, c.isDigit = true := by
    intro k hk c hc
    rw [List.mem_reverse, (to_string_nonneg k hk).2] at hc
    exact decimalDigits_isDigit _ _ c hc
  have hhead : ∀ (p : List Char) (c : Char),
      (p ++ ".slot".data).reverse.head? = some c → c.isDigit = false := by
    intro p c hc
    rw [List.reverse_append] at hc
    have : c = 't' := by
      simpa using hc.symm
    rw [this]
    decide
  obtain ⟨e1, e2⟩ := digits_prefix_cancel Char.isDigit _ _ _ _ (hdig m hm) (hdig n hn)
    (hhead _) (hhead _) h2
  have e3 := List.reverse_injective e2
  have e4 := List.append_cancel_right e3
  refine ⟨String.ext e4, to_string_inj m n hm hn (List.reverse_injective e1)⟩

theorem getSavePath_cases (s : JboyCore σ) :
    (s.m_romPath.data = [] ∧ getSavePath s = "") ∨
    (s.m_romPath.data ≠ [] ∧ ∃ stem : List Char,
      (getSavePath s).data = stem ++ ".sav".data ∧
      (stem = s.m_romPath.data ∨
        ∃ dot, find_last_of s.m_romPath.data '.' = some dot ∧
          stem = s.m_romPath.data.take dot)) := by
  unfold getSavePath
  by_cases h : s.m_romPath.data = []
  · left
    rw [if_pos h]
    exact ⟨h, rfl⟩
  · right
    rw [if_neg h]
    refine ⟨h, ?_⟩
    cases hf : find_last_of s.m_romPath.data '.' with
    | none => exact ⟨s.m_romPath.data, by simp [String.data_append, hf], Or.inl rfl⟩
    | some dot =>
      exact ⟨s.m_romPath.data.take dot, by simp [String.data_append, hf],
        Or.inr ⟨dot, rfl, rfl⟩⟩

theorem getStatePath_last (s : JboyCore σ) (slot : Int) :
    (getStatePath s slot).data.getLast? = some 's' := by
  rw [getStatePath_data]
  have e : ".ss".data = ['.', 's'] ++ ['s'] := rfl
  rw [e, ← List.append_assoc, List.getLast?_append]
  rfl

/-- C24 (as amended): the names of the slot files. `getStatePath(slot)` is the
ROM path followed by ".slot", the decimal numeral of the slot and ".ss"; it is
injective on ROM paths and slots `>= 0`; and it never equals the save-data path
of `getSavePath`, which is empty for an empty ROM path and otherwise ends in
".sav". -/
theorem getStatePath_naming (s t : JboyCore σ) (m n : Int) (hm : 0 ≤ m) (hn : 0 ≤ n) :
    getStatePath s m = s.m_romPath ++ ".slot" ++ to_string m ++ ".ss" ∧
    (to_string m).data = Nat.toDigits 10 m.toNat ∧
    (getStatePath s m = getStatePath t n → s.m_romPath = t.m_romPath ∧ m = n) ∧
    getStatePath s m ≠ getSavePath t ∧
    (t.m_romPath.data = [] → getSavePath t = "") ∧
    (t.m_romPath.data ≠ [] → ∃ stem, (getSavePath t).data = stem ++ ".sav".data) := by
  refine ⟨rfl, (to_string_nonneg m hm).1, getStatePath_inj s t m n hm hn, ?_, ?_, ?_⟩
  · intro h
    have hl := getStatePath_last s m
    rw [h] at hl
    rcases getSavePath_cases t with ⟨_, h1⟩ | ⟨_, stem, h1, _⟩
    · rw [h1] at hl
      cases hl
    · rw [h1] at hl
      simp at hl
  · intro h0
    rcases getSavePath_cases t with ⟨_, h1⟩ | ⟨h1, _⟩
    · exact h1
    · exact absurd h0 h1
  · intro h0
    rcases getSavePath_cases t with ⟨h1, _⟩ | ⟨_, stem, h1, _⟩
    · exact absurd h1 h0
    · exact ⟨stem, h1⟩

/-- Witness of `getStatePath_naming`: slots 0 and 12 of the demonstration system. -/
theorem getStatePath_naming_witness :
    getStatePath (demoLoaded demoApi).core 12 = "rom.gba.slot12.ss" ∧
    getSavePath (demoLoaded demoApi).core = "rom.sav" ∧
    getStatePath (demoLoaded demoApi).core 0 ≠ getSavePath (demoLoaded demoApi).core :=
  ⟨by decide, by decide,
    (getStatePath_naming (demoLoaded demoApi).core (demoLoaded demoApi).core 0 0 (by decide)
      (by decide)).2.2.2.1⟩

/-- Counterexample to C24 as stated: for a newly constructed object, whose ROM
path is empty, `getSavePath` returns the empty text, which does not end in
".sav". -/
theorem getStatePath_naming_counterexample :
    (JboyCore.construct : JboyCore Unit).m_romPath = "" ∧
    getSavePath (JboyCore.construct : JboyCore Unit) = "" ∧
    ¬ (".sav".data <:+ (getSavePath (JboyCore.construct : JboyCore Unit)).data) := by
  refine ⟨rfl, by decide, ?_⟩
  intro h
  have := h.length_le
  revert this
  decide

/-! ## C21, C22, C23, C26: the lifecycle of `loadRom` and `reset` -/

theorem createCoreLocked_none (api : MCoreApi σ) (y : System σ) :
    (createCoreLocked api none y).1 = false ∧
    (createCoreLocked api none y).2.core = { y.core with m_core := none } ∧
    (createCoreLocked api none y).2.files = y.files := by
  unfold createCoreLocked
  cases y.core.m_core <;> simp [System.call]

theorem createCoreLocked_some (api : MCoreApi σ) (c : σ) (y : System σ) :
    (createCoreLocked api (some c) y).1 = true ∧
    (createCoreLocked api (some c) y).2.core.m_core.isSome = true ∧
    (createCoreLocked api (some c) y).2.core.m_romLoaded = false ∧
    (createCoreLocked api (some c) y).2.core.m_coreReady = false ∧
    (createCoreLocked api (some c) y).2.core.m_romTitle = y.core.m_romTitle ∧
    (createCoreLocked api (some c) y).2.core.m_romPath = y.core.m_romPath ∧
    (createCoreLocked api (some c) y).2.files = y.files ∧
    ∃ l, (createCoreLocked api (some c) y).2.trace = y.trace ++ l ∧
      ExternalCall.mCoreCreate ∈ l ∧ ExternalCall.createSetup ∈ l := by
  unfold createCoreLocked
  cases y.core.m_core with
  | none =>
    exact ⟨rfl, rfl, rfl, rfl, rfl, rfl, rfl, [.mCoreCreate, .createSetup],
      by simp [System.call, clearAudio], by simp, by simp⟩
  | some c0 =>
    exact ⟨rfl, rfl, rfl, rfl, rfl, rfl, rfl, [.deinit, .mCoreCreate, .createSetup],
      by simp [System.call, clearAudio], by simp, by simp⟩

theorem performCoreResetLocked_ok (api : MCoreApi σ) (y : System σ) (c : σ) (f : σ → σ)
    (hcore : y.core.m_core = some c) (hrom : y.core.m_romLoaded = true)
    (hreset : api.reset = some f) :
    (performCoreResetLocked api y).1 = true ∧
    ReadyState (performCoreResetLocked api y).2.core ∧
    (performCoreResetLocked api y).2.core.m_romTitle = y.core.m_romTitle ∧
    (performCoreResetLocked api y).2.core.m_romPath = y.core.m_romPath ∧
    (performCoreResetLocked api y).2.files = y.files ∧
    (performCoreResetLocked api y).2.trace = y.trace ++ [.resetSetup, .reset] := by
  unfold performCoreResetLocked ReadyState
  rw [hcore]
  simp only [hreset]
  rw [if_neg (by simp [hrom])]
  simp [System.call, clearAudio, hrom]

theorem performCoreResetLocked_fail (api : MCoreApi σ) (y : System σ)
    (h : y.core.m_core = none ∨ y.core.m_romLoaded = false ∨ api.reset = none) :
    performCoreResetLocked api y = (false, { y with core := { y.core with m_coreReady := false } }) := by
  unfold performCoreResetLocked
  cases hc : y.core.m_core with
  | none => rfl
  | some c =>
    simp only []
    by_cases hrom : y.core.m_romLoaded = false
    · rw [if_pos hrom]
    · rw [if_neg hrom]
      rcases h with h | h | h
      · rw [hc] at h; cases h
      · exact absurd h hrom
      · rw [h]

theorem loadRomAttach_core (api : MCoreApi σ) (romPath : String) (c : σ) (y : System σ) :
    (loadRomAttach api romPath c y).core.m_core.isSome = true ∧
    (loadRomAttach api romPath c y).core.m_romLoaded = true ∧
    (loadRomAttach api romPath c y).core.m_romPath = y.core.m_romPath ∧
    (loadRomAttach api romPath c y).files = y.files ∧
    ∃ l, (loadRomAttach api romPath c y).trace = y.trace ++ l := by
  unfold loadRomAttach
  by_cases h : y.core.getSavePath.data ≠ []
  · refine ⟨rfl, rfl, ?_, ?_, [.mCoreLoadSaveFile y.core.getSavePath, .getGameInfo], ?_⟩
    · simp only [if_pos h]
      rfl
    · simp only [if_pos h]
      rfl
    · simp only [if_pos h]
      simp [System.call]
  · refine ⟨rfl, rfl, ?_, ?_, [.getGameInfo], ?_⟩
    · simp only [if_neg h]
    · simp only [if_neg h]
      rfl
    · simp only [if_neg h]
      rfl

/-- The part of `loadRom` after the engine has accepted the ROM: with a `reset`
entry point it ends Ready; without one it calls `unloadROM` and reports failure,
and if that entry point is missing too it calls a null pointer. -/
theorem loadRomFinish_cases (api : MCoreApi σ) (romPath : String) (c : σ) (y : System σ) :
    (∀ f, api.reset = some f →
      ∃ y1, loadRomFinish api romPath c y = some (true, y1) ∧ ReadyState y1.core ∧
        y1.core.m_romPath = y.core.m_romPath ∧ y1.files = y.files ∧
        ∃ l, y1.trace = y.trace ++ l ∧ ExternalCall.reset ∈ l) ∧
    (api.reset = none → ∀ u, api.unloadROM = some u →
      ∃ y1, loadRomFinish api romPath c y = some (false, y1) ∧
        y1.core.m_romLoaded = false ∧ y1.core.m_coreReady = false ∧
        y1.core.m_romPath = y.core.m_romPath ∧ y1.files = y.files ∧
        ∃ l, y1.trace = y.trace ++ l ∧ ExternalCall.unloadROM ∈ l) ∧
    (api.reset = none → api.unloadROM = none → loadRomFinish api romPath c y = none) := by
  obtain ⟨a1, a2, a3, a4, l0, a5⟩ := loadRomAttach_core api romPath c y
  obtain ⟨c1, hc1⟩ := Option.isSome_iff_exists.1 a1
  refine ⟨?_, ?_, ?_⟩
  · intro f hf
    obtain ⟨b1, b2, _, b4, b6, b5⟩ := performCoreResetLocked_ok api _ c1 f hc1 a2 hf
    refine ⟨(performCoreResetLocked api (loadRomAttach api romPath c y)).2, ?_, b2, ?_, ?_, ?_⟩
    · unfold loadRomFinish
      simp only []
      rw [if_neg (by simp [b1])]
    · rw [b4, a3]
    · rw [b6, a4]
    · exact ⟨l0 ++ [.resetSetup, .reset], by rw [b5, a5, List.append_assoc], by simp⟩
  · intro hr u hu
    have hfail := performCoreResetLocked_fail api (loadRomAttach api romPath c y)
      (Or.inr (Or.inr hr))
    unfold loadRomFinish
    simp only []
    rw [hfail]
    simp only [if_true, hu, hc1]
    exact ⟨_, rfl, rfl, rfl, a3, a4, l0 ++ [.unloadROM], by simp [System.call, a5], by simp⟩
  · intro hr hu
    have hfail := performCoreResetLocked_fail api (loadRomAttach api romPath c y)
      (Or.inr (Or.inr hr))
    unfold loadRomFinish
    simp only []
    rw [hfail]
    simp only [if_true, hu]

theorem loadRomOpen_missing (api : MCoreApi σ) (romPath : String) (y : System σ)
    (h : y.files romPath = none) :
    loadRomOpen api romPath y =
      some (false,
        { core := { y.core with m_coreReady := false, m_romPath := romPath }
          files := y.files
          trace := y.trace ++ [.VFileOpen romPath] }) := by
  unfold loadRomOpen
  simp only []
  have hf : ((({ y with core := { y.core with m_coreReady := false, m_romPath := romPath } }
      : System σ)).call (.VFileOpen romPath)).files romPath = none := h
  rw [hf]
  rfl

theorem loadRomOpen_refused (api : MCoreApi σ) (romPath : String) (y : System σ)
    (vf : List Nat) (c : σ) (hfile : y.files romPath = some vf)
    (hcore : y.core.m_core = some c) (href : (api.loadROM c vf).1 = false) :
    loadRomOpen api romPath y =
      some (false,
        { core := { y.core with
            m_coreReady := false, m_romPath := romPath, m_core := some (api.loadROM c vf).2 }
          files := y.files
          trace := y.trace ++ [.VFileOpen romPath, .loadROM, .vfClose] }) := by
  unfold loadRomOpen
  simp only []
  have hf : ((({ y with core := { y.core with m_coreReady := false, m_romPath := romPath } }
      : System σ)).call (.VFileOpen romPath)).files romPath = some vf := hfile
  have hc : (({ y with core := { y.core with m_coreReady := false, m_romPath := romPath } }
      : System σ).call (.VFileOpen romPath)).core.m_core = some c := hcore
  rw [hf]
  simp only []
  rw [hc]
  simp only []
  rw [if_pos href]
  simp [System.call]

theorem loadRomOpen_accepted (api : MCoreApi σ) (romPath : String) (y : System σ)
    (vf : List Nat) (c : σ) (hfile : y.files romPath = some vf)
    (hcore : y.core.m_core = some c) (hacc : (api.loadROM c vf).1 = true) :
    loadRomOpen api romPath y =
      loadRomFinish api romPath (api.loadROM c vf).2
        { core := { y.core with
            m_coreReady := false, m_romPath := romPath, m_core := some (api.loadROM c vf).2 }
          files := y.files
          trace := y.trace ++ [.VFileOpen romPath, .loadROM] } := by
  unfold loadRomOpen
  simp only []
  have hf : ((({ y with core := { y.core with m_coreReady := false, m_romPath := romPath } }
      : System σ)).call (.VFileOpen romPath)).files romPath = some vf := hfile
  have hc : (({ y with core := { y.core with m_coreReady := false, m_romPath := romPath } }
      : System σ).call (.VFileOpen romPath)).core.m_core = some c := hcore
  rw [hf]
  simp only []
  rw [hc]
  simp only []
  rw [if_neg (by simp [hacc])]
  simp [System.call]

theorem loadRom_keep (api : MCoreApi σ) (romPath : String) (created : Option σ) (y : System σ)
    (c : σ) (hcore : y.core.m_core = some c) (hrom : y.core.m_romLoaded = false) :
    loadRom api romPath created y = loadRomOpen api romPath y := by
  unfold loadRom
  simp only []
  have hn : ¬ (y.core.m_core.isNone = true ∨ y.core.m_romLoaded = true) := by
    simp [hcore, hrom]
  simp only [if_neg hn]
  rfl

theorem loadRom_create_fail (api : MCoreApi σ) (romPath : String) (y : System σ)
    (h : y.core.m_core = none ∨ y.core.m_romLoaded = true) :
    loadRom api romPath none y = some (false, (createCoreLocked api none y).2) := by
  unfold loadRom
  simp only []
  have hn : y.core.m_core.isNone = true ∨ y.core.m_romLoaded = true := by
    rcases h with h | h
    · exact Or.inl (by rw [h]; rfl)
    · exact Or.inr h
  rw [if_pos hn, if_pos (createCoreLocked_none api y).1]

theorem loadRom_create (api : MCoreApi σ) (romPath : String) (c : σ) (y : System σ)
    (h : y.core.m_core = none ∨ y.core.m_romLoaded = true) :
    loadRom api romPath (some c) y =
      loadRomOpen api romPath (createCoreLocked api (some c) y).2 := by
  unfold loadRom
  simp only []
  have hn : y.core.m_core.isNone = true ∨ y.core.m_romLoaded = true := by
    rcases h with h | h
    · exact Or.inl (by rw [h]; rfl)
    · exact Or.inr h
  rw [if_pos hn, if_neg (by simp [(createCoreLocked_some api c y).1])]

/-- What `loadRom` leaves once the engine instance is in place and no ROM is
loaded: Ready after success, neither loaded nor ready after failure. -/
theorem loadRomOpen_outcome (api : MCoreApi σ) (romPath : String) (y : System σ) (c : σ)
    (hcore : y.core.m_core = some c) (hrom : y.core.m_romLoaded = false)
    (r : Bool × System σ) (h : loadRomOpen api romPath y = some r) :
    (r.1 = true → ReadyState r.2.core) ∧
    (r.1 = false → r.2.core.m_romLoaded = false ∧ r.2.core.m_coreReady = false) := by
  cases hfile : y.files romPath with
  | none =>
    rw [loadRomOpen_missing api romPath y hfile] at h
    cases h
    exact ⟨fun h => Bool.noConfusion h, fun _ => ⟨hrom, rfl⟩⟩
  | some vf =>
    cases hacc : (api.loadROM c vf).1 with
    | false =>
      rw [loadRomOpen_refused api romPath y vf c hfile hcore hacc] at h
      cases h
      exact ⟨fun h => Bool.noConfusion h, fun _ => ⟨hrom, rfl⟩⟩
    | true =>
      rw [loadRomOpen_accepted api romPath y vf c hfile hcore hacc] at h
      obtain ⟨f1, f2, f3⟩ := loadRomFinish_cases api romPath (api.loadROM c vf).2
        { core := { y.core with
            m_coreReady := false, m_romPath := romPath, m_core := some (api.loadROM c vf).2 }
          files := y.files
          trace := y.trace ++ [.VFileOpen romPath, .loadROM] }
      cases hr : api.reset with
      | some f =>
        obtain ⟨y1, e1, e2, _⟩ := f1 f hr
        rw [e1] at h
        cases h
        exact ⟨fun _ => e2, fun h => Bool.noConfusion h⟩
      | none =>
        cases hu : api.unloadROM with
        | some u =>
          obtain ⟨y1, e1, e2, e3, _⟩ := f2 hr u hu
          rw [e1] at h
          cases h
          exact ⟨fun h => Bool.noConfusion h, fun _ => ⟨e2, e3⟩⟩
        | none =>
          rw [f3 hr hu] at h
          cases h

/-- What `loadRom` leaves: Ready after success; after failure neither loaded nor
ready, except when the engine could not be created, where only the engine
instance is gone. -/
theorem loadRom_outcome (api : MCoreApi σ) (romPath : String) (created : Option σ)
    (y : System σ) (r : Bool × System σ) (h : loadRom api romPath created y = some r) :
    (r.1 = true → ReadyState r.2.core) ∧
    (r.1 = false →
      (r.2.core.m_romLoaded = false ∧ r.2.core.m_coreReady = false) ∨
      (created = none ∧ (y.core.m_core = none ∨ y.core.m_romLoaded = true) ∧
        r.2.core = { y.core with m_core := none })) := by
  by_cases hneed : y.core.m_core = none ∨ y.core.m_romLoaded = true
  · cases created with
    | none =>
      rw [loadRom_create_fail api romPath y hneed] at h
      cases h
      exact ⟨fun h => Bool.noConfusion h,
        fun _ => Or.inr ⟨rfl, hneed, (createCoreLocked_none api y).2.1⟩⟩
    | some c =>
      rw [loadRom_create api romPath c y hneed] at h
      obtain ⟨_, a2, a3, _⟩ := createCoreLocked_some api c y
      obtain ⟨c1, hc1⟩ := Option.isSome_iff_exists.1 a2
      have := loadRomOpen_outcome api romPath _ c1 hc1 a3 r h
      exact ⟨this.1, fun hf => Or.inl (this.2 hf)⟩
  · simp only [not_or] at hneed
    obtain ⟨c, hcore⟩ := Option.ne_none_iff_exists'.1 hneed.1
    have hrom : y.core.m_romLoaded = false := by simpa using hneed.2
    rw [loadRom_keep api romPath created y c hcore hrom] at h
    have := loadRomOpen_outcome api romPath y c hcore hrom r h
    exact ⟨this.1, fun hf => Or.inl (this.2 hf)⟩

theorem appendAudioSamplesLoop_lifecycleFlags (samples : List Int) (n i : Nat)
    (s : JboyCore σ) :
    lifecycleFlags (appendAudioSamplesLoop samples n i s) = lifecycleFlags s := by
  induction n generalizing i s with
  | zero => rfl
  | succ n ih =>
    simp only [appendAudioSamplesLoop]
    rw [ih]
    unfold appendAudioSamplesStep
    simp only []
    split_ifs <;> rfl

theorem appendAudioSamples_lifecycleFlags (s : JboyCore σ) (samples : Option (List Int))
    (n : Int) : lifecycleFlags (appendAudioSamples s samples n) = lifecycleFlags s := by
  unfold appendAudioSamples
  cases samples with
  | none => rfl
  | some buf =>
    simp only []
    split_ifs
    · rfl
    · exact appendAudioSamplesLoop_lifecycleFlags buf _ _ s

theorem consumeCopyLoop_lifecycleFlags (n : Nat) (s : JboyCore σ) :
    lifecycleFlags (consumeCopyLoop n s).2 = lifecycleFlags s := by
  induction n generalizing s with
  | zero => rfl
  | succ n ih =>
    simp only [consumeCopyLoop]
    rw [ih]
    rfl

theorem trimBacklog_lifecycleFlags (s : JboyCore σ) (m : Int) :
    lifecycleFlags (trimBacklog s m) = lifecycleFlags s := by
  unfold trimBacklog
  simp only []
  split_ifs <;> rfl

theorem consumeAudioSamples_lifecycleFlags (s : JboyCore σ) (b : Bool) (m : Int) :
    lifecycleFlags (consumeAudioSamples s b m).core = lifecycleFlags s := by
  unfold consumeAudioSamples
  simp only []
  split_ifs
  · rfl
  · exact trimBacklog_lifecycleFlags s m
  · have h := consumeCopyLoop_lifecycleFlags (serveCount (trimBacklog s m) m).toNat
      (trimBacklog s m)
    rw [← trimBacklog_lifecycleFlags s m, ← h]
    rfl

theorem runFrame_lifecycleFlags (api : MCoreApi σ) (y : System σ) :
    lifecycleFlags (runFrame api y).core = lifecycleFlags y.core := by
  unfold runFrame
  cases hc : y.core.m_core with
  | none => rfl
  | some c =>
    simp only []
    split_ifs
    · rfl
    · cases hs : api.runFrame with
      | none => rfl
      | some step =>
        simp only []
        exact runFrameAudio_preserves api (fun s => lifecycleFlags s = lifecycleFlags y.core)
          (fun s buf k hs => (appendAudioSamples_lifecycleFlags s (some buf) _).trans hs)
          (step c y.core.m_coreVideoBuffer).1
          { y.call .runFrame with
            core := { y.core with
              m_coreVideoBuffer := (step c y.core.m_coreVideoBuffer).2
              m_videoBuffer := normalizeVideo api.color16 (step c y.core.m_coreVideoBuffer).2
                y.core.m_videoBuffer } } rfl

theorem saveState_lifecycleFlags (api : MCoreApi σ) (slot : Int) (fopenOk : Bool)
    (written flushed : Nat) (y : System σ) :
    lifecycleFlags (saveState api slot fopenOk written flushed y).2.core = lifecycleFlags y.core := by
  unfold saveState saveStateFallback
  simp only []
  repeat' split
  all_goals rfl

theorem hasSaveState_lifecycleFlags (api : MCoreApi σ) (slot : Int) (y : System σ) :
    lifecycleFlags (hasSaveState api slot y).2.core = lifecycleFlags y.core := by
  unfold hasSaveState
  simp only []
  repeat' split
  all_goals rfl

theorem setInput_lifecycleFlags (api : MCoreApi σ) (buttons : Int) (y : System σ) :
    lifecycleFlags (setInput api buttons y).core = lifecycleFlags y.core := by
  unfold setInput
  simp only []
  split <;> rfl

theorem setAudioConfig_lifecycleFlags (api : MCoreApi σ) (sampleRate bufferSize : Int)
    (y : System σ) :
    lifecycleFlags (setAudioConfig api sampleRate bufferSize y).core = lifecycleFlags y.core := by
  unfold setAudioConfig
  simp only []
  split <;> rfl

theorem setGameOptions_lifecycleFlags (api : MCoreApi σ) (a : Bool) (b c : Int) (d : Bool)
    (e : Int) (f : Bool) (y : System σ) :
    lifecycleFlags (setGameOptions api a b c d e f y).core = lifecycleFlags y.core := by
  unfold setGameOptions
  simp only []
  split <;> rfl

theorem loadState_romLoaded (api : MCoreApi σ) (slot : Int) (y : System σ) :
    (loadState api slot y).2.core.m_romLoaded = y.core.m_romLoaded := by
  unfold loadState loadStateFallback
  simp only []
  repeat' split
  all_goals rfl

theorem flagsAgree_of_lifecycleFlags {s t : JboyCore σ}
    (e : lifecycleFlags t = lifecycleFlags s) (h : FlagsAgree s) : FlagsAgree t := by
  unfold lifecycleFlags at e
  simp only [Prod.mk.injEq] at e
  unfold FlagsAgree at *
  rw [e.1, e.2.1]
  exact h

theorem flagsAgree_of_readyState {s : JboyCore σ} (h : ReadyState s) : FlagsAgree s := by
  unfold FlagsAgree
  rw [h.2.2.2.1, h.2.2.2.2.1]

theorem loadState_flagsAgree (api : MCoreApi σ) (slot : Int) (y : System σ)
    (h : FlagsAgree y.core) : FlagsAgree (loadState api slot y).2.core := by
  cases hr : (loadState api slot y).1 with
  | false => exact flagsAgree_of_lifecycleFlags ((loadState_flags api slot y).2 hr) h
  | true =>
    have hready := (loadState_flags api slot y).1 hr
    have hrom : y.core.m_romLoaded = true := by
      cases hl : y.core.m_romLoaded with
      | true => rfl
      | false =>
        rw [loadState_guard api slot y (Or.inr (Or.inl hl))] at hr
        cases hr
    unfold FlagsAgree
    rw [hready, loadState_romLoaded, hrom]

theorem loadRom_flagsAgree (api : MCoreApi σ) (romPath : String) (created : Option σ)
    (y : System σ) (r : Bool × System σ) (h : loadRom api romPath created y = some r)
    (hy : FlagsAgree y.core) : FlagsAgree r.2.core := by
  obtain ⟨h1, h2⟩ := loadRom_outcome api romPath created y r h
  cases hr : r.1 with
  | true => exact flagsAgree_of_readyState (h1 hr)
  | false =>
    rcases h2 hr with ⟨a, b⟩ | ⟨_, _, e⟩
    · unfold FlagsAgree
      rw [a, b]
    · rw [e]
      exact hy

/-- Every public call keeps the ready flag equal to the loaded flag. -/
theorem exec_flagsAgree (api : MCoreApi σ) (op : Op σ) (hop : op.Public) (y y1 : System σ)
    (h : op.exec api y = some y1) (hy : FlagsAgree y.core) : FlagsAgree y1.core := by
  cases op with
  | init created =>
    cases h
    cases created with
    | none =>
      show FlagsAgree (createCoreLocked api none y).2.core
      rw [(createCoreLocked_none api y).2.1]
      exact hy
    | some c =>
      show FlagsAgree (createCoreLocked api (some c) y).2.core
      obtain ⟨_, _, a3, a4, _⟩ := createCoreLocked_some api c y
      unfold FlagsAgree
      rw [a3, a4]
  | cleanup =>
    cases h
    unfold FlagsAgree cleanup
    rfl
  | loadRom romPath created =>
    simp only [Op.exec] at h
    cases hl : loadRom api romPath created y with
    | none => rw [hl] at h; cases h
    | some r =>
      rw [hl] at h
      cases h
      exact loadRom_flagsAgree api romPath created y r hl hy
  | unloadRom =>
    cases h
    unfold FlagsAgree unloadRom
    rfl
  | runFrame => cases h; exact flagsAgree_of_lifecycleFlags (runFrame_lifecycleFlags api y) hy
  | setInput buttons =>
    cases h; exact flagsAgree_of_lifecycleFlags (setInput_lifecycleFlags api buttons y) hy
  | saveState slot fopenOk written flushed =>
    cases h
    exact flagsAgree_of_lifecycleFlags (saveState_lifecycleFlags api slot fopenOk written flushed y) hy
  | loadState slot => cases h; exact loadState_flagsAgree api slot y hy
  | hasSaveState slot =>
    cases h; exact flagsAgree_of_lifecycleFlags (hasSaveState_lifecycleFlags api slot y) hy
  | pause => cases h; exact hy
  | resume => cases h; exact hy
  | reset created =>
    unfold Op.exec JboyCore.reset at h
    simp only [] at h
    split_ifs at h
    · cases h; exact hy
    · cases hl : loadRom api y.core.m_romPath created y with
      | none => rw [hl] at h; cases h
      | some r =>
        rw [hl] at h
        cases h
        exact loadRom_flagsAgree api _ created y r hl hy
  | setAudioConfig sampleRate bufferSize =>
    cases h
    exact flagsAgree_of_lifecycleFlags (setAudioConfig_lifecycleFlags api _ _ y) hy
  | setGameOptions a b c d e f =>
    cases h
    exact flagsAgree_of_lifecycleFlags (setGameOptions_lifecycleFlags api a b c d e f y) hy
  | consumeAudioSamples outNonNull maxSamples =>
    cases h
    exact flagsAgree_of_lifecycleFlags (consumeAudioSamples_lifecycleFlags y.core _ _) hy
  | appendAudioFrame left right =>
    cases h
    exact flagsAgree_of_lifecycleFlags (appendAudioSamples_lifecycleFlags y.core _ _) hy
  | appendAudioSamples samples sampleCount =>
    cases h
    exact flagsAgree_of_lifecycleFlags (appendAudioSamples_lifecycleFlags y.core _ _) hy
  | createCoreLocked created => exact absurd hop (by simp [Op.Public])
  | performCoreResetLocked => exact absurd hop (by simp [Op.Public])

theorem runOps_flagsAgree (api : MCoreApi σ) (ops : List (Op σ))
    (hops : ∀ op ∈ ops, op.Public) (y y1 : System σ)
    (h : runOps api ops y = some y1) (hy : FlagsAgree y.core) : FlagsAgree y1.core := by
  induction ops generalizing y with
  | nil => cases h; exact hy
  | cons op rest ih =>
    simp only [runOps] at h
    cases he : op.exec api y with
    | none => rw [he] at h; cases h
    | some y2 =>
      rw [he] at h
      exact ih (fun o ho => hops o (List.mem_cons_of_mem _ ho)) y2 h
        (exec_flagsAgree api op (hops op (List.mem_cons_self _ _)) y y2 he hy)

theorem loadRomOpen_isSome (api : MCoreApi σ) (romPath : String) (y : System σ) (c : σ)
    (hcore : y.core.m_core = some c) (h : api.reset ≠ none ∨ api.unloadROM ≠ none) :
    (loadRomOpen api romPath y).isSome = true := by
  cases hfile : y.files romPath with
  | none => rw [loadRomOpen_missing api romPath y hfile]; rfl
  | some vf =>
    cases hacc : (api.loadROM c vf).1 with
    | false => rw [loadRomOpen_refused api romPath y vf c hfile hcore hacc]; rfl
    | true =>
      rw [loadRomOpen_accepted api romPath y vf c hfile hcore hacc]
      obtain ⟨f1, f2, _⟩ := loadRomFinish_cases api romPath (api.loadROM c vf).2
        { core := { y.core with
            m_coreReady := false, m_romPath := romPath, m_core := some (api.loadROM c vf).2 }
          files := y.files
          trace := y.trace ++ [.VFileOpen romPath, .loadROM] }
      cases hr : api.reset with
      | some f =>
        obtain ⟨y1, e1, _⟩ := f1 f hr
        rw [e1]; rfl
      | none =>
        cases hu : api.unloadROM with
        | some u =>
          obtain ⟨y1, e1, _⟩ := f2 hr u hu
          rw [e1]; rfl
        | none =>
          rcases h with h | h
          · exact absurd hr h
          · exact absurd hu h

/-- With a `reset` or an `unloadROM` entry point in the engine, `loadRom` calls
no null pointer. -/
theorem loadRom_isSome (api : MCoreApi σ) (romPath : String) (created : Option σ)
    (y : System σ) (h : api.reset ≠ none ∨ api.unloadROM ≠ none) :
    (loadRom api romPath created y).isSome = true := by
  by_cases hneed : y.core.m_core = none ∨ y.core.m_romLoaded = true
  · cases created with
    | none => rw [loadRom_create_fail api romPath y hneed]; rfl
    | some c =>
      rw [loadRom_create api romPath c y hneed]
      obtain ⟨_, a2, _⟩ := createCoreLocked_some api c y
      obtain ⟨c1, hc1⟩ := Option.isSome_iff_exists.1 a2
      exact loadRomOpen_isSome api romPath _ c1 hc1 h
  · simp only [not_or] at hneed
    obtain ⟨c, hcore⟩ := Option.ne_none_iff_exists'.1 hneed.1
    have hrom : y.core.m_romLoaded = false := by simpa using hneed.2
    rw [loadRom_keep api romPath created y c hcore hrom]
    exact loadRomOpen_isSome api romPath y c hcore h

theorem exec_isSome (api : MCoreApi σ) (op : Op σ) (y : System σ)
    (h : api.reset ≠ none ∨ api.unloadROM ≠ none) : (op.exec api y).isSome = true := by
  cases op with
  | loadRom romPath created =>
    simp only [Op.exec, Option.isSome_map']
    exact loadRom_isSome api romPath created y h
  | reset created =>
    unfold Op.exec JboyCore.reset
    simp only []
    split_ifs
    · rfl
    · simp only [Option.isSome_map']
      exact loadRom_isSome api _ created y h
  | _ => rfl

theorem runOps_isSome (api : MCoreApi σ) (ops : List (Op σ)) (y : System σ)
    (h : api.reset ≠ none ∨ api.unloadROM ≠ none) : (runOps api ops y).isSome = true := by
  induction ops generalizing y with
  | nil => rfl
  | cons op rest ih =>
    simp only [runOps]
    obtain ⟨y1, hy1⟩ := Option.isSome_iff_exists.1 (exec_isSome api op y h)
    rw [hy1]
    exact ih y1

/-- C26: the lifecycle flag invariant. In every state reached from construction
by a sequence of public calls, whatever the engine and the file system answer,
`m_coreReady` holds exactly when `m_romLoaded` holds; and the sequence reaches a
state (no call ends in a null-pointer call) whenever the engine provides a
`reset` or an `unloadROM` entry point. -/
theorem flags_ready_iff_loaded (api : MCoreApi σ) (ops : List (Op σ))
    (files : String → Option (List Nat)) (hops : ∀ op ∈ ops, op.Public) :
    (∀ y, runOps api ops (System.initial files) = some y →
      (y.core.m_coreReady = true ↔ y.core.m_romLoaded = true)) ∧
    (api.reset ≠ none ∨ api.unloadROM ≠ none →
      ∃ y, runOps api ops (System.initial files) = some y) := by
  constructor
  · intro y h
    have := runOps_flagsAgree api ops hops (System.initial files) y h rfl
    unfold FlagsAgree at this
    rw [this]
  · intro h
    exact Option.isSome_iff_exists.1 (runOps_isSome api ops (System.initial files) h)

/-- Witness of `flags_ready_iff_loaded`: the session `demoOps` on the
demonstration engine. -/
theorem flags_ready_iff_loaded_witness :
    (∀ op ∈ demoOps, op.Public) ∧
    (demoAfterOps.core.m_coreReady = true ↔ demoAfterOps.core.m_romLoaded = true) :=
  ⟨by simp [demoOps, Op.Public],
    (flags_ready_iff_loaded demoApi demoOps demoFiles (by simp [demoOps, Op.Public])).1
      demoAfterOps demoOps_run⟩

/-- C22, with the evaluation of the code at the failing input: whenever
`loadRom` returns true, and whenever `reset` has reloaded the ROM with success,
the ring buffer is empty, the ROM is loaded, the state is Ready and not paused.
When the mandatory reset inside `loadRom` fails (the engine has no `reset`
entry point) and the engine has an `unloadROM` entry point, the ROM is unloaded
and `loadRom` returns false with `m_romLoaded` and `m_coreReady` false. When the
engine has no `unloadROM` entry point either, `loadRom` does not return false:
it calls the null pointer `m_core->unloadROM`, as it does for the demonstration
engine without the two entry points. -/
theorem loadRom_reset_postcondition (api : MCoreApi σ) :
    (∀ romPath created y r, loadRom api romPath created y = some r → r.1 = true →
      ReadyState r.2.core) ∧
    (∀ created y r, y.core.m_romPath.data ≠ [] →
      loadRom api y.core.m_romPath created y = some r → r.1 = true →
      JboyCore.reset api created y = some r.2 ∧ ReadyState r.2.core) ∧
    (∀ romPath c y u, api.reset = none → api.unloadROM = some u →
      ∃ y1, loadRomFinish api romPath c y = some (false, y1) ∧
        y1.core.m_romLoaded = false ∧ y1.core.m_coreReady = false ∧
        ExternalCall.unloadROM ∈ newCalls y y1) ∧
    (∀ romPath c y, api.reset = none → api.unloadROM = none →
      loadRomFinish api romPath c y = none) ∧
    ((init demoApiNoResetNoUnload (some demoFresh) (System.initial demoFiles)).1 = true ∧
      (loadRom demoApiNoResetNoUnload "rom.gba" (some demoFresh)
        (init demoApiNoResetNoUnload (some demoFresh) (System.initial demoFiles)).2).isNone =
        true ∧
      (loadRom demoApiNoReset "rom.gba" (some demoFresh)
        (init demoApiNoReset (some demoFresh) (System.initial demoFiles)).2).map
          (fun r => (r.1, r.2.core.m_romLoaded, r.2.core.m_coreReady)) =
        some (false, false, false)) := by
  refine ⟨?_, ?_, ?_, ?_, by decide⟩
  · intro romPath created y r h hr
    exact (loadRom_outcome api romPath created y r h).1 hr
  · intro created y r hpath h hr
    refine ⟨?_, (loadRom_outcome api _ created y r h).1 hr⟩
    unfold JboyCore.reset
    rw [if_neg hpath, h]
    rfl
  · intro romPath c y u hr hu
    obtain ⟨y1, e1, e2, e3, _, _, l, e6, e7⟩ :=
      (loadRomFinish_cases api romPath c y).2.1 hr u hu
    exact ⟨y1, e1, e2, e3, by rw [newCalls_append y y1 l e6]; exact e7⟩
  · intro romPath c y hr hu
    exact (loadRomFinish_cases api romPath c y).2.2 hr hu

/-- A `loadRom` whose file cannot be opened or is refused by the engine, in a
system with an engine instance and no ROM loaded. -/
theorem loadRomOpen_failed (api : MCoreApi σ) (romPath : String) (y : System σ) (c : σ)
    (hcore : y.core.m_core = some c)
    (hfail : y.files romPath = none ∨
      ∃ vf, y.files romPath = some vf ∧ ∀ c1, (api.loadROM c1 vf).1 = false) :
    ∃ c1 l, loadRomOpen api romPath y =
      some (false,
        { core := { y.core with m_coreReady := false, m_romPath := romPath, m_core := some c1 }
          files := y.files
          trace := y.trace ++ l }) ∧
      (y.files romPath = none → c1 = c) := by
  rcases hfail with hfile | ⟨vf, hfile, href⟩
  · refine ⟨c, [.VFileOpen romPath], ?_, fun _ => rfl⟩
    rw [loadRomOpen_missing api romPath y hfile]
    congr 3
    cases y with
    | mk core files trace =>
      cases core
      simp only at hcore
      subst hcore
      rfl
  · refine ⟨(api.loadROM c vf).2, [.VFileOpen romPath, .loadROM, .vfClose], ?_, ?_⟩
    · rw [loadRomOpen_refused api romPath y vf c hfile hcore (href c)]
    · intro h
      rw [h] at hfile
      cases hfile

/-- C23 (as amended): a failed `loadRom`. For every path that cannot be opened,
or that the engine refuses to load, in a state whose ready flag agrees with its
loaded flag, `loadRom` returns false and does not change the ROM title. If no
ROM was loaded before the call the loaded and ready flags are unchanged, and
with an engine instance present only the remembered ROM path and the engine
state can differ afterwards (the engine state too is unchanged when the file
cannot be opened). If a ROM was loaded before the call and the engine can be
created again, the engine is re-created and left with no ROM loaded
(`m_romLoaded` and `m_coreReady` false); if it cannot be created, the old
instance is gone and every other member, the two flags included, keeps its
value. -/
theorem loadRom_failed (api : MCoreApi σ) (romPath : String) (created : Option σ)
    (y : System σ) (hagree : FlagsAgree y.core)
    (hfail : y.files romPath = none ∨
      ∃ vf, y.files romPath = some vf ∧ ∀ c1, (api.loadROM c1 vf).1 = false) :
    ∃ r, loadRom api romPath created y = some r ∧ r.1 = false ∧
      r.2.core.m_romTitle = y.core.m_romTitle ∧
      (y.core.m_romLoaded = false →
        r.2.core.m_romLoaded = y.core.m_romLoaded ∧
        r.2.core.m_coreReady = y.core.m_coreReady) ∧
      (y.core.m_romLoaded = false → ∀ c, y.core.m_core = some c →
        ∃ c1, r.2.core = { y.core with m_romPath := romPath, m_core := some c1 } ∧
          (y.files romPath = none → c1 = c)) ∧
      (y.core.m_romLoaded = true → ∀ c, created = some c →
        r.2.core.m_romLoaded = false ∧ r.2.core.m_coreReady = false ∧
        r.2.core.m_core.isSome = true ∧ ExternalCall.mCoreCreate ∈ newCalls y r.2) ∧
      (y.core.m_romLoaded = true → created = none →
        r.2.core = { y.core with m_core := none }) := by
  unfold FlagsAgree at hagree
  by_cases hneed : y.core.m_core = none ∨ y.core.m_romLoaded = true
  · cases created with
    | none =>
      refine ⟨_, loadRom_create_fail api romPath y hneed, rfl, ?_, ?_, ?_, ?_, ?_⟩
      · rw [(createCoreLocked_none api y).2.1]
      · intro _
        rw [(createCoreLocked_none api y).2.1]
        exact ⟨rfl, rfl⟩
      · intro hrom c hc
        rcases hneed with h | h
        · rw [hc] at h
          cases h
        · rw [hrom] at h
          cases h
      · intro _ c hc
        cases hc
      · intro _ _
        exact (createCoreLocked_none api y).2.1
    | some c0 =>
      obtain ⟨_, a2, a3, a4, a5, _, a7, l0, a8, a9, _⟩ := createCoreLocked_some api c0 y
      obtain ⟨c1, hc1⟩ := Option.isSome_iff_exists.1 a2
      obtain ⟨c2, l, e, _⟩ := loadRomOpen_failed api romPath
        (createCoreLocked api (some c0) y).2 c1 hc1 (by rw [a7]; exact hfail)
      refine ⟨_, (loadRom_create api romPath c0 y hneed).trans e, rfl, a5, ?_, ?_, ?_, ?_⟩
      · intro hrom
        refine ⟨a3.trans hrom.symm, ?_⟩
        show false = y.core.m_coreReady
        rw [hagree, hrom]
      · intro hrom c hc
        rcases hneed with h | h
        · rw [hc] at h
          cases h
        · rw [hrom] at h
          cases h
      · intro _ c _
        refine ⟨a3, rfl, rfl, ?_⟩
        rw [newCalls_append y _ (l0 ++ l) (by simp only []; rw [a8, List.append_assoc])]
        exact List.mem_append_left _ a9
      · intro _ h
        cases h
  · simp only [not_or] at hneed
    obtain ⟨c, hcore⟩ := Option.ne_none_iff_exists'.1 hneed.1
    have hrom : y.core.m_romLoaded = false := by simpa using hneed.2
    obtain ⟨c1, l, e, e2⟩ := loadRomOpen_failed api romPath y c hcore hfail
    refine ⟨_, (loadRom_keep api romPath created y c hcore hrom).trans e, rfl, rfl, ?_, ?_, ?_,
      ?_⟩
    · intro _
      refine ⟨rfl, ?_⟩
      show false = y.core.m_coreReady
      rw [hagree, hrom]
    · intro _ c' hc'
      refine ⟨c1, ?_, ?_⟩
      · have hr : y.core.m_coreReady = false := by rw [hagree, hrom]
        cases y with
        | mk core files trace =>
          cases core
          simp only at hr
          subst hr
          rfl
      · intro hf
        rw [hcore] at hc'
        cases hc'
        exact e2 hf
    · intro h
      rw [hrom] at h
      cases h
    · intro h
      rw [hrom] at h
      cases h

/-- Witness of `loadRom_failed`: the path "missing.gba" on the demonstration
system with a ROM loaded. -/
theorem loadRom_failed_witness :
    ∃ r, loadRom demoApi "missing.gba" (some demoFresh) (demoLoaded demoApi) = some r ∧
      r.1 = false ∧ r.2.core.m_romTitle = (demoLoaded demoApi).core.m_romTitle ∧
      r.2.core.m_romLoaded = false ∧ r.2.core.m_coreReady = false := by
  obtain ⟨r, h1, h2, h3, _, _, h6, _⟩ :=
    loadRom_failed demoApi "missing.gba" (some demoFresh) (demoLoaded demoApi) (by rfl)
      (Or.inl (by rfl))
  exact ⟨r, h1, h2, h3, (h6 (by rfl) demoFresh rfl).1, (h6 (by rfl) demoFresh rfl).2.1⟩

/-- Counterexample to C23 as stated: a ROM is loaded, the path "missing.gba"
cannot be opened and `mCoreCreate` returns null; `loadRom` returns false, the
engine instance is gone and not re-created, and `m_romLoaded` and `m_coreReady`
are still true. -/
theorem loadRom_failed_counterexample :
    (demoLoaded demoApi).core.m_romLoaded = true ∧
    (demoLoaded demoApi).files "missing.gba" = none ∧
    (loadRom demoApi "missing.gba" none (demoLoaded demoApi)).map
      (fun r => (r.1, r.2.core.m_core.isSome, r.2.core.m_romLoaded, r.2.core.m_coreReady)) =
      some (false, false, true, true) := by
  decide

/-- A `loadRom` in a system with an engine instance and no ROM loaded succeeds
when the file opens, the engine accepts it and the engine has a `reset` entry
point. -/
theorem loadRom_reloads (api : MCoreApi σ) (romPath : String) (created : Option σ)
    (y : System σ) (c : σ) (vf : List Nat) (f : σ → σ)
    (hcore : y.core.m_core = some c) (hrom : y.core.m_romLoaded = false)
    (hfile : y.files romPath = some vf) (hacc : (api.loadROM c vf).1 = true)
    (hreset : api.reset = some f) :
    ∃ y1, loadRom api romPath created y = some (true, y1) ∧ ReadyState y1.core ∧
      ExternalCall.loadROM ∈ newCalls y y1 ∧ ExternalCall.reset ∈ newCalls y y1 := by
  obtain ⟨y1, e1, e2, _, _, l, e5, e6⟩ :=
    (loadRomFinish_cases api romPath (api.loadROM c vf).2
      { core := { y.core with
          m_coreReady := false, m_romPath := romPath, m_core := some (api.loadROM c vf).2 }
        files := y.files
        trace := y.trace ++ [.VFileOpen romPath, .loadROM] }).1 f hreset
  have hn : newCalls y y1 = [.VFileOpen romPath, .loadROM] ++ l :=
    newCalls_append y y1 _ (by rw [e5, List.append_assoc])
  refine ⟨y1, ?_, e2, ?_, ?_⟩
  · rw [loadRom_keep api romPath created y c hcore hrom,
      loadRomOpen_accepted api romPath y vf c hfile hcore hacc, e1]
  · rw [hn]
    simp
  · rw [hn]
    exact List.mem_append_right _ e6

theorem unloadRom_romPath (api : MCoreApi σ) (y : System σ) :
    (unloadRom api y).core.m_romPath = y.core.m_romPath ∧
    (unloadRom api y).core.m_romLoaded = false ∧
    (unloadRom api y).core.m_coreReady = false ∧
    (unloadRom api y).files = y.files := by
  unfold unloadRom
  cases y.core.m_core <;> cases api.unloadROM <;> cases y.core.m_romLoaded <;>
    simp [System.call, clearAudio]

/-- C21 (as amended): `reset` requires a remembered ROM path. For every state
whose ROM path is empty (no `loadRom` has been called), `reset` fails without
state corruption: the whole object is unchanged and nothing is called. In a
state with a ROM path, also when no ROM is loaded, `reset` is `loadRom` of that
path: `unloadRom` keeps the path, so after `unloadRom` following a `loadRom`,
with the file still there, accepted by the engine, and an engine `reset` entry
point, `reset` loads the ROM again and resets the engine, and the state is
Ready. -/
theorem reset_reloads (api : MCoreApi σ) (created : Option σ) (y : System σ) :
    (y.core.m_romPath.data = [] → JboyCore.reset api created y = some y) ∧
    (y.core.m_romPath.data ≠ [] →
      JboyCore.reset api created y =
        (loadRom api y.core.m_romPath created y).map (fun r => r.2)) ∧
    (JboyCore.construct : JboyCore σ).m_romPath = "" ∧
    (unloadRom api y).core.m_romPath = y.core.m_romPath ∧
    (∀ c vf f, y.core.m_romPath.data ≠ [] → (unloadRom api y).core.m_core = some c →
      y.files y.core.m_romPath = some vf → (api.loadROM c vf).1 = true →
      api.reset = some f →
      ∃ y1, JboyCore.reset api created (unloadRom api y) = some y1 ∧ ReadyState y1.core ∧
        ExternalCall.loadROM ∈ newCalls (unloadRom api y) y1 ∧
        ExternalCall.reset ∈ newCalls (unloadRom api y) y1) := by
  obtain ⟨u1, u2, _, u4⟩ := unloadRom_romPath api y
  refine ⟨?_, ?_, rfl, u1, ?_⟩
  · intro h
    unfold JboyCore.reset
    rw [if_pos h]
  · intro h
    unfold JboyCore.reset
    rw [if_neg h]
  · intro c vf f hpath hcore hfile hacc hreset
    obtain ⟨y1, e1, e2, e3, e4⟩ := loadRom_reloads api y.core.m_romPath created
      (unloadRom api y) c vf f hcore u2 (by rw [u4]; exact hfile) hacc hreset
    refine ⟨y1, ?_, e2, e3, e4⟩
    unfold JboyCore.reset
    rw [u1, if_neg hpath, e1]
    rfl

/-- Witness of `reset_reloads`: `reset` after `unloadRom` on the
demonstration system with a ROM loaded. -/
theorem reset_reloads_witness :
    ∃ y1, JboyCore.reset demoApi none (unloadRom demoApi (demoLoaded demoApi)) = some y1 ∧
      ReadyState y1.core ∧
      ExternalCall.loadROM ∈ newCalls (unloadRom demoApi (demoLoaded demoApi)) y1 ∧
      ExternalCall.reset ∈ newCalls (unloadRom demoApi (demoLoaded demoApi)) y1 :=
  (reset_reloads demoApi none (demoLoaded demoApi)).2.2.2.2 demoFresh [1]
    (fun c => { c with frame := 0, pending := 0 }) (by decide) (by rfl) (by rfl) (by rfl)
    (by rfl)

/-- Counterexample to C21 as stated: after `loadRom` and `unloadRom` no ROM is
loaded, yet `reset` loads the ROM and resets the engine, and leaves the loaded
and ready flags true and the ROM title restored. -/
theorem reset_reloads_counterexample :
    (unloadRom demoApi (demoLoaded demoApi)).core.m_romLoaded = false ∧
    (unloadRom demoApi (demoLoaded demoApi)).core.m_romTitle = "" ∧
    (JboyCore.reset demoApi none (unloadRom demoApi (demoLoaded demoApi))).map
      (fun y1 => (y1.core.m_romLoaded, y1.core.m_coreReady, y1.core.m_romTitle,
        newCalls (unloadRom demoApi (demoLoaded demoApi)) y1)) =
      some (true, true, "DEMO",
        [.VFileOpen "rom.gba", .loadROM, .mCoreLoadSaveFile "rom.sav", .getGameInfo,
          .resetSetup, .reset]) := by
  decide

end Jboy
